import Mathlib

/-!
# Verification of a keyed-list reconciliation core

This development embeds, shallowly, the reconciliation core of a client-side
templating library:

* the node-range utilities of `src/directives/repeat.ts` and `src/lib/dom.ts`
  (`removeNodes`, `removeNodesWithRemovalHandler`, `NodeRemovalToken`,
  `commitRemoveNode`, `removePart`) over a model of a single container's
  ordered child-node list (`LitDom`);
* the keyed-list reconciler of `src/directives/repeat.ts` (`repeat`) over a
  model in which the container part's region is the ordered list of child-part
  identifiers, each part owning one contiguous DOM range (`LitRepeat`);
* the two-tier template cache of the template factory (`LitTemplate`).

Machine state is passed explicitly; JS `Map`/array semantics (insertion with
overwrite, sparse assignment, `undefined` reads out of range) are modelled
faithfully.  Theorems at the end settle the specification claims.
-/

namespace LitDom

/-- Kinds of DOM nodes relevant to the range utilities: `nodeType` is only ever
inspected to test for `COMMENT_NODE`. -/
inductive NodeKind where
  | comment
  | element
  | text
deriving DecidableEq, Repr

/-- Node attributes: each node identifier has a fixed kind and `nodeValue`.
Attributes are immutable in all the code modelled here, so they are carried as
a total function beside the mutable child list. -/
abbrev Attrs := Nat → NodeKind × String

/-- The distinguished identifier of the single modelled container node.  The
nodes traversed by the range utilities are top-level children of one container
(the region of a container part), so one parent suffices. -/
def containerId : Nat := 0

/-- The marker test of `removeNodesWithRemovalHandler` (repeat.ts line 85):
`node.nodeType === node.COMMENT_NODE && node.nodeValue === ''`. -/
def isMarkerNode (attrs : Attrs) (i : Nat) : Bool :=
  (attrs i).1 == NodeKind.comment && (attrs i).2 == ""

/-- `node.nextSibling` within the container's child list: the identifier that
follows the first occurrence of `i`; `none` when `i` is last or detached. -/
def nextSibling : List Nat → Nat → Option Nat
  | [], _ => none
  | a :: l, i => if a = i then l.head? else nextSibling l i

/-- Errors the modelled DOM operations can signal. -/
inductive DomErr where
  /-- `Error('illegal node mutation')` thrown by `throwIllegalNodeModification`. -/
  | illegalMutation
  /-- DOM `NotFoundError`: `removeChild` argument is not a child of the receiver. -/
  | notFound
  /-- DOM `TypeError`: null receiver or non-Node argument. -/
  | typeErr
deriving DecidableEq, Repr

/-- `receiver.removeChild(arg)`.  In this flat model only the container has
children, so removal succeeds exactly when the receiver is the container and
the argument is currently one of its children; a null receiver or null
argument raises a `TypeError`, any other combination the DOM's
`NotFoundError` (in particular a child node, which has no children here,
cannot remove anything). -/
def removeChild (children : List Nat) (receiver arg : Option Nat) :
    Except DomErr (List Nat) :=
  match receiver, arg with
  | none, _ => .error .typeErr
  | _, none => .error .typeErr
  | some r, some a =>
    if r = containerId ∧ a ∈ children then .ok (children.erase a)
    else .error .notFound

/-- Result of an imperative traversal: the final child list, the identifiers of
the nodes the removal handler was invoked on (in order), and the error that
aborted the traversal, if any.  Mutations performed before an abort persist,
as they do in the imperative source. -/
structure RmOut where
  children : List Nat
  trace : List Nat
  err : Option DomErr
deriving DecidableEq, Repr

/-- Loop of `removeNodes` (dom.ts lines 56-63): walk from `start` (inclusive)
to `endN` (exclusive), taking the next sibling before removing the current
node.  Reading `start!.nextSibling` with `start` null raises a `TypeError`.
The fuel argument only bounds the iteration count; callers supply enough. -/
def removeNodesGo (receiver : Option Nat) :
    Nat → List Nat → Option Nat → Option Nat → List Nat × Option DomErr
  | 0, children, _, _ => (children, none)
  | fuel + 1, children, start, endN =>
    if start = endN then (children, none)
    else
      match start with
      | none => (children, some .typeErr)
      | some sid =>
        let n := nextSibling children sid
        match removeChild children receiver (some sid) with
        | .error e => (children, some e)
        | .ok children' => removeNodesGo receiver fuel children' n endN

/-- `removeNodes` (dom.ts lines 56-63). -/
def removeNodes (children : List Nat) (receiver start endN : Option Nat) :
    List Nat × Option DomErr :=
  removeNodesGo receiver (children.length + 1) children start endN

/-- `NodeRemovalToken` (repeat.ts lines 52-64): carries the traversed node,
its container, and the `defaultPrevented` flag set by `preventDefault()`. -/
structure NodeRemovalToken where
  target : Nat
  container : Option Nat
  defaultPrevented : Bool
deriving DecidableEq, Repr

/-- `commitRemoveNode(node, container)` (repeat.ts lines 99-105): guards on the
`container` parameter being non-null (else `throwIllegalNodeModification`),
then performs `container.removeChild(node)`. -/
def commitRemoveNode (children : List Nat) (node container : Option Nat) :
    Except DomErr (List Nat) :=
  match container with
  | none => .error .illegalMutation
  | some _ => removeChild children container node

/-- `NodeRemovalToken.commit()` (repeat.ts lines 61-63).  The source passes
`(this.container, this.target)` into `commitRemoveNode(node, container)`, so
the token's container arrives in the `node` parameter and the token's target
in the `container` parameter. -/
def NodeRemovalToken.commit (t : NodeRemovalToken) (children : List Nat) :
    Except DomErr (List Nat) :=
  commitRemoveNode children t.container (some t.target)

/-- A removal handler, modelled as the decision whether it called
`preventDefault()` on the token it received.  Handlers are pure here: they may
inspect the token but perform no DOM mutation of their own. -/
abbrev NodeRemovalHandler := NodeRemovalToken → Bool

/-- Loop of `removeNodesWithRemovalHandler` (repeat.ts lines 79-92): walk the
sibling chain from `node` to `endN`; a null current node before `endN` is the
illegal-mutation abort; marker nodes (empty comments) are passed over without
invoking the handler; for any other node the handler is invoked on a fresh
token and, unless it prevented the default, `token.commit()` runs. -/
def removeHandlerGo (attrs : Attrs) (container : Option Nat)
    (h : NodeRemovalHandler) :
    Nat → List Nat → Option Nat → Option Nat → List Nat → RmOut
  | 0, children, _, _, trace => ⟨children, trace, none⟩
  | fuel + 1, children, node, endN, trace =>
    if node = endN then ⟨children, trace, none⟩
    else
      match node with
      | none => ⟨children, trace, some .illegalMutation⟩
      | some nid =>
        let next := nextSibling children nid
        if isMarkerNode attrs nid then
          removeHandlerGo attrs container h fuel children next endN trace
        else
          let tok : NodeRemovalToken :=
            { target := nid, container := container, defaultPrevented := h ⟨nid, container, false⟩ }
          if tok.defaultPrevented then
            removeHandlerGo attrs container h fuel children next endN (trace ++ [nid])
          else
            match tok.commit children with
            | .error e => ⟨children, trace ++ [nid], some e⟩
            | .ok children' =>
              removeHandlerGo attrs container h fuel children' next endN (trace ++ [nid])

/-- `removeNodesWithRemovalHandler` (repeat.ts lines 72-93): with no handler it
defers to `removeNodes`; otherwise it runs the handler traversal.  The fuel
`2 * length + 2` dominates the iteration count (each step either consumes a
child or advances along the sibling chain). -/
def removeNodesWithRemovalHandler (attrs : Attrs) (children : List Nat)
    (container start endN : Option Nat) (h : Option NodeRemovalHandler) : RmOut :=
  match h with
  | none =>
    let (c, e) := removeNodes children container start endN
    ⟨c, [], e⟩
  | some h =>
    removeHandlerGo attrs container h (2 * children.length + 2) children start endN []

/-- `part.startNode.parentNode`: the container when the node is attached,
null when it is not. -/
def parentNode (children : List Nat) (i : Nat) : Option Nat :=
  if i ∈ children then some containerId else none

/-- A `NodePart`'s boundary markers, at node level. -/
structure NPartNodes where
  startNode : Nat
  endNode : Nat
deriving DecidableEq, Repr

/-- `removePart` (repeat.ts lines 107-114): remove the range from the part's
start marker through its end marker (`endNode.nextSibling` exclusive), with the
optional removal handler. -/
def removePart (attrs : Attrs) (children : List Nat) (p : NPartNodes)
    (h : Option NodeRemovalHandler) : RmOut :=
  removeNodesWithRemovalHandler attrs children (parentNode children p.startNode)
    (some p.startNode) (nextSibling children p.endNode) h

end LitDom

namespace LitTemplate

/-- JS `Map.get`: first (only) binding for the key in an insertion-ordered
association list. -/
def lookupA {κ ν : Type} [DecidableEq κ] (m : List (κ × ν)) (k : κ) : Option ν :=
  (m.find? (fun e => e.1 = k)).map (fun e => e.2)

/-- JS `Map.set`: overwrite the existing binding in place, else append. -/
def setA {κ ν : Type} [DecidableEq κ] : List (κ × ν) → κ → ν → List (κ × ν)
  | [], k, v => [(k, v)]
  | e :: m, k, v => if e.1 = k then (k, v) :: m else e :: setA m k v

/-- A `TemplateStringsArray`: an object identity together with the static
string segments it carries.  Two results formed from the same object agree on
`content`; the `id` models reference identity. -/
structure StringsArr where
  id : Nat
  content : List String
deriving DecidableEq, Repr

/-- The parts of a `TemplateResult` that `templateFactory` consults. -/
structure TemplateResult where
  type : Nat
  strings : StringsArr
deriving DecidableEq, Repr

/-- Modelled from the spec: the private marker token used to join the static
string segments into a content key.  Its defining module (`template.js`) is
not among the sources; only its role as the join separator matters here. -/
def marker : String := "<!--lit-part-marker-->"

/-- The mutable caches of the template factory module: `templateCaches` (per
result type, keyed by strings identity) and `keyedTemplates` (keyed by the
joined content string); `nextTemplate` allocates identities for
`new Template(...)`. -/
structure TFState where
  templateCaches : List (Nat × List (Nat × Nat))
  keyedTemplates : List (String × Nat)
  nextTemplate : Nat
deriving DecidableEq, Repr

/-- `templateFactory(result)`: look up the per-type cache (creating it on
first use), try tier 1 by strings identity, on a miss derive the content key
`result.strings.join(marker)`, look up or create the template in tier 2, and
populate both tiers before returning. -/
def templateFactory (s : TFState) (result : TemplateResult) : Nat × TFState :=
  let templateCache :=
    match lookupA s.templateCaches result.type with
    | some m => m
    | none => []
  let s0 :=
    match lookupA s.templateCaches result.type with
    | some _ => s
    | none => { s with templateCaches := setA s.templateCaches result.type [] }
  match lookupA templateCache result.strings.id with
  | some template => (template, s0)
  | none =>
    let key := String.intercalate marker result.strings.content
    let (template, s1) :=
      match lookupA s0.keyedTemplates key with
      | some template => (template, s0)
      | none =>
        (s0.nextTemplate,
          { s0 with
              nextTemplate := s0.nextTemplate + 1
              keyedTemplates := setA s0.keyedTemplates key s0.nextTemplate })
    (template,
      { s1 with
          templateCaches :=
            setA s1.templateCaches result.type
              (setA templateCache result.strings.id template) })

/-- Coherence between the two tiers, relative to an ambient assignment `C` of
static-string content to strings-array identities: every tier-1 entry is also
recorded in tier 2 under the content key of its strings array.  It holds of
the empty initial state and is preserved by `templateFactory`. -/
def TiersCoherent (s : TFState) (C : Nat → List String) : Prop :=
  ∀ ty m, lookupA s.templateCaches ty = some m →
    ∀ sid t, lookupA m sid = some t →
      lookupA s.keyedTemplates (String.intercalate marker (C sid)) = some t

end LitTemplate

namespace LitRepeat

/-!
The reconciler model.  A `NodePart` owns one contiguous DOM range delimited by
its two markers, and within the container part's region the children are
exactly the child parts' ranges in document order; the region is therefore
modelled as the ordered list of child-part identifiers.  Each part-level
operation below mirrors one helper of `src/directives/repeat.ts`; the claims
about the reconciliation algorithm are settled for the default configuration
without a removal handler (`onRemove` undefined), where `removePart` deletes
the part's whole range.
-/

/-- Machine state for one container part: `dom` is the list of child-part
identifiers in document order between the container part's markers, `vals` the
committed value of each part, `nextId` allocates fresh parts; `moves`,
`creates` and `mapBuilds` count `reparentNodes` calls, part creations, and
generations of the lazy key-to-index maps (instrumentation only: no branch of
the algorithm reads them). -/
structure RS where
  dom : List Nat
  vals : Nat → Nat
  nextId : Nat
  moves : Nat
  creates : Nat
  mapBuilds : Nat

/-- DOM `insertBefore`: insert `x` immediately before the first occurrence of
`ref`; a null reference appends.  Call sites only pass references that are
present in the list (a part's start marker, or the container's end marker,
which the end of the list stands for). -/
def insertIdBefore (x : Nat) (ref : Option Nat) : List Nat → List Nat
  | [] => [x]
  | a :: l =>
    match ref with
    | none => a :: insertIdBefore x none l
    | some b => if a = b then x :: a :: l else a :: insertIdBefore x (some b) l

/-- Does `p`'s range already end exactly at the insertion point (`ref`'s start
marker, or the container's end marker when `ref` is absent)?  This is the
negation of the `endNode !== beforeNode` guard of `insertPartBefore`. -/
def alreadyBefore (p : Nat) (ref : Option Nat) : List Nat → Bool
  | [] => false
  | [a] => a == p && ref == none
  | a :: b :: l => (a == p && ref == some b) || alreadyBefore p ref (b :: l)

/-- `createAndInsertPart(containerPart, beforePart?)` (repeat.ts lines 23-33):
allocate a fresh part and insert its empty range before `beforePart`'s start
marker, or before the container's end marker when `beforePart` is undefined. -/
def createAndInsertPart (s : RS) (beforePart : Option Nat) : RS × Nat :=
  let pid := s.nextId
  ({ s with
      dom := insertIdBefore pid beforePart s.dom
      nextId := pid + 1
      creates := s.creates + 1 }, pid)

/-- `updatePart(part, value)` (lines 35-39): `part.setValue(value)` then
`part.commit()`. -/
def updatePart (s : RS) (p v : Nat) : RS :=
  { s with vals := fun q => if q = p then v else s.vals q }

/-- `insertPartBefore(containerPart, part, ref?)` (lines 41-49): move `part`'s
whole range to just before `ref`'s start marker (or the container's end
marker); the `endNode !== beforeNode` guard makes it a no-op when the range
already ends there, so only an actual `reparentNodes` call counts as a move. -/
def insertPartBefore (s : RS) (p : Nat) (ref : Option Nat) : RS :=
  if alreadyBefore p ref s.dom then s
  else { s with
          dom := insertIdBefore p ref (s.dom.erase p)
          moves := s.moves + 1 }

/-- `removePart(part)` (lines 107-114) on the default handler-less path:
`removeNodes` deletes the part's whole range. -/
def removePart (s : RS) (p : Nat) : RS :=
  { s with dom := s.dom.erase p }

/-- JS indexed read `l[i]` at a (possibly negative or too large) index:
`undefined` out of range. -/
def getI {α : Type} (l : List α) (i : Int) : Option α :=
  if 0 ≤ i then l[i.toNat]? else none

/-- Read of the sparse `newParts` array: holes and out-of-range reads are both
`undefined`; only parts are ever stored. -/
def aget (l : List (Option Nat)) (i : Int) : Option Nat :=
  (getI l i).join

/-- JS array assignment `l[i] := part`: an in-range write sets the slot, a
write past the end extends the array, filling skipped slots with holes.  The
loop only ever assigns at indices `0 ≤ i < newKeys.length`. -/
def aset (l : List (Option Nat)) (i : Int) (v : Nat) : List (Option Nat) :=
  if i < 0 then l
  else if i.toNat < l.length then l.set i.toNat (some v)
  else l ++ List.replicate (i.toNat - l.length) none ++ [some v]

/-- JS assignment `oldParts[i] = null` (the tombstone of line 454); the index
always lies within the array, since it comes from the old key-to-index map. -/
def setNull (l : List (Option Nat)) (i : Int) : List (Option Nat) :=
  l.set i.toNat none

/-- The non-null assertion `oldParts[i]!` of the source: at every use the slot
holds a live part (the preceding null checks and the loop bounds guarantee
it), so the fallback is never produced. -/
def getPart (l : List (Option Nat)) (i : Int) : Nat :=
  match getI l i with
  | some (some p) => p
  | _ => 0

/-- In-range read `newValues[i]`. -/
def getV (l : List Nat) (i : Int) : Nat := (getI l i).getD 0

/-- One `map.set(list[i], i)` step; a later binding overwrites an earlier one,
as `Map.set` does. -/
def mapSet (m : Option Nat → Option Int) (k : Option Nat) (v : Int) :
    Option Nat → Option Int :=
  fun k' => if k' = k then some v else m k'

/-- Iterations of `generateMap` (lines 119-125), counted down explicitly. -/
def generateMapGo (list : List Nat) : Nat → Int → (Option Nat → Option Int) →
    Option Nat → Option Int
  | 0, _, m => m
  | cnt + 1, i, m => generateMapGo list cnt (i + 1) (mapSet m (getI list i) i)

/-- `generateMap(list, start, end)`: map each key of `list[start..end]`
(inclusive) to its index. -/
def generateMap (list : List Nat) (start endI : Int) : Option Nat → Option Int :=
  generateMapGo list (endI + 1 - start).toNat start (fun _ => none)

/-- The mutable locals of the reconciliation loop of `repeat` (lines 195-198
and 386-459): machine state, the two part arrays, the four pointers, and the
lazily generated key-to-index maps (`none` until the stuck branch first
runs). -/
structure LoopState where
  s : RS
  oldParts : List (Option Nat)
  newParts : List (Option Nat)
  oldHead : Int
  oldTail : Int
  newHead : Int
  newTail : Int
  maps : Option ((Option Nat → Option Int) × (Option Nat → Option Int))

/-- The head/tail reconciliation loop of `repeat` (lines 386-459), one fuel
unit per iteration.  Each iteration strictly decreases
`(oldTail + 1 - oldHead) + (newTail + 1 - newHead)`, and `reconcile` supplies
more fuel than the initial value of that measure, so the fuel-0 fall-through is
never reached from the top level. -/
def reconcileLoop (oldKeys newKeys newValues : List Nat) :
    Nat → LoopState → LoopState
  | 0, st => st
  | fuel + 1, st =>
    if st.oldHead ≤ st.oldTail ∧ st.newHead ≤ st.newTail then
      if getI st.oldParts st.oldHead = some none then
        -- `oldParts[oldHead] === null`: skip a tombstone at the head
        reconcileLoop oldKeys newKeys newValues fuel
          { st with oldHead := st.oldHead + 1 }
      else if getI st.oldParts st.oldTail = some none then
        -- tombstone at the tail
        reconcileLoop oldKeys newKeys newValues fuel
          { st with oldTail := st.oldTail - 1 }
      else if getI oldKeys st.oldHead = getI newKeys st.newHead then
        -- old head matches new head: update in place
        let p := getPart st.oldParts st.oldHead
        reconcileLoop oldKeys newKeys newValues fuel
          { st with
              s := updatePart st.s p (getV newValues st.newHead)
              newParts := aset st.newParts st.newHead p
              oldHead := st.oldHead + 1
              newHead := st.newHead + 1 }
      else if getI oldKeys st.oldTail = getI newKeys st.newTail then
        -- old tail matches new tail: update in place
        let p := getPart st.oldParts st.oldTail
        reconcileLoop oldKeys newKeys newValues fuel
          { st with
              s := updatePart st.s p (getV newValues st.newTail)
              newParts := aset st.newParts st.newTail p
              oldTail := st.oldTail - 1
              newTail := st.newTail - 1 }
      else if getI oldKeys st.oldHead = getI newKeys st.newTail then
        -- old head matches new tail: update and move to the new tail
        let p := getPart st.oldParts st.oldHead
        let np1 := aset st.newParts st.newTail p
        let s1 := updatePart st.s p (getV newValues st.newTail)
        let s2 := insertPartBefore s1 p (aget np1 (st.newTail + 1))
        reconcileLoop oldKeys newKeys newValues fuel
          { st with
              s := s2
              newParts := np1
              oldHead := st.oldHead + 1
              newTail := st.newTail - 1 }
      else if getI oldKeys st.oldTail = getI newKeys st.newHead then
        -- old tail matches new head: update and move to the new head
        let p := getPart st.oldParts st.oldTail
        let np1 := aset st.newParts st.newHead p
        let s1 := updatePart st.s p (getV newValues st.newHead)
        let s2 := insertPartBefore s1 p (some (getPart st.oldParts st.oldHead))
        reconcileLoop oldKeys newKeys newValues fuel
          { st with
              s := s2
              newParts := np1
              oldTail := st.oldTail - 1
              newHead := st.newHead + 1 }
      else
        -- the "stuck" branch (lines 421-457): build both maps once, lazily
        let gen :=
          match st.maps with
          | some ms => (ms, st.s)
          | none =>
            ((generateMap newKeys st.newHead st.newTail,
              generateMap oldKeys st.oldHead st.oldTail),
             { st.s with mapBuilds := st.s.mapBuilds + 1 })
        let newKeyToIndexMap := gen.1.1
        let oldKeyToIndexMap := gen.1.2
        let s0 := gen.2
        let maps' := some (newKeyToIndexMap, oldKeyToIndexMap)
        if (newKeyToIndexMap (getI oldKeys st.oldHead)).isSome = false then
          -- old head is no longer in the new list: remove it
          reconcileLoop oldKeys newKeys newValues fuel
            { st with
                s := removePart s0 (getPart st.oldParts st.oldHead)
                maps := maps'
                oldHead := st.oldHead + 1 }
        else if (newKeyToIndexMap (getI oldKeys st.oldTail)).isSome = false then
          -- old tail is no longer in the new list: remove it
          reconcileLoop oldKeys newKeys newValues fuel
            { st with
                s := removePart s0 (getPart st.oldParts st.oldTail)
                maps := maps'
                oldTail := st.oldTail - 1 }
        else
          let oldIndex := oldKeyToIndexMap (getI newKeys st.newHead)
          let oldPart : Option (Option Nat) :=
            match oldIndex with
            | some i => getI st.oldParts i
            | none => some none
          match oldPart with
          | some (some op) =>
            -- reuse: update, move before the old head, tombstone the old slot
            let np1 := aset st.newParts st.newHead op
            let s1 := updatePart s0 op (getV newValues st.newHead)
            let s2 := insertPartBefore s1 op (some (getPart st.oldParts st.oldHead))
            reconcileLoop oldKeys newKeys newValues fuel
              { st with
                  s := s2
                  newParts := np1
                  oldParts := setNull st.oldParts (oldIndex.getD 0)
                  maps := maps'
                  newHead := st.newHead + 1 }
          | _ =>
            -- no old part for this key (or its slot was tombstoned):
            -- create a new part before the old head
            let created := createAndInsertPart s0 (some (getPart st.oldParts st.oldHead))
            let s2 := updatePart created.1 created.2 (getV newValues st.newHead)
            reconcileLoop oldKeys newKeys newValues fuel
              { st with
                  s := s2
                  newParts := aset st.newParts st.newHead created.2
                  maps := maps'
                  newHead := st.newHead + 1 }
    else st

/-- The trailing insertion loop (lines 461-468): each remaining new value gets
a fresh part created before `newParts[newTail + 1]`. -/
def insertLoop (newValues : List Nat) :
    Nat → RS → List (Option Nat) → Int → Int → RS × List (Option Nat)
  | 0, s, newParts, _, _ => (s, newParts)
  | cnt + 1, s, newParts, newHead, newTail =>
    if newHead ≤ newTail then
      let created := createAndInsertPart s (aget newParts (newTail + 1))
      let s2 := updatePart created.1 created.2 (getV newValues newHead)
      insertLoop newValues cnt s2 (aset newParts newHead created.2)
        (newHead + 1) newTail
    else (s, newParts)

/-- The trailing removal loop (lines 470-475): every remaining old part that
was not tombstoned is removed. -/
def removeLoop (oldParts : List (Option Nat)) :
    Nat → RS → Int → Int → RS
  | 0, s, _, _ => s
  | cnt + 1, s, oldHead, oldTail =>
    if oldHead ≤ oldTail then
      match getI oldParts oldHead with
      | some (some p) =>
        removeLoop oldParts cnt (removePart s p) (oldHead + 1) oldTail
      | _ => removeLoop oldParts cnt s (oldHead + 1) oldTail
    else s

/-- The key/value generation loop (lines 178-185): `newKeys[index]` is the key
function's value, or the index itself when no key function was supplied, and
`newValues[index]` the item template's value. -/
def genLists (keyFn : Option (Nat → Nat → Nat)) (template : Nat → Nat → Nat) :
    List Nat → Nat → List Nat × List Nat
  | [], _ => ([], [])
  | it :: rest, index =>
    let tl := genLists keyFn template rest (index + 1)
    ((match keyFn with | some f => f it index | none => index) :: tl.1,
     template it index :: tl.2)

/-- The reconciliation state persisted per container part (`partListCache` and
`keyListCache`, lines 127-129). -/
structure Cache where
  partList : List (Option Nat)
  keyList : List Nat
deriving DecidableEq, Repr

/-- Result of one reconciliation call: the machine state and the persisted
cache for the next call. -/
structure ReconOut where
  s : RS
  cache : Cache

/-- The directive body of `repeat` for a child-content binding (lines
162-479), without a removal handler: read the cached old parts and keys,
generate the new keys and values, run the head/tail loop and the two trailing
loops, and persist the new parts and keys. -/
def reconcile (keyFn : Option (Nat → Nat → Nat)) (template : Nat → Nat → Nat)
    (items : List Nat) (cache : Cache) (s : RS) : ReconOut :=
  let oldParts := cache.partList
  let oldKeys := cache.keyList
  let gen := genLists keyFn template items 0
  let newKeys := gen.1
  let newValues := gen.2
  let st0 : LoopState :=
    { s := s
      oldParts := oldParts
      newParts := []
      oldHead := 0
      oldTail := (oldParts.length : Int) - 1
      newHead := 0
      newTail := (newValues.length : Int) - 1
      maps := none }
  let st := reconcileLoop oldKeys newKeys newValues
    (oldParts.length + newValues.length + 1) st0
  let ins := insertLoop newValues ((st.newTail + 1 - st.newHead).toNat)
    st.s st.newParts st.newHead st.newTail
  let s2 := removeLoop st.oldParts ((st.oldTail + 1 - st.oldHead).toNat)
    ins.1 st.oldHead st.oldTail
  { s := s2, cache := { partList := ins.2, keyList := newKeys } }

/-- The binding positions a directive can be attached to (the `Part`
hierarchy); only a `NodePart` supports child content. -/
inductive BoundPart where
  | nodePart (cache : Cache) (s : RS)
  | attributePart
  | booleanAttributePart
  | propertyPart
  | eventPart

/-- The argument shuffling of `repeat(items, keyFnOrTemplate, template?)`
(lines 155-160): with two arguments the second is the item template and no
key function is used; with three, the second is the key function. -/
def repeatArgs (keyFnOrTemplate : Nat → Nat → Nat)
    (template : Option (Nat → Nat → Nat)) :
    Option (Nat → Nat → Nat) × (Nat → Nat → Nat) :=
  match template with
  | none => (none, keyFnOrTemplate)
  | some t => (some keyFnOrTemplate, t)

/-- The directive function returned by `repeat` (lines 150-165): it first
checks that the binding position is a `NodePart` and throws
`Error('repeat can only be used in text bindings')` otherwise; no
reconciliation work happens before that check. -/
def repeatDirective (keyFnOrTemplate : Nat → Nat → Nat)
    (template : Option (Nat → Nat → Nat)) (items : List Nat)
    (p : BoundPart) : Except String ReconOut :=
  match p with
  | .nodePart cache s =>
    let args := repeatArgs keyFnOrTemplate template
    .ok (reconcile args.1 args.2 items cache s)
  | _ => .error "repeat can only be used in text bindings"

/-- The filled-slot shape of the sparse `newParts` array during the loop: the
assigned indices of `0..n-1` are exactly those below `newHead` or above
`newTail`, and the array never grows past `n`. -/
def ShapeT (n : Nat) (np : List (Option Nat)) (nh nt : Int) : Prop :=
  0 ≤ nh ∧ nt < (n : Int) ∧ nh ≤ nt + 1 ∧ np.length ≤ n ∧
  ∀ i : Nat, i < n → ((aget np i).isSome ↔ ((i : Int) < nh ∨ nt < (i : Int)))

/-- The live parts recorded at `cnt` consecutive slots from `a` on: tombstones,
holes and out-of-range reads contribute nothing. -/
def liveSegGo (l : List (Option Nat)) : Nat → Nat → List Nat
  | 0, _ => []
  | cnt + 1, a => (aget l (a : Int)).toList ++ liveSegGo l cnt (a + 1)

/-- The live parts recorded at slots `[a, b)` of a sparse parts array, in slot
order. -/
def liveSeg (l : List (Option Nat)) (a b : Nat) : List Nat :=
  liveSegGo l (b - a) a

/-- The loop invariant of the head/tail reconciliation loop.  The container
holds, in document order: the parts already placed at the front of `newParts`,
then the still-pending (non-tombstoned) old parts of the old window in their
old order, then the parts already placed at the back of `newParts`; the whole
list is duplicate-free and every part id is below the allocator counter.
`keyK` records that every old slot that was consumed or tombstoned has a key
distinct from every still-pending new key, and `mapsOk` that the lazily built
maps are complete on the pending new window and sound for the old keys. -/
structure LoopInv (oldKeys newKeys : List Nat) (st : LoopState) : Prop where
  shape : ShapeT newKeys.length st.newParts st.newHead st.newTail
  ohPos : 0 ≤ st.oldHead
  otLt : st.oldTail < (oldKeys.length : Int)
  ohLe : st.oldHead ≤ st.oldTail + 1
  olen : st.oldParts.length = oldKeys.length
  domEq : st.s.dom =
    liveSeg st.newParts 0 st.newHead.toNat ++
    liveSeg st.oldParts st.oldHead.toNat (st.oldTail + 1).toNat ++
    liveSeg st.newParts (st.newTail + 1).toNat newKeys.length
  domNodup : st.s.dom.Nodup
  fresh : ∀ p ∈ st.s.dom, p < st.s.nextId
  keyK : ∀ j : Nat, j < oldKeys.length →
    ((j : Int) < st.oldHead ∨ st.oldTail < (j : Int) ∨
      getI st.oldParts (j : Int) = some none) →
    ∀ i : Nat, st.newHead ≤ (i : Int) → (i : Int) ≤ st.newTail →
      getI oldKeys (j : Int) ≠ getI newKeys (i : Int)
  mapsOk : ∀ nm om, st.maps = some (nm, om) →
    (∀ i : Nat, st.newHead ≤ (i : Int) → (i : Int) ≤ st.newTail →
      (nm (getI newKeys (i : Int))).isSome) ∧
    (∀ k j, om k = some j →
      (0 ≤ j ∧ j < (oldKeys.length : Int)) ∧ getI oldKeys j = k)

end LitRepeat

namespace LitDom

theorem nextSibling_append {A : List Nat} {s : Nat} (hs : s ∉ A) (l : List Nat) :
    nextSibling (A ++ s :: l) s = l.head? := by
  induction A with
  | nil => simp [nextSibling]
  | cons a A ih =>
    have ha : ¬a = s := fun h => hs (by simp [h])
    have hA : s ∉ A := fun h => hs (List.mem_cons_of_mem a h)
    simpa [nextSibling, ha] using ih hA

theorem commit_error_of_not_child {children : List Nat} {container : Option Nat}
    {nid : Nat} (hacy : ∀ cid, container = some cid → cid ∉ children) (b : Bool) :
    ∃ err, NodeRemovalToken.commit ⟨nid, container, b⟩ children = .error err := by
  match container, hacy with
  | none, _ => exact ⟨.typeErr, rfl⟩
  | some c, hacy =>
    have hcc : c ∉ children := hacy c rfl
    refine ⟨.notFound, ?_⟩
    simp [NodeRemovalToken.commit, commitRemoveNode, removeChild, hcc]

theorem removeHandlerGo_children (attrs : Attrs) (container : Option Nat)
    (h : NodeRemovalHandler) {children : List Nat}
    (hacy : ∀ cid, container = some cid → cid ∉ children) :
    ∀ fuel node endN trace,
      (removeHandlerGo attrs container h fuel children node endN trace).children =
        children := by
  intro fuel
  induction fuel with
  | zero => intro node endN trace; rfl
  | succ fuel ih =>
    intro node endN trace
    simp only [removeHandlerGo]
    by_cases he : node = endN
    · simp [he]
    · simp only [if_neg he]
      match node with
      | none => rfl
      | some nid =>
        by_cases hm : isMarkerNode attrs nid
        · simp [hm, ih]
        · simp only [hm, Bool.false_eq_true, if_false]
          by_cases hp : h ⟨nid, container, false⟩
          · simp [hp, ih]
          · obtain ⟨err, hc⟩ := @commit_error_of_not_child _ _ nid hacy false
            simp [hp, hc]

theorem removeHandlerGo_trace (attrs : Attrs) (container : Option Nat)
    (h : NodeRemovalHandler) :
    ∀ fuel children node endN trace,
      (∀ i ∈ trace, isMarkerNode attrs i = false) →
      ∀ i ∈ (removeHandlerGo attrs container h fuel children node endN trace).trace,
        isMarkerNode attrs i = false := by
  intro fuel
  induction fuel with
  | zero => intro children node endN trace ht; exact ht
  | succ fuel ih =>
    intro children node endN trace ht
    simp only [removeHandlerGo]
    by_cases he : node = endN
    · simpa [he] using ht
    · simp only [if_neg he]
      match node with
      | none => exact ht
      | some nid =>
        by_cases hm : isMarkerNode attrs nid
        · simp only [hm, if_true]
          exact ih children _ endN trace ht
        · have ht' : ∀ i ∈ trace ++ [nid], isMarkerNode attrs i = false := by
            intro i hi
            rcases List.mem_append.1 hi with hi | hi
            · exact ht i hi
            · simp only [List.mem_singleton] at hi
              subst hi
              exact Bool.not_eq_true _ |>.mp hm
          simp only [hm, Bool.false_eq_true, if_false]
          by_cases hp : h ⟨nid, container, false⟩
          · simp only [hp, if_true]
            exact ih children _ endN _ ht'
          · simp only [hp, Bool.false_eq_true, if_false]
            match hcm : NodeRemovalToken.commit ⟨nid, container, false⟩ children with
            | .error e => exact ht'
            | .ok children' => exact ih children' _ endN _ ht'

theorem removeNodesGo_removes_range :
    ∀ (seg A B children : List Nat) (fuel : Nat), children = A ++ seg ++ B →
      children.Nodup → seg.length + 1 ≤ fuel →
      removeNodesGo (some containerId) fuel children ((seg ++ B).head?) B.head? =
        (A ++ B, none) := by
  intro seg
  induction seg with
  | nil =>
    intro A B children fuel hc hn hf
    match fuel, hf with
    | fuel + 1, _ => simp [removeNodesGo, hc]
  | cons s rest ih =>
    intro A B children fuel hc hn hf
    subst hc
    match fuel, hf with
    | fuel + 1, hf =>
      have hC : A ++ (s :: rest) ++ B = A ++ s :: (rest ++ B) := by simp
      rw [hC]
      have hn1 : (A ++ s :: (rest ++ B)).Nodup := hC ▸ hn
      have hsA : s ∉ A := fun hmem =>
        (List.nodup_append.mp hn1).2.2 hmem (by simp)
      have hsB : s ∉ B :=
        fun hmem => (List.nodup_cons.mp (List.nodup_append.mp hn1).2.1).1
          (List.mem_append.mpr (Or.inr hmem))
      have hne : (some s : Option Nat) ≠ B.head? := by
        intro hEq
        cases B with
        | nil => exact Option.some_ne_none s hEq
        | cons b B' =>
          have hsb : s = b := by simpa using hEq
          exact hsB (hsb ▸ List.mem_cons_self b B')
      have hmem : s ∈ A ++ s :: (rest ++ B) := by simp
      have hnext : nextSibling (A ++ s :: (rest ++ B)) s = (rest ++ B).head? :=
        nextSibling_append hsA (rest ++ B)
      have hrc : removeChild (A ++ s :: (rest ++ B)) (some containerId) (some s) =
          .ok (A ++ (rest ++ B)) := by
        have herase : (A ++ s :: (rest ++ B)).erase s = A ++ (rest ++ B) := by
          rw [List.erase_append_right _ hsA, List.erase_cons_head]
        simp [removeChild, hmem, herase]
      have hstart : ((s :: rest) ++ B).head? = some s := rfl
      rw [hstart]
      simp only [removeNodesGo, if_neg hne, hrc, hnext]
      have hn2 : (A ++ rest ++ B).Nodup := by
        refine List.Sublist.nodup ?_ hn
        refine List.Sublist.append ?_ (List.Sublist.refl B)
        exact List.Sublist.append_left (List.sublist_cons_self s rest) A
      have hf2 : rest.length + 1 ≤ fuel := by
        simp only [List.length_cons] at hf; omega
      have := ih A B (A ++ rest ++ B) fuel rfl hn2 hf2
      simpa [List.append_assoc] using this

/-- Claim C2 (code_bug, failing input): container `0` holds children
`[1, 2, 3]`, node `2` a `div` and nodes `1`, `3` markers; the removal handler
never calls `preventDefault`.  The claim expects node `2` to be removed from
its container, but `NodeRemovalToken.commit` passes `(this.container,
this.target)` into `commitRemoveNode(node, container)`, so the code executes
`target.removeChild(container)`: the DOM raises `NotFoundError`, the traversal
aborts, and node `2` is still a child of the container afterwards. -/
theorem C2_swapped_commit_throws_notFound :
    removeNodesWithRemovalHandler
        (fun i => if i = 2 then (NodeKind.element, "div") else (NodeKind.comment, ""))
        [1, 2, 3] (some 0) (some 1) none (some (fun _ => false)) =
      ⟨[1, 2, 3], [2], some DomErr.notFound⟩ ∧
    2 ∈ (removeNodesWithRemovalHandler
        (fun i => if i = 2 then (NodeKind.element, "div") else (NodeKind.comment, ""))
        [1, 2, 3] (some 0) (some 1) none (some (fun _ => false))).children := by
  constructor <;> decide

/-- Claim C7 (code_bug): the first trigger works as claimed — a traversal whose
current node becomes null before the end node is reached aborts with the
illegal-mutation error (first conjunct, end node `99` is not a sibling of the
lone marker child `1`).  At the failing input for the second trigger — the
recorded container (`parentNode`) being null at commit time — the swapped
arguments of `NodeRemovalToken.commit` make the null-guard of
`commitRemoveNode` inspect the never-null target instead, so the code runs
`target.removeChild(null)` and raises a `TypeError`, not the illegal-mutation
error the claim states (second conjunct). -/
theorem C7_null_container_raises_typeError_not_illegalMutation :
    removeNodesWithRemovalHandler (fun _ => (NodeKind.comment, ""))
        [1] (some 0) (some 1) (some 99) (some (fun _ => false)) =
      ⟨[1], [], some DomErr.illegalMutation⟩ ∧
    removeNodesWithRemovalHandler (fun _ => (NodeKind.element, ""))
        [5] none (some 5) none (some (fun _ => false)) =
      ⟨[5], [5], some DomErr.typeErr⟩ ∧
    some DomErr.typeErr ≠ some DomErr.illegalMutation := by
  refine ⟨by decide, by decide, by decide⟩

/-- Claim C9 (confirmed): with a removal handler supplied,
`removeNodesWithRemovalHandler` neither invokes the handler on marker nodes
(empty comments) nor removes them; since `removePart`'s range runs from the
part's start marker through its end marker, removing a part with a handler
leaves both boundary markers in the DOM, whereas the handler-less path removes
every node of the range, markers included. -/
theorem C9_removal_handler_preserves_markers
    (attrs : Attrs) (A mid B : List Nat) (s e : Nat) (h : NodeRemovalHandler)
    (children : List Nat) (hc : children = A ++ s :: (mid ++ e :: B))
    (hn : children.Nodup) (hct : containerId ∉ children)
    (hs : isMarkerNode attrs s = true) (he : isMarkerNode attrs e = true) :
    (∀ m ∈ children, isMarkerNode attrs m = true →
        m ∈ (removePart attrs children ⟨s, e⟩ (some h)).children) ∧
    s ∈ (removePart attrs children ⟨s, e⟩ (some h)).children ∧
    e ∈ (removePart attrs children ⟨s, e⟩ (some h)).children ∧
    (∀ i ∈ (removePart attrs children ⟨s, e⟩ (some h)).trace,
        isMarkerNode attrs i = false) ∧
    (removePart attrs children ⟨s, e⟩ none).children = A ++ B ∧
    (removePart attrs children ⟨s, e⟩ none).err = none := by
  have hsmem : s ∈ children := by simp [hc]
  have hparent : parentNode children s = some containerId := by
    simp [parentNode, hsmem]
  have hacy : ∀ cid, (some containerId : Option Nat) = some cid → cid ∉ children := by
    rintro cid hcid
    obtain rfl : containerId = cid := Option.some.inj hcid
    exact hct
  have hkeep :
      (removePart attrs children ⟨s, e⟩ (some h)).children = children := by
    simp only [removePart, removeNodesWithRemovalHandler, hparent]
    exact removeHandlerGo_children attrs (some containerId) h hacy _ _ _ _
  have htrace :
      ∀ i ∈ (removePart attrs children ⟨s, e⟩ (some h)).trace,
        isMarkerNode attrs i = false := by
    simp only [removePart, removeNodesWithRemovalHandler, hparent]
    exact removeHandlerGo_trace attrs (some containerId) h _ children _ _ []
      (by intro i hi; simp at hi)
  have heA : e ∉ A ++ s :: mid := by
    intro hmem
    have hn1 : ((A ++ s :: mid) ++ e :: B).Nodup := by
      simpa [hc, List.append_assoc] using hn
    exact (List.nodup_append.mp hn1).2.2 hmem (by simp)
  have hnexte : nextSibling children e = B.head? := by
    have : children = (A ++ s :: mid) ++ e :: B := by simp [hc]
    rw [this]
    exact nextSibling_append heA B
  have hplain : removeNodes children (some containerId) (some s) B.head? =
      (A ++ B, none) := by
    have hseg : children = A ++ (s :: (mid ++ [e])) ++ B := by
      simp [hc]
    have hstart : (((s :: (mid ++ [e])) ++ B).head? : Option Nat) = some s := rfl
    have := removeNodesGo_removes_range (s :: (mid ++ [e])) A B children
      (children.length + 1) hseg hn
      (by simp [hseg]; omega)
    rw [hstart] at this
    exact this
  refine ⟨?_, ?_, ?_, htrace, ?_, ?_⟩
  · intro m hm _; rw [hkeep]; exact hm
  · rw [hkeep]; exact hsmem
  · rw [hkeep]; simp [hc]
  · simp only [removePart, removeNodesWithRemovalHandler, hparent, hnexte, hplain]
  · simp only [removePart, removeNodesWithRemovalHandler, hparent, hnexte, hplain]

/-- Witness for C9 at a concrete part: children `[1, 5, 2]` with boundary
markers `1` and `2` around content node `5`. -/
theorem C9_removal_handler_preserves_markers_witness :
    ([1, 5, 2] : List Nat).Nodup ∧
    ((∀ m ∈ ([1, 5, 2] : List Nat),
        isMarkerNode (fun i => if i = 5 then (NodeKind.element, "x") else (NodeKind.comment, "")) m = true →
        m ∈ (removePart (fun i => if i = 5 then (NodeKind.element, "x") else (NodeKind.comment, ""))
              [1, 5, 2] ⟨1, 2⟩ (some (fun _ => false))).children) ∧
      1 ∈ (removePart (fun i => if i = 5 then (NodeKind.element, "x") else (NodeKind.comment, ""))
              [1, 5, 2] ⟨1, 2⟩ (some (fun _ => false))).children ∧
      2 ∈ (removePart (fun i => if i = 5 then (NodeKind.element, "x") else (NodeKind.comment, ""))
              [1, 5, 2] ⟨1, 2⟩ (some (fun _ => false))).children ∧
      (∀ i ∈ (removePart (fun i => if i = 5 then (NodeKind.element, "x") else (NodeKind.comment, ""))
              [1, 5, 2] ⟨1, 2⟩ (some (fun _ => false))).trace,
        isMarkerNode (fun i => if i = 5 then (NodeKind.element, "x") else (NodeKind.comment, "")) i = false) ∧
      (removePart (fun i => if i = 5 then (NodeKind.element, "x") else (NodeKind.comment, ""))
              [1, 5, 2] ⟨1, 2⟩ none).children = [] ++ [] ∧
      (removePart (fun i => if i = 5 then (NodeKind.element, "x") else (NodeKind.comment, ""))
              [1, 5, 2] ⟨1, 2⟩ none).err = none) :=
  ⟨by decide,
   C9_removal_handler_preserves_markers
     (fun i => if i = 5 then (NodeKind.element, "x") else (NodeKind.comment, ""))
     [] [5] [] 1 2 (fun _ => false) [1, 5, 2] rfl (by decide) (by decide)
     (by decide) (by decide)⟩

end LitDom

namespace LitTemplate

theorem lookupA_setA_self {κ ν : Type} [DecidableEq κ] (m : List (κ × ν)) (k : κ) (v : ν) :
    lookupA (setA m k v) k = some v := by
  induction m with
  | nil => simp [setA, lookupA]
  | cons e m ih =>
    by_cases he : e.1 = k
    · simp [setA, he, lookupA]
    · simpa [setA, he, lookupA, List.find?] using ih

theorem lookupA_setA_ne {κ ν : Type} [DecidableEq κ] (m : List (κ × ν)) (k k' : κ) (v : ν)
    (hne : k' ≠ k) : lookupA (setA m k v) k' = lookupA m k' := by
  have h1 : ¬k = k' := fun h => hne h.symm
  induction m with
  | nil => simp [setA, lookupA, List.find?, h1]
  | cons e m ih =>
    by_cases he : e.1 = k
    · have h2 : ¬e.1 = k' := by rw [he]; exact h1
      simp [setA, he, lookupA, List.find?, h1, h2]
    · have hstep : setA (e :: m) k v = e :: setA m k v := by simp [setA, he]
      rw [hstep]
      by_cases he' : e.1 = k'
      · simp [lookupA, List.find?, he']
      · simp only [lookupA, List.find?] at ih ⊢
        simpa [he'] using ih

theorem templateFactory_hit {s : TFState} {r : TemplateResult} {m : List (Nat × Nat)} {t : Nat}
    (htc : lookupA s.templateCaches r.type = some m)
    (hm : lookupA m r.strings.id = some t) :
    templateFactory s r = (t, s) := by
  simp [templateFactory, htc, hm]

theorem TiersCoherent.add_empty_type {s : TFState} {C : Nat → List String} (ty : Nat)
    (hInv : TiersCoherent s C) :
    TiersCoherent { s with templateCaches := setA s.templateCaches ty [] } C := by
  intro ty' m' h1 sid' t' h2
  by_cases hty : ty' = ty
  · subst hty
    rw [lookupA_setA_self] at h1
    obtain rfl : ([] : List (Nat × Nat)) = m' := Option.some.inj h1
    simp [lookupA] at h2
  · rw [lookupA_setA_ne _ _ _ _ hty] at h1
    exact hInv ty' m' h1 sid' t' h2

theorem TiersCoherent.extend_keyed {s : TFState} {C : Nat → List String}
    {key : String} (t nt : Nat)
    (hInv : TiersCoherent s C) (hmiss : lookupA s.keyedTemplates key = none) :
    TiersCoherent { s with nextTemplate := nt, keyedTemplates := setA s.keyedTemplates key t } C := by
  intro ty' m' h1 sid' t' h2
  have hold := hInv ty' m' h1 sid' t' h2
  by_cases hk : String.intercalate marker (C sid') = key
  · rw [hk] at hold
    rw [hold] at hmiss
    simp at hmiss
  · show lookupA (setA s.keyedTemplates key t) (String.intercalate marker (C sid')) = some t'
    rw [lookupA_setA_ne _ _ _ _ hk]
    exact hold

theorem TiersCoherent.update {s : TFState} {C : Nat → List String}
    (ty sid t : Nat) (m0 : List (Nat × Nat))
    (hInv : TiersCoherent s C)
    (hm0 : ∀ sid' t', lookupA m0 sid' = some t' →
        lookupA s.keyedTemplates (String.intercalate marker (C sid')) = some t')
    (hkeyed : lookupA s.keyedTemplates (String.intercalate marker (C sid)) = some t) :
    TiersCoherent { s with templateCaches := setA s.templateCaches ty (setA m0 sid t) } C := by
  intro ty' m' h1 sid' t' h2
  by_cases hty : ty' = ty
  · subst hty
    rw [lookupA_setA_self] at h1
    obtain rfl : setA m0 sid t = m' := Option.some.inj h1
    by_cases hsid : sid' = sid
    · subst hsid
      rw [lookupA_setA_self] at h2
      obtain rfl : t = t' := Option.some.inj h2
      exact hkeyed
    · rw [lookupA_setA_ne _ _ _ _ hsid] at h2
      exact hm0 sid' t' h2
  · rw [lookupA_setA_ne _ _ _ _ hty] at h1
    exact hInv ty' m' h1 sid' t' h2

theorem templateFactory_post (s : TFState) (C : Nat → List String) (r : TemplateResult)
    (hInv : TiersCoherent s C) (hr : r.strings.content = C r.strings.id) :
    lookupA (templateFactory s r).2.keyedTemplates
        (String.intercalate marker r.strings.content) = some (templateFactory s r).1 ∧
    (∃ m, lookupA (templateFactory s r).2.templateCaches r.type = some m ∧
        lookupA m r.strings.id = some (templateFactory s r).1) ∧
    TiersCoherent (templateFactory s r).2 C := by
  rcases htc : lookupA s.templateCaches r.type with _ | m
  · -- first result of this type: the type cache is created, tier 1 misses
    have hInv0 : TiersCoherent
        { s with templateCaches := setA s.templateCaches r.type [] } C :=
      TiersCoherent.add_empty_type r.type hInv
    have hm0 : lookupA ([] : List (Nat × Nat)) r.strings.id = none := by simp [lookupA]
    rcases hk : lookupA s.keyedTemplates
        (String.intercalate marker r.strings.content) with _ | t
    · -- tier-2 miss: a fresh Template is created and recorded in both tiers
      have hfac : templateFactory s r =
          (s.nextTemplate,
            { s with
                nextTemplate := s.nextTemplate + 1
                keyedTemplates := setA s.keyedTemplates
                  (String.intercalate marker r.strings.content) s.nextTemplate
                templateCaches :=
                  setA (setA s.templateCaches r.type [])
                    r.type (setA [] r.strings.id s.nextTemplate) }) := by
        simp [templateFactory, htc, hm0, hk]
      rw [hfac]
      refine ⟨?_, ⟨setA [] r.strings.id s.nextTemplate, ?_, ?_⟩, ?_⟩
      · exact lookupA_setA_self _ _ _
      · exact lookupA_setA_self _ _ _
      · exact lookupA_setA_self _ _ _
      · have h1 : TiersCoherent
            { s with
                templateCaches := setA s.templateCaches r.type []
                nextTemplate := s.nextTemplate + 1
                keyedTemplates := setA s.keyedTemplates
                  (String.intercalate marker r.strings.content) s.nextTemplate } C := by
          refine TiersCoherent.extend_keyed s.nextTemplate (s.nextTemplate + 1) hInv0 ?_
          exact hk
        have h2 := TiersCoherent.update (s := { s with
                templateCaches := setA s.templateCaches r.type []
                nextTemplate := s.nextTemplate + 1
                keyedTemplates := setA s.keyedTemplates
                  (String.intercalate marker r.strings.content) s.nextTemplate })
          r.type r.strings.id s.nextTemplate [] h1
          (by intro sid' t' hl; simp [lookupA] at hl)
          (by rw [← hr]; exact lookupA_setA_self _ _ _)
        exact h2
    · -- tier-2 hit: the existing Template is reused and recorded in tier 1
      have hfac : templateFactory s r =
          (t, { s with
                  templateCaches :=
                    setA (setA s.templateCaches r.type [])
                      r.type (setA [] r.strings.id t) }) := by
        simp [templateFactory, htc, hm0, hk]
      rw [hfac]
      refine ⟨hk, ⟨setA [] r.strings.id t, ?_, ?_⟩, ?_⟩
      · exact lookupA_setA_self _ _ _
      · exact lookupA_setA_self _ _ _
      · have h2 := TiersCoherent.update (s := { s with
                templateCaches := setA s.templateCaches r.type [] })
          r.type r.strings.id t [] hInv0
          (by intro sid' t' hl; simp [lookupA] at hl)
          (by rw [← hr]; exact hk)
        exact h2
  · rcases hm : lookupA m r.strings.id with _ | t
    · -- tier-1 miss on an existing type cache
      rcases hk : lookupA s.keyedTemplates
          (String.intercalate marker r.strings.content) with _ | t
      · have hfac : templateFactory s r =
            (s.nextTemplate,
              { s with
                  nextTemplate := s.nextTemplate + 1
                  keyedTemplates := setA s.keyedTemplates
                    (String.intercalate marker r.strings.content) s.nextTemplate
                  templateCaches :=
                    setA s.templateCaches r.type
                      (setA m r.strings.id s.nextTemplate) }) := by
          simp [templateFactory, htc, hm, hk]
        rw [hfac]
        refine ⟨?_, ⟨setA m r.strings.id s.nextTemplate, ?_, ?_⟩, ?_⟩
        · exact lookupA_setA_self _ _ _
        · exact lookupA_setA_self _ _ _
        · exact lookupA_setA_self _ _ _
        · have h1 : TiersCoherent
              { s with
                  nextTemplate := s.nextTemplate + 1
                  keyedTemplates := setA s.keyedTemplates
                    (String.intercalate marker r.strings.content) s.nextTemplate } C :=
            TiersCoherent.extend_keyed s.nextTemplate (s.nextTemplate + 1) hInv hk
          have h2 := TiersCoherent.update (s := { s with
                  nextTemplate := s.nextTemplate + 1
                  keyedTemplates := setA s.keyedTemplates
                    (String.intercalate marker r.strings.content) s.nextTemplate })
            r.type r.strings.id s.nextTemplate m h1
            (by
              intro sid' t' hl
              have hold := hInv r.type m htc sid' t' hl
              show lookupA (setA s.keyedTemplates
                  (String.intercalate marker r.strings.content) s.nextTemplate)
                  (String.intercalate marker (C sid')) = some t'
              by_cases hck : String.intercalate marker (C sid') =
                  String.intercalate marker r.strings.content
              · rw [hck] at hold
                rw [hold] at hk
                simp at hk
              · rw [lookupA_setA_ne _ _ _ _ hck]
                exact hold)
            (by rw [← hr]; exact lookupA_setA_self _ _ _)
          exact h2
      · have hfac : templateFactory s r =
            (t, { s with
                    templateCaches :=
                      setA s.templateCaches r.type
                        (setA m r.strings.id t) }) := by
          simp [templateFactory, htc, hm, hk]
        rw [hfac]
        refine ⟨hk, ⟨setA m r.strings.id t, ?_, ?_⟩, ?_⟩
        · exact lookupA_setA_self _ _ _
        · exact lookupA_setA_self _ _ _
        · exact TiersCoherent.update r.type r.strings.id t m hInv
            (fun sid' t' hl => hInv r.type m htc sid' t' hl)
            (by rw [← hr]; exact hk)
    · -- tier-1 hit: nothing changes
      have hfac : templateFactory s r = (t, s) := templateFactory_hit htc hm
      rw [hfac]
      refine ⟨?_, ⟨m, htc, hm⟩, hInv⟩
      have := hInv r.type m htc r.strings.id t hm
      rw [← hr] at this
      exact this

theorem templateFactory_of_keyed {s : TFState} {C : Nat → List String}
    {r : TemplateResult} {t : Nat}
    (hInv : TiersCoherent s C) (hr : r.strings.content = C r.strings.id)
    (hkeyed : lookupA s.keyedTemplates
        (String.intercalate marker r.strings.content) = some t) :
    (templateFactory s r).1 = t := by
  rcases htc : lookupA s.templateCaches r.type with _ | m
  · have hm0 : lookupA ([] : List (Nat × Nat)) r.strings.id = none := by simp [lookupA]
    simp [templateFactory, htc, hm0, hkeyed]
  · rcases hm : lookupA m r.strings.id with _ | t'
    · simp [templateFactory, htc, hm, hkeyed]
    · have hco := hInv r.type m htc r.strings.id t' hm
      rw [← hr, hkeyed] at hco
      obtain rfl : t = t' := Option.some.inj hco
      simp [templateFactory, htc, hm]

/-- Claim C5 (confirmed): for two template results of the same type whose
static string segments joined with the private marker token are equal,
`templateFactory` returns the identical compiled template, regardless of
whether the two strings arrays are the same object; on a tier-1 miss both the
identity-keyed and the content-keyed map are populated, so every subsequent
call with the same strings-array identity hits tier 1 and returns the same
template (with the cache state untouched).  The state is assumed coherent
(`TiersCoherent`), which holds of the empty state and is preserved by every
call. -/
theorem C5_template_factory_two_tier_cache
    (s : TFState) (C : Nat → List String) (r1 r2 : TemplateResult)
    (hInv : TiersCoherent s C)
    (h1 : r1.strings.content = C r1.strings.id)
    (h2 : r2.strings.content = C r2.strings.id)
    (hty : r2.type = r1.type)
    (hkey : String.intercalate marker r2.strings.content =
            String.intercalate marker r1.strings.content) :
    (templateFactory (templateFactory s r1).2 r2).1 = (templateFactory s r1).1 ∧
    lookupA (templateFactory s r1).2.keyedTemplates
        (String.intercalate marker r1.strings.content) =
      some (templateFactory s r1).1 ∧
    (∃ m, lookupA (templateFactory s r1).2.templateCaches r1.type = some m ∧
        lookupA m r1.strings.id = some (templateFactory s r1).1) ∧
    (∀ r3 : TemplateResult, r3.type = r1.type → r3.strings.id = r1.strings.id →
        templateFactory (templateFactory s r1).2 r3 =
          ((templateFactory s r1).1, (templateFactory s r1).2)) := by
  obtain ⟨hkeyed, ⟨m1, hmc, hml⟩, hInv1⟩ := templateFactory_post s C r1 hInv h1
  refine ⟨?_, hkeyed, ⟨m1, hmc, hml⟩, ?_⟩
  · apply templateFactory_of_keyed hInv1 h2
    rw [hkey]
    exact hkeyed
  · intro r3 hty3 hid3
    refine templateFactory_hit (r := r3) (m := m1) ?_ ?_
    · rw [hty3]; exact hmc
    · rw [hid3]; exact hml

/-- Witness for C5: two distinct strings-array identities (`0` and `1`) with
the same static content, rendered with the empty cache state. -/
theorem C5_template_factory_two_tier_cache_witness :
    TiersCoherent ⟨[], [], 0⟩ (fun _ => ["<div>", "</div>"]) ∧
    (templateFactory
        (templateFactory ⟨[], [], 0⟩ ⟨7, ⟨0, ["<div>", "</div>"]⟩⟩).2
        ⟨7, ⟨1, ["<div>", "</div>"]⟩⟩).1 =
      (templateFactory ⟨[], [], 0⟩ ⟨7, ⟨0, ["<div>", "</div>"]⟩⟩).1 :=
  ⟨by intro ty m hm; simp [lookupA] at hm,
   (C5_template_factory_two_tier_cache ⟨[], [], 0⟩ (fun _ => ["<div>", "</div>"])
      ⟨7, ⟨0, ["<div>", "</div>"]⟩⟩ ⟨7, ⟨1, ["<div>", "</div>"]⟩⟩
      (by intro ty m hm; simp [lookupA] at hm) rfl rfl rfl rfl).1⟩

end LitTemplate

namespace LitRepeat

/-- Claim C6 (confirmed): invoking the repeat directive on a binding position
that is not a child-content (`NodePart`) position fails synchronously with a
usage error — `Error('repeat can only be used in text bindings')`, the source's
wording of the spec's "can only be used for list/child content" — and the check
precedes all reconciliation work, so no DOM mutation or state change occurs:
the call returns the error and no new state. -/
theorem C6_non_node_binding_throws_usage_error
    (keyFnOrTemplate : Nat → Nat → Nat) (template : Option (Nat → Nat → Nat))
    (items : List Nat) (p : BoundPart)
    (hp : ∀ cache s, p ≠ BoundPart.nodePart cache s) :
    repeatDirective keyFnOrTemplate template items p =
      .error "repeat can only be used in text bindings" := by
  cases p with
  | nodePart cache s => exact absurd rfl (hp cache s)
  | attributePart => rfl
  | booleanAttributePart => rfl
  | propertyPart => rfl
  | eventPart => rfl

/-- Witness for C6 at an attribute binding position. -/
theorem C6_non_node_binding_throws_usage_error_witness :
    (∀ cache s, BoundPart.attributePart ≠ BoundPart.nodePart cache s) ∧
    repeatDirective (fun it _ => it) none [0, 1] BoundPart.attributePart =
      .error "repeat can only be used in text bindings" :=
  ⟨fun _ _ h => BoundPart.noConfusion h,
   C6_non_node_binding_throws_usage_error (fun it _ => it) none [0, 1]
     BoundPart.attributePart (fun _ _ h => BoundPart.noConfusion h)⟩

/-- Claim C3 (corrected), counterexample: reconciling previous keys
`[1, 2, 3]` (parts 11, 12, 13, values committed earlier) with new keys
`[1, 3, 2]` does swap 2 and 3 — the persisted part list comes back reordered —
but the lazily built key-to-index maps are never generated (`mapBuilds = 0`),
so the swap does not go through the "stuck" branch (the branch that builds the
maps), contrary to the claim: after the heads match on key 1, the
`oldKeys[oldHead] === newKeys[newTail]` cross branch moves part 12. -/
theorem C3_counterexample_swap_never_builds_maps :
    (reconcile (some fun it _ => it) (fun it _ => it) [1, 3, 2]
        ⟨[some 11, some 12, some 13], [1, 2, 3]⟩
        ⟨[11, 12, 13], fun _ => 0, 14, 0, 0, 0⟩).s.mapBuilds = 0 ∧
    (reconcile (some fun it _ => it) (fun it _ => it) [1, 3, 2]
        ⟨[some 11, some 12, some 13], [1, 2, 3]⟩
        ⟨[11, 12, 13], fun _ => 0, 14, 0, 0, 0⟩).cache.partList =
      [some 11, some 13, some 12] := by
  constructor <;> decide

/-- Claim C3 (corrected, amended): given previous keys `[1, 2, 3]` and new
keys `[1, 3, 2]`, reconciliation swaps 2 and 3 via the head-matches-tail
branch (`oldKeys[oldHead] === newKeys[newTail]`), without ever building the
key-to-index maps; both parts are reused (the persisted parts are exactly the
original three, reordered), exactly one DOM move is performed, and zero new
parts are created. -/
theorem C3_swap_uses_head_tail_cross_branch :
    (reconcile (some fun it _ => it) (fun it _ => it) [1, 3, 2]
        ⟨[some 11, some 12, some 13], [1, 2, 3]⟩
        ⟨[11, 12, 13], fun _ => 0, 14, 0, 0, 0⟩).s.dom = [11, 13, 12] ∧
    (reconcile (some fun it _ => it) (fun it _ => it) [1, 3, 2]
        ⟨[some 11, some 12, some 13], [1, 2, 3]⟩
        ⟨[11, 12, 13], fun _ => 0, 14, 0, 0, 0⟩).cache =
      ⟨[some 11, some 13, some 12], [1, 3, 2]⟩ ∧
    (reconcile (some fun it _ => it) (fun it _ => it) [1, 3, 2]
        ⟨[some 11, some 12, some 13], [1, 2, 3]⟩
        ⟨[11, 12, 13], fun _ => 0, 14, 0, 0, 0⟩).s.moves = 1 ∧
    (reconcile (some fun it _ => it) (fun it _ => it) [1, 3, 2]
        ⟨[some 11, some 12, some 13], [1, 2, 3]⟩
        ⟨[11, 12, 13], fun _ => 0, 14, 0, 0, 0⟩).s.creates = 0 ∧
    (reconcile (some fun it _ => it) (fun it _ => it) [1, 3, 2]
        ⟨[some 11, some 12, some 13], [1, 2, 3]⟩
        ⟨[11, 12, 13], fun _ => 0, 14, 0, 0, 0⟩).s.mapBuilds = 0 := by
  refine ⟨by decide, by decide, by decide, by decide, by decide⟩

theorem getI_nonneg {α : Type} (l : List α) (i : Int) (h : 0 ≤ i) :
    getI l i = l[i.toNat]? := if_pos h

theorem getI_neg {α : Type} (l : List α) (i : Int) (h : i < 0) :
    getI l i = none := if_neg (by omega)

theorem aget_aset_self (l : List (Option Nat)) (i : Int) (v : Nat) (h : 0 ≤ i) :
    aget (aset l i v) i = some v := by
  have hneg : ¬i < 0 := by omega
  by_cases hl : i.toNat < l.length
  · simp [aget, aset, getI, hneg, hl, h, List.getElem?_set_eq hl]
  · have hlen : (l ++ List.replicate (i.toNat - l.length) (none : Option Nat)).length =
        i.toNat := by
      simp [List.length_replicate]
      omega
    simp only [aget, aset, if_neg hneg, if_neg hl, getI, if_pos h]
    rw [List.getElem?_append_right hlen.le]
    simp [hlen]

theorem aget_aset_ne (l : List (Option Nat)) (i j : Int) (v : Nat) (hne : j ≠ i) :
    aget (aset l i v) j = aget l j := by
  by_cases hineg : i < 0
  · simp [aset, hineg]
  by_cases hjneg : j < 0
  · simp [aget, getI, if_neg (by omega : ¬(0 ≤ j))]
  have hij : j.toNat ≠ i.toNat := by omega
  by_cases hl : i.toNat < l.length
  · simp [aget, aset, getI, if_neg hineg, hl, if_pos (by omega : (0:Int) ≤ j),
      List.getElem?_set_ne (Ne.symm hij)]
  · simp only [aget, aset, if_neg hineg, if_neg hl, getI,
      if_pos (by omega : (0:Int) ≤ j)]
    by_cases hjl : j.toNat < l.length
    · rw [List.getElem?_append_left (by simp [List.length_replicate]; omega),
        List.getElem?_append_left hjl]
    · have hnone : l[j.toNat]? = none := by
        rw [List.getElem?_eq_none]
        omega
      rw [hnone]
      by_cases hlt : j.toNat < i.toNat
      · rw [List.getElem?_append_left (by simp [List.length_replicate]; omega)]
        rw [List.getElem?_append_right (by omega)]
        simp [List.getElem?_replicate_of_lt (by omega : j.toNat - l.length < i.toNat - l.length)]
      · rw [List.getElem?_eq_none]
        simp [List.length_replicate]
        omega

theorem aset_length_le (l : List (Option Nat)) (i : Int) (v : Nat) (n : Nat)
    (hl : l.length ≤ n) (hi : i < (n : Int)) : (aset l i v).length ≤ n := by
  by_cases hineg : i < 0
  · simpa [aset, hineg] using hl
  by_cases hil : i.toNat < l.length
  · simpa [aset, hineg, hil] using hl
  · simp [aset, hineg, hil, List.length_replicate]
    omega

theorem aget_none_of_le (l : List (Option Nat)) (i : Int)
    (h : (l.length : Int) ≤ i) : aget l i = none := by
  have h0 : (0 : Int) ≤ i := by omega
  have : l[i.toNat]? = none := by
    rw [List.getElem?_eq_none]
    omega
  simp [aget, getI, h0, this]

theorem shapeT_assign_head {n : Nat} {np : List (Option Nat)} {nh nt : Int}
    (h : ShapeT n np nh nt) (hle : nh ≤ nt) (p : Nat) :
    ShapeT n (aset np nh p) (nh + 1) nt := by
  obtain ⟨h0, h1, h2, h3, h4⟩ := h
  refine ⟨by omega, h1, by omega, aset_length_le np nh p n h3 (by omega), ?_⟩
  intro i hi
  by_cases heq : (i : Int) = nh
  · rw [heq, aget_aset_self np nh p h0]
    simp
  · rw [aget_aset_ne np nh i p heq]
    rw [h4 i hi]
    omega

theorem shapeT_assign_tail {n : Nat} {np : List (Option Nat)} {nh nt : Int}
    (h : ShapeT n np nh nt) (hle : nh ≤ nt) (p : Nat) :
    ShapeT n (aset np nt p) nh (nt - 1) := by
  obtain ⟨h0, h1, h2, h3, h4⟩ := h
  refine ⟨h0, by omega, by omega, aset_length_le np nt p n h3 (by omega), ?_⟩
  intro i hi
  by_cases heq : (i : Int) = nt
  · rw [heq, aget_aset_self np nt p (by omega)]
    simp
  · rw [aget_aset_ne np nt i p heq]
    rw [h4 i hi]
    omega

theorem reconcileLoop_shape (oldKeys newKeys newValues : List Nat) (n : Nat) :
    ∀ fuel (st : LoopState), ShapeT n st.newParts st.newHead st.newTail →
      ShapeT n (reconcileLoop oldKeys newKeys newValues fuel st).newParts
        (reconcileLoop oldKeys newKeys newValues fuel st).newHead
        (reconcileLoop oldKeys newKeys newValues fuel st).newTail := by
  intro fuel
  induction fuel with
  | zero => exact fun st h => h
  | succ fuel ih =>
    intro st h
    rw [reconcileLoop]
    by_cases c0 : st.oldHead ≤ st.oldTail ∧ st.newHead ≤ st.newTail
    case neg => rw [if_neg c0]; exact h
    rw [if_pos c0]
    by_cases c1 : getI st.oldParts st.oldHead = some none
    · rw [if_pos c1]; exact ih _ h
    rw [if_neg c1]
    by_cases c2 : getI st.oldParts st.oldTail = some none
    · rw [if_pos c2]; exact ih _ h
    rw [if_neg c2]
    by_cases c3 : getI oldKeys st.oldHead = getI newKeys st.newHead
    · rw [if_pos c3]; exact ih _ (shapeT_assign_head h c0.2 _)
    rw [if_neg c3]
    by_cases c4 : getI oldKeys st.oldTail = getI newKeys st.newTail
    · rw [if_pos c4]; exact ih _ (shapeT_assign_tail h c0.2 _)
    rw [if_neg c4]
    by_cases c5 : getI oldKeys st.oldHead = getI newKeys st.newTail
    · rw [if_pos c5]; exact ih _ (shapeT_assign_tail h c0.2 _)
    rw [if_neg c5]
    by_cases c6 : getI oldKeys st.oldTail = getI newKeys st.newHead
    · rw [if_pos c6]; exact ih _ (shapeT_assign_head h c0.2 _)
    rw [if_neg c6]
    simp only
    split
    · exact ih _ h
    split
    · exact ih _ h
    split
    · exact ih _ (shapeT_assign_head h c0.2 _)
    · exact ih _ (shapeT_assign_head h c0.2 _)

theorem insertLoop_shape (newValues : List Nat) (n : Nat) :
    ∀ cnt (s : RS) (np : List (Option Nat)) (nh nt : Int),
      ShapeT n np nh nt → cnt = (nt + 1 - nh).toNat →
      (insertLoop newValues cnt s np nh nt).2.length ≤ n ∧
      ∀ i : Nat, i < n → (aget (insertLoop newValues cnt s np nh nt).2 i).isSome := by
  intro cnt
  induction cnt with
  | zero =>
    intro s np nh nt h hcnt
    obtain ⟨h0, h1, h2, h3, h4⟩ := h
    simp only [insertLoop]
    refine ⟨h3, fun i hi => ?_⟩
    rw [h4 i hi]
    omega
  | succ cnt ih =>
    intro s np nh nt h hcnt
    have hle : nh ≤ nt := by
      obtain ⟨h0, h1, h2, h3, h4⟩ := h
      omega
    rw [insertLoop, if_pos hle]
    exact ih _ _ _ _ (shapeT_assign_head h hle _) (by omega)

theorem length_eq_of_all_assigned (l : List (Option Nat)) (n : Nat)
    (hle : l.length ≤ n) (hall : ∀ i : Nat, i < n → (aget l i).isSome) :
    l.length = n := by
  rcases Nat.eq_zero_or_pos n with rfl | hpos
  · omega
  · have := hall (n - 1) (by omega)
    rw [aget, getI, if_pos (by omega : (0:Int) ≤ ((n - 1 : Nat) : Int))] at this
    by_cases hidx : ((n - 1 : Nat) : Int).toNat < l.length
    · omega
    · rw [List.getElem?_eq_none (by omega)] at this
      simp at this

theorem genLists_keys_length (kf : Option (Nat → Nat → Nat)) (tmpl : Nat → Nat → Nat) :
    ∀ (items : List Nat) (i : Nat), (genLists kf tmpl items i).1.length = items.length := by
  intro items
  induction items with
  | nil => intro i; rfl
  | cons it rest ih =>
    intro i
    simp only [genLists, List.length_cons]
    rw [ih (i + 1)]

theorem genLists_values_length (kf : Option (Nat → Nat → Nat)) (tmpl : Nat → Nat → Nat) :
    ∀ (items : List Nat) (i : Nat), (genLists kf tmpl items i).2.length = items.length := by
  intro items
  induction items with
  | nil => intro i; rfl
  | cons it rest ih =>
    intro i
    simp only [genLists, List.length_cons]
    rw [ih (i + 1)]

theorem exists_part_of_aget_isSome (l : List (Option Nat)) (i : Int)
    (h : (aget l i).isSome) : ∃ p, getI l i = some (some p) := by
  unfold aget at h
  rcases hg : getI l i with _ | x
  · rw [hg] at h
    simp at h
  · rcases x with _ | p
    · rw [hg] at h
      simp at h
    · exact ⟨p, rfl⟩

theorem shapeT_initial (n : Nat) : ShapeT n [] 0 ((n : Int) - 1) := by
  refine ⟨le_refl 0, by omega, by omega, by simp, ?_⟩
  intro i hi
  have : aget [] (i : Int) = none := by simp [aget, getI]
  rw [this]
  simp
  omega

/-- Completeness of the persisted state: the keys and parts arrays saved at
the end of a reconciliation pass both have the length of the supplied
iterable, and every slot of the parts array holds a live part. -/
theorem reconcile_complete (keyFn : Option (Nat → Nat → Nat))
    (template : Nat → Nat → Nat) (items : List Nat) (cache : Cache) (s : RS) :
    (reconcile keyFn template items cache s).cache.keyList.length = items.length ∧
    (reconcile keyFn template items cache s).cache.partList.length = items.length ∧
    ∀ i : Nat, i < items.length →
      ∃ p, getI (reconcile keyFn template items cache s).cache.partList (i : Int) =
        some (some p) := by
  have h0 : ShapeT (genLists keyFn template items 0).2.length [] 0
      (((genLists keyFn template items 0).2.length : Int) - 1) :=
    shapeT_initial _
  have h1 := reconcileLoop_shape (cache.keyList) (genLists keyFn template items 0).1
    (genLists keyFn template items 0).2 (genLists keyFn template items 0).2.length
    (cache.partList.length + (genLists keyFn template items 0).2.length + 1)
    { s := s
      oldParts := cache.partList
      newParts := []
      oldHead := 0
      oldTail := (cache.partList.length : Int) - 1
      newHead := 0
      newTail := ((genLists keyFn template items 0).2.length : Int) - 1
      maps := none } h0
  have h2 := insertLoop_shape (genLists keyFn template items 0).2
    (genLists keyFn template items 0).2.length
    (((reconcileLoop cache.keyList (genLists keyFn template items 0).1
      (genLists keyFn template items 0).2
      (cache.partList.length + (genLists keyFn template items 0).2.length + 1)
      { s := s
        oldParts := cache.partList
        newParts := []
        oldHead := 0
        oldTail := (cache.partList.length : Int) - 1
        newHead := 0
        newTail := ((genLists keyFn template items 0).2.length : Int) - 1
        maps := none }).newTail + 1 - (reconcileLoop cache.keyList (genLists keyFn template items 0).1
      (genLists keyFn template items 0).2
      (cache.partList.length + (genLists keyFn template items 0).2.length + 1)
      { s := s
        oldParts := cache.partList
        newParts := []
        oldHead := 0
        oldTail := (cache.partList.length : Int) - 1
        newHead := 0
        newTail := ((genLists keyFn template items 0).2.length : Int) - 1
        maps := none }).newHead).toNat)
    (reconcileLoop cache.keyList (genLists keyFn template items 0).1
      (genLists keyFn template items 0).2
      (cache.partList.length + (genLists keyFn template items 0).2.length + 1)
      { s := s
        oldParts := cache.partList
        newParts := []
        oldHead := 0
        oldTail := (cache.partList.length : Int) - 1
        newHead := 0
        newTail := ((genLists keyFn template items 0).2.length : Int) - 1
        maps := none }).s (reconcileLoop cache.keyList (genLists keyFn template items 0).1
      (genLists keyFn template items 0).2
      (cache.partList.length + (genLists keyFn template items 0).2.length + 1)
      { s := s
        oldParts := cache.partList
        newParts := []
        oldHead := 0
        oldTail := (cache.partList.length : Int) - 1
        newHead := 0
        newTail := ((genLists keyFn template items 0).2.length : Int) - 1
        maps := none }).newParts (reconcileLoop cache.keyList (genLists keyFn template items 0).1
      (genLists keyFn template items 0).2
      (cache.partList.length + (genLists keyFn template items 0).2.length + 1)
      { s := s
        oldParts := cache.partList
        newParts := []
        oldHead := 0
        oldTail := (cache.partList.length : Int) - 1
        newHead := 0
        newTail := ((genLists keyFn template items 0).2.length : Int) - 1
        maps := none }).newHead (reconcileLoop cache.keyList (genLists keyFn template items 0).1
      (genLists keyFn template items 0).2
      (cache.partList.length + (genLists keyFn template items 0).2.length + 1)
      { s := s
        oldParts := cache.partList
        newParts := []
        oldHead := 0
        oldTail := (cache.partList.length : Int) - 1
        newHead := 0
        newTail := ((genLists keyFn template items 0).2.length : Int) - 1
        maps := none }).newTail h1 rfl
  refine ⟨?_, ?_, ?_⟩
  · show (genLists keyFn template items 0).1.length = items.length
    exact genLists_keys_length keyFn template items 0
  · have hlen := length_eq_of_all_assigned _ _ h2.1 h2.2
    calc (reconcile keyFn template items cache s).cache.partList.length
        = (genLists keyFn template items 0).2.length := hlen
      _ = items.length := genLists_values_length keyFn template items 0
  · intro i hi
    have hi' : i < (genLists keyFn template items 0).2.length := by
      rw [genLists_values_length keyFn template items 0]
      exact hi
    exact exists_part_of_aget_isSome _ _ (h2.2 i hi')

/-- Claim C10 (confirmed): after every reconciliation call that completes
normally, the state persisted for the container part satisfies: the new parts
array and the new keys array have equal length, that length is the number of
items produced by the iterable, and the parts array contains no tombstones —
every index holds a live part, either reused or freshly created in this
pass. -/
theorem C10_persisted_state_is_complete (keyFn : Option (Nat → Nat → Nat))
    (template : Nat → Nat → Nat) (items : List Nat) (cache : Cache) (s : RS) :
    (reconcile keyFn template items cache s).cache.keyList.length = items.length ∧
    (reconcile keyFn template items cache s).cache.partList.length = items.length ∧
    ∀ i : Nat, i < items.length →
      ∃ p, getI (reconcile keyFn template items cache s).cache.partList (i : Int) =
        some (some p) :=
  reconcile_complete keyFn template items cache s

theorem reconcileLoop_exit (oldKeys newKeys newValues : List Nat) :
    ∀ (fuel : Nat) (st : LoopState),
      ¬(st.oldHead ≤ st.oldTail ∧ st.newHead ≤ st.newTail) →
      reconcileLoop oldKeys newKeys newValues fuel st = st := by
  intro fuel st h
  cases fuel with
  | zero => rfl
  | succ fuel => rw [reconcileLoop, if_neg h]

theorem aset_append_of_length (l : List (Option Nat)) (k : Nat) (v : Nat)
    (h : l.length = k) : aset l (k : Int) v = l ++ [some v] := by
  simp [aset, h]

theorem getI_natCast {α : Type} (l : List α) (j : Nat) : getI l (j : Int) = l[j]? := by
  simp [getI]

theorem getPart_of (l : List (Option Nat)) (j : Nat) (p : Nat)
    (h : l[j]? = some (some p)) : getPart l (j : Int) = p := by
  simp [getPart, getI_natCast, h]

theorem updatePart_vals (s : RS) (p v q : Nat) :
    (updatePart s p v).vals q = if q = p then v else s.vals q := rfl

theorem reconcileLoop_headrun (oldKeys newKeys newValues : List Nat)
    (oldParts : List (Option Nat)) (oldLen n : Nat)
    (hol : oldParts.length = oldLen) (hnk : newKeys.length = n) (hle : oldLen ≤ n)
    (hall : ∀ j : Nat, j < oldLen → ∃ p, oldParts[j]? = some (some p))
    (hmatch : ∀ j : Nat, j < oldLen → getI oldKeys (j : Int) = getI newKeys (j : Int)) :
    ∀ (cnt k fuel : Nat) (s : RS) (newParts : List (Option Nat)),
      cnt = oldLen - k → k ≤ oldLen → newParts.length = k →
      cnt + 1 ≤ fuel →
      (reconcileLoop oldKeys newKeys newValues fuel
          { s := s, oldParts := oldParts, newParts := newParts,
            oldHead := (k : Int), oldTail := (oldLen : Int) - 1,
            newHead := (k : Int), newTail := (n : Int) - 1,
            maps := none }).oldParts = oldParts ∧
      (reconcileLoop oldKeys newKeys newValues fuel
          { s := s, oldParts := oldParts, newParts := newParts,
            oldHead := (k : Int), oldTail := (oldLen : Int) - 1,
            newHead := (k : Int), newTail := (n : Int) - 1,
            maps := none }).newParts = newParts ++ oldParts.drop k ∧
      (reconcileLoop oldKeys newKeys newValues fuel
          { s := s, oldParts := oldParts, newParts := newParts,
            oldHead := (k : Int), oldTail := (oldLen : Int) - 1,
            newHead := (k : Int), newTail := (n : Int) - 1,
            maps := none }).oldHead = (oldLen : Int) ∧
      (reconcileLoop oldKeys newKeys newValues fuel
          { s := s, oldParts := oldParts, newParts := newParts,
            oldHead := (k : Int), oldTail := (oldLen : Int) - 1,
            newHead := (k : Int), newTail := (n : Int) - 1,
            maps := none }).oldTail = (oldLen : Int) - 1 ∧
      (reconcileLoop oldKeys newKeys newValues fuel
          { s := s, oldParts := oldParts, newParts := newParts,
            oldHead := (k : Int), oldTail := (oldLen : Int) - 1,
            newHead := (k : Int), newTail := (n : Int) - 1,
            maps := none }).newHead = (oldLen : Int) ∧
      (reconcileLoop oldKeys newKeys newValues fuel
          { s := s, oldParts := oldParts, newParts := newParts,
            oldHead := (k : Int), oldTail := (oldLen : Int) - 1,
            newHead := (k : Int), newTail := (n : Int) - 1,
            maps := none }).newTail = (n : Int) - 1 ∧
      (reconcileLoop oldKeys newKeys newValues fuel
          { s := s, oldParts := oldParts, newParts := newParts,
            oldHead := (k : Int), oldTail := (oldLen : Int) - 1,
            newHead := (k : Int), newTail := (n : Int) - 1,
            maps := none }).s.dom = s.dom ∧
      (reconcileLoop oldKeys newKeys newValues fuel
          { s := s, oldParts := oldParts, newParts := newParts,
            oldHead := (k : Int), oldTail := (oldLen : Int) - 1,
            newHead := (k : Int), newTail := (n : Int) - 1,
            maps := none }).s.moves = s.moves ∧
      (reconcileLoop oldKeys newKeys newValues fuel
          { s := s, oldParts := oldParts, newParts := newParts,
            oldHead := (k : Int), oldTail := (oldLen : Int) - 1,
            newHead := (k : Int), newTail := (n : Int) - 1,
            maps := none }).s.creates = s.creates ∧
      (reconcileLoop oldKeys newKeys newValues fuel
          { s := s, oldParts := oldParts, newParts := newParts,
            oldHead := (k : Int), oldTail := (oldLen : Int) - 1,
            newHead := (k : Int), newTail := (n : Int) - 1,
            maps := none }).s.nextId = s.nextId ∧
      (reconcileLoop oldKeys newKeys newValues fuel
          { s := s, oldParts := oldParts, newParts := newParts,
            oldHead := (k : Int), oldTail := (oldLen : Int) - 1,
            newHead := (k : Int), newTail := (n : Int) - 1,
            maps := none }).s.mapBuilds = s.mapBuilds ∧
      (∀ q : Nat, (∀ j : Nat, k ≤ j → j < oldLen → getPart oldParts (j : Int) ≠ q) →
        (reconcileLoop oldKeys newKeys newValues fuel
          { s := s, oldParts := oldParts, newParts := newParts,
            oldHead := (k : Int), oldTail := (oldLen : Int) - 1,
            newHead := (k : Int), newTail := (n : Int) - 1,
            maps := none }).s.vals q = s.vals q) ∧
      (∀ j : Nat, k ≤ j → j < oldLen →
        (∀ j' : Nat, j < j' → j' < oldLen →
            getPart oldParts (j' : Int) ≠ getPart oldParts (j : Int)) →
        (reconcileLoop oldKeys newKeys newValues fuel
          { s := s, oldParts := oldParts, newParts := newParts,
            oldHead := (k : Int), oldTail := (oldLen : Int) - 1,
            newHead := (k : Int), newTail := (n : Int) - 1,
            maps := none }).s.vals (getPart oldParts (j : Int)) =
          getV newValues (j : Int)) := by
  intro cnt
  induction cnt with
  | zero =>
    intro k fuel s newParts hcnt hk hnp hfuel
    have hkeq : k = oldLen := by omega
    have hexit : ¬((k : Int) ≤ (oldLen : Int) - 1 ∧ (k : Int) ≤ (n : Int) - 1) := by
      intro hc
      have := hc.1
      omega
    rw [reconcileLoop_exit oldKeys newKeys newValues fuel _ hexit]
    have hdrop : oldParts.drop k = [] := List.drop_eq_nil_of_le (by omega)
    refine ⟨rfl, by simp [hdrop], by simp [hkeq], rfl, by simp [hkeq], rfl, rfl, rfl, rfl,
      rfl, rfl, fun q _ => rfl, fun j hj1 hj2 _ => by omega⟩
  | succ cnt ih =>
    intro k fuel s newParts hcnt hk hnp hfuel
    have hklt : k < oldLen := by omega
    obtain ⟨pk, hpk⟩ := hall k hklt
    obtain ⟨pt, hpt⟩ := hall (oldLen - 1) (by omega)
    match fuel, hfuel with
    | fuel + 1, hfuel =>
      have hcond : ((k : Int) ≤ (oldLen : Int) - 1 ∧ (k : Int) ≤ (n : Int) - 1) := by
        constructor <;> omega
      have hc1 : getI oldParts (k : Int) ≠ some none := by
        rw [getI_natCast, hpk]
        simp
      have hc2 : getI oldParts ((oldLen : Int) - 1) ≠ some none := by
        have hcast : ((oldLen : Int) - 1) = ((oldLen - 1 : Nat) : Int) := by omega
        rw [hcast, getI_natCast, hpt]
        simp
      have hc3 : getI oldKeys (k : Int) = getI newKeys (k : Int) := hmatch k hklt
      have hstep : reconcileLoop oldKeys newKeys newValues (fuel + 1)
          { s := s, oldParts := oldParts, newParts := newParts,
            oldHead := (k : Int), oldTail := (oldLen : Int) - 1,
            newHead := (k : Int), newTail := (n : Int) - 1,
            maps := none } =
          reconcileLoop oldKeys newKeys newValues fuel
          { s := updatePart s (getPart oldParts (k : Int)) (getV newValues (k : Int)),
            oldParts := oldParts,
            newParts := aset newParts (k : Int) (getPart oldParts (k : Int)),
            oldHead := (k : Int) + 1, oldTail := (oldLen : Int) - 1,
            newHead := (k : Int) + 1, newTail := (n : Int) - 1,
            maps := none } := by
        rw [reconcileLoop, if_pos hcond, if_neg hc1, if_neg hc2, if_pos hc3]
      rw [hstep]
      have hgp : getPart oldParts (k : Int) = pk := getPart_of oldParts k pk hpk
      have hset : aset newParts (k : Int) (getPart oldParts (k : Int)) =
          newParts ++ [some pk] := by
        rw [hgp]
        exact aset_append_of_length newParts k pk hnp
      have hcast1 : (k : Int) + 1 = ((k + 1 : Nat) : Int) := by omega
      rw [hset, hgp, hcast1]
      have ihx := ih (k + 1) fuel
        (updatePart s pk (getV newValues (k : Int)))
        (newParts ++ [some pk]) (by omega) (by omega) (by simp [hnp]) (by omega)
      obtain ⟨i1, i2, i3, i4, i5, i6, i7, i8, i9, i10, i11, i12, i13⟩ := ihx
      have hdropk : oldParts.drop k = some pk :: oldParts.drop (k + 1) := by
        have hlt : k < oldParts.length := by omega
        rw [List.drop_eq_getElem_cons hlt]
        have : oldParts[k] = some pk := by
          have := List.getElem?_eq_getElem hlt
          rw [hpk] at this
          exact (Option.some.inj this).symm
        rw [this]
      refine ⟨i1, ?_, i3, i4, i5, i6, i7, i8, i9, i10, i11, ?_, ?_⟩
      · rw [i2, hdropk]
        simp
      · intro q hq
        have hq' : ∀ j : Nat, k + 1 ≤ j → j < oldLen → getPart oldParts (j : Int) ≠ q :=
          fun j h1 h2 => hq j (by omega) h2
        rw [i12 q hq']
        have hqk : pk ≠ q := by
          have := hq k (le_refl k) hklt
          rw [hgp] at this
          exact this
        simp [updatePart_vals, Ne.symm hqk]
      · intro j hj1 hj2 hguard
        rcases Nat.eq_or_lt_of_le hj1 with rfl | hlt2
        · -- j = k: the value just committed survives the rest of the run
          rw [hgp]
          have hq' : ∀ j' : Nat, k + 1 ≤ j' → j' < oldLen →
              getPart oldParts (j' : Int) ≠ pk := by
            intro j' h1 h2
            have := hguard j' (by omega) h2
            rw [hgp] at this
            exact this
          rw [i12 pk hq']
          simp [updatePart_vals]
        · have hguard' : ∀ j' : Nat, j < j' → j' < oldLen →
              getPart oldParts (j' : Int) ≠ getPart oldParts (j : Int) := hguard
          exact i13 j (by omega) hj2 hguard'

theorem insertIdBefore_none (x : Nat) :
    ∀ l : List Nat, insertIdBefore x none l = l ++ [x] := by
  intro l
  induction l with
  | nil => rfl
  | cons a l ih => simp [insertIdBefore, ih]

theorem insertLoop_append (newValues : List Nat) :
    ∀ (cnt : Nat) (s : RS) (np : List (Option Nat)) (nh nt : Int),
      cnt = (nt + 1 - nh).toNat → 0 ≤ nh → np.length = nh.toNat →
      (insertLoop newValues cnt s np nh nt).1.dom =
          s.dom ++ List.range' s.nextId cnt ∧
      (insertLoop newValues cnt s np nh nt).1.moves = s.moves ∧
      (insertLoop newValues cnt s np nh nt).1.creates = s.creates + cnt ∧
      (insertLoop newValues cnt s np nh nt).1.nextId = s.nextId + cnt ∧
      (insertLoop newValues cnt s np nh nt).1.mapBuilds = s.mapBuilds ∧
      (insertLoop newValues cnt s np nh nt).2 =
          np ++ (List.range' s.nextId cnt).map some ∧
      (∀ q : Nat, q < s.nextId →
          (insertLoop newValues cnt s np nh nt).1.vals q = s.vals q) ∧
      (∀ j : Nat, j < cnt →
          (insertLoop newValues cnt s np nh nt).1.vals (s.nextId + j) =
            getV newValues (nh + (j : Int))) := by
  intro cnt
  induction cnt with
  | zero =>
    intro s np nh nt hcnt h0 hnp
    refine ⟨by simp [insertLoop, List.range'], by simp [insertLoop],
      by simp [insertLoop], by simp [insertLoop], by simp [insertLoop],
      by simp [insertLoop, List.range'], fun q _ => by simp [insertLoop],
      fun j hj => by omega⟩
  | succ cnt ih =>
    intro s np nh nt hcnt h0 hnp
    have hle : nh ≤ nt := by omega
    rw [insertLoop, if_pos hle]
    have hnone : aget np (nt + 1) = none := by
      apply aget_none_of_le
      omega
    have hcreate : createAndInsertPart s (aget np (nt + 1)) =
        ({ s with
            dom := s.dom ++ [s.nextId]
            nextId := s.nextId + 1
            creates := s.creates + 1 }, s.nextId) := by
      rw [hnone]
      simp [createAndInsertPart, insertIdBefore_none]
    rw [hcreate]
    dsimp only
    have hset : aset np nh s.nextId = np ++ [some s.nextId] := by
      have hnh : nh = ((np.length : Nat) : Int) := by omega
      rw [hnh]
      exact aset_append_of_length np np.length s.nextId rfl
    rw [hset]
    have ihx := ih (updatePart { s with
            dom := s.dom ++ [s.nextId]
            nextId := s.nextId + 1
            creates := s.creates + 1 } s.nextId (getV newValues nh))
      (np ++ [some s.nextId]) (nh + 1) nt (by omega) (by omega) (by simp [hnp]; omega)
    obtain ⟨i1, i2, i3, i4, i5, i6, i7, i8⟩ := ihx
    have hrange : s.nextId :: List.range' (s.nextId + 1) cnt =
        List.range' s.nextId (cnt + 1) := rfl
    refine ⟨?_, i2, ?_, ?_, i5, ?_, ?_, ?_⟩
    · rw [i1]
      simp only [updatePart]
      rw [← hrange]
      simp
    · rw [i3]
      simp only [updatePart]
      omega
    · rw [i4]
      simp only [updatePart]
      omega
    · rw [i6]
      simp only [updatePart]
      rw [← hrange]
      simp
    · intro q hq
      rw [i7 q (by simp only [updatePart]; omega)]
      simp only [updatePart_vals]
      rw [if_neg (by omega)]
    · intro j hj
      rcases Nat.eq_zero_or_pos j with rfl | hpos
      · rw [i7 (s.nextId + 0) (by simp only [updatePart]; omega)]
        simp only [updatePart_vals, Nat.add_zero, if_pos rfl]
        norm_num
      · have hj' : j - 1 < cnt := by omega
        have := i8 (j - 1) hj'
        simp only [updatePart] at this
        have harg : s.nextId + 1 + (j - 1) = s.nextId + j := by omega
        have harg2 : nh + 1 + ((j - 1 : Nat) : Int) = nh + (j : Int) := by omega
        rw [harg, harg2] at this
        exact this

theorem removeLoop_eq_zero (l : List (Option Nat)) (cnt : Nat) (s : RS) (a b : Int)
    (h : cnt = 0) : removeLoop l cnt s a b = s := by
  subst h
  rfl

theorem reconcile_headmatch (keyFn : Option (Nat → Nat → Nat))
    (template : Nat → Nat → Nat) (items : List Nat) (cache : Cache) (s : RS)
    (hall : ∀ j : Nat, j < cache.partList.length →
        ∃ p, cache.partList[j]? = some (some p))
    (hmatch : ∀ j : Nat, j < cache.partList.length →
        getI cache.keyList (j : Int) = getI (genLists keyFn template items 0).1 (j : Int))
    (hle : cache.partList.length ≤ items.length) :
    (reconcile keyFn template items cache s).s.dom =
        s.dom ++ List.range' s.nextId (items.length - cache.partList.length) ∧
    (reconcile keyFn template items cache s).s.moves = s.moves ∧
    (reconcile keyFn template items cache s).s.creates =
        s.creates + (items.length - cache.partList.length) ∧
    (reconcile keyFn template items cache s).s.nextId =
        s.nextId + (items.length - cache.partList.length) ∧
    (reconcile keyFn template items cache s).s.mapBuilds = s.mapBuilds ∧
    (reconcile keyFn template items cache s).cache.partList =
        cache.partList ++
          (List.range' s.nextId (items.length - cache.partList.length)).map some ∧
    (reconcile keyFn template items cache s).cache.keyList =
        (genLists keyFn template items 0).1 ∧
    (∀ q : Nat, q < s.nextId →
        (∀ j : Nat, j < cache.partList.length → getPart cache.partList (j : Int) ≠ q) →
        (reconcile keyFn template items cache s).s.vals q = s.vals q) ∧
    (∀ j : Nat, j < cache.partList.length →
        getPart cache.partList (j : Int) < s.nextId →
        (∀ j' : Nat, j < j' → j' < cache.partList.length →
            getPart cache.partList (j' : Int) ≠ getPart cache.partList (j : Int)) →
        (reconcile keyFn template items cache s).s.vals
            (getPart cache.partList (j : Int)) =
          getV (genLists keyFn template items 0).2 (j : Int)) ∧
    (∀ j : Nat, j < items.length - cache.partList.length →
        (reconcile keyFn template items cache s).s.vals (s.nextId + j) =
          getV (genLists keyFn template items 0).2
            ((cache.partList.length : Int) + (j : Int))) := by
  have hnv : (genLists keyFn template items 0).2.length = items.length :=
    genLists_values_length keyFn template items 0
  have hnk2 : (genLists keyFn template items 0).1.length = items.length :=
    genLists_keys_length keyFn template items 0
  have hr := reconcileLoop_headrun cache.keyList (genLists keyFn template items 0).1
    (genLists keyFn template items 0).2 cache.partList cache.partList.length
    (genLists keyFn template items 0).2.length rfl (by omega) (by omega) hall hmatch
    cache.partList.length 0
    (cache.partList.length + (genLists keyFn template items 0).2.length + 1)
    s [] (by omega) (by omega) rfl (by omega)
  obtain ⟨i1, i2, i3, i4, i5, i6, i7, i8, i9, i10, i11, i12, i13⟩ := hr
  simp only [Nat.cast_zero, List.drop_zero, List.nil_append] at i1 i2 i3 i4 i5 i6 i7 i8 i9 i10 i11 i12 i13
  have hiCnt : (((reconcileLoop cache.keyList (genLists keyFn template items 0).1
        (genLists keyFn template items 0).2
        (cache.partList.length + (genLists keyFn template items 0).2.length + 1)
        { s := s, oldParts := cache.partList, newParts := [],
          oldHead := 0, oldTail := (cache.partList.length : Int) - 1,
          newHead := 0, newTail := ((genLists keyFn template items 0).2.length : Int) - 1,
          maps := none }).newTail + 1 - (reconcileLoop cache.keyList (genLists keyFn template items 0).1
        (genLists keyFn template items 0).2
        (cache.partList.length + (genLists keyFn template items 0).2.length + 1)
        { s := s, oldParts := cache.partList, newParts := [],
          oldHead := 0, oldTail := (cache.partList.length : Int) - 1,
          newHead := 0, newTail := ((genLists keyFn template items 0).2.length : Int) - 1,
          maps := none }).newHead).toNat) =
      (genLists keyFn template items 0).2.length - cache.partList.length := by
    rw [i5, i6]
    omega
  have hj := insertLoop_append (genLists keyFn template items 0).2
    (((reconcileLoop cache.keyList (genLists keyFn template items 0).1
        (genLists keyFn template items 0).2
        (cache.partList.length + (genLists keyFn template items 0).2.length + 1)
        { s := s, oldParts := cache.partList, newParts := [],
          oldHead := 0, oldTail := (cache.partList.length : Int) - 1,
          newHead := 0, newTail := ((genLists keyFn template items 0).2.length : Int) - 1,
          maps := none }).newTail + 1 - (reconcileLoop cache.keyList (genLists keyFn template items 0).1
        (genLists keyFn template items 0).2
        (cache.partList.length + (genLists keyFn template items 0).2.length + 1)
        { s := s, oldParts := cache.partList, newParts := [],
          oldHead := 0, oldTail := (cache.partList.length : Int) - 1,
          newHead := 0, newTail := ((genLists keyFn template items 0).2.length : Int) - 1,
          maps := none }).newHead).toNat)
    (reconcileLoop cache.keyList (genLists keyFn template items 0).1
        (genLists keyFn template items 0).2
        (cache.partList.length + (genLists keyFn template items 0).2.length + 1)
        { s := s, oldParts := cache.partList, newParts := [],
          oldHead := 0, oldTail := (cache.partList.length : Int) - 1,
          newHead := 0, newTail := ((genLists keyFn template items 0).2.length : Int) - 1,
          maps := none }).s (reconcileLoop cache.keyList (genLists keyFn template items 0).1
        (genLists keyFn template items 0).2
        (cache.partList.length + (genLists keyFn template items 0).2.length + 1)
        { s := s, oldParts := cache.partList, newParts := [],
          oldHead := 0, oldTail := (cache.partList.length : Int) - 1,
          newHead := 0, newTail := ((genLists keyFn template items 0).2.length : Int) - 1,
          maps := none }).newParts (reconcileLoop cache.keyList (genLists keyFn template items 0).1
        (genLists keyFn template items 0).2
        (cache.partList.length + (genLists keyFn template items 0).2.length + 1)
        { s := s, oldParts := cache.partList, newParts := [],
          oldHead := 0, oldTail := (cache.partList.length : Int) - 1,
          newHead := 0, newTail := ((genLists keyFn template items 0).2.length : Int) - 1,
          maps := none }).newHead (reconcileLoop cache.keyList (genLists keyFn template items 0).1
        (genLists keyFn template items 0).2
        (cache.partList.length + (genLists keyFn template items 0).2.length + 1)
        { s := s, oldParts := cache.partList, newParts := [],
          oldHead := 0, oldTail := (cache.partList.length : Int) - 1,
          newHead := 0, newTail := ((genLists keyFn template items 0).2.length : Int) - 1,
          maps := none }).newTail rfl
    (by rw [i5]; omega) (by rw [i2, i5]; simp)
  obtain ⟨j1, j2, j3, j4, j5, j6, j7, j8⟩ := hj
  have hrCnt : (((reconcileLoop cache.keyList (genLists keyFn template items 0).1
        (genLists keyFn template items 0).2
        (cache.partList.length + (genLists keyFn template items 0).2.length + 1)
        { s := s, oldParts := cache.partList, newParts := [],
          oldHead := 0, oldTail := (cache.partList.length : Int) - 1,
          newHead := 0, newTail := ((genLists keyFn template items 0).2.length : Int) - 1,
          maps := none }).oldTail + 1 - (reconcileLoop cache.keyList (genLists keyFn template items 0).1
        (genLists keyFn template items 0).2
        (cache.partList.length + (genLists keyFn template items 0).2.length + 1)
        { s := s, oldParts := cache.partList, newParts := [],
          oldHead := 0, oldTail := (cache.partList.length : Int) - 1,
          newHead := 0, newTail := ((genLists keyFn template items 0).2.length : Int) - 1,
          maps := none }).oldHead).toNat) = 0 := by
    rw [i3, i4]
    omega
  have hsfin : (reconcile keyFn template items cache s).s = (insertLoop (genLists keyFn template items 0).2
        (((reconcileLoop cache.keyList (genLists keyFn template items 0).1
        (genLists keyFn template items 0).2
        (cache.partList.length + (genLists keyFn template items 0).2.length + 1)
        { s := s, oldParts := cache.partList, newParts := [],
          oldHead := 0, oldTail := (cache.partList.length : Int) - 1,
          newHead := 0, newTail := ((genLists keyFn template items 0).2.length : Int) - 1,
          maps := none }).newTail + 1 - (reconcileLoop cache.keyList (genLists keyFn template items 0).1
        (genLists keyFn template items 0).2
        (cache.partList.length + (genLists keyFn template items 0).2.length + 1)
        { s := s, oldParts := cache.partList, newParts := [],
          oldHead := 0, oldTail := (cache.partList.length : Int) - 1,
          newHead := 0, newTail := ((genLists keyFn template items 0).2.length : Int) - 1,
          maps := none }).newHead).toNat)
        (reconcileLoop cache.keyList (genLists keyFn template items 0).1
        (genLists keyFn template items 0).2
        (cache.partList.length + (genLists keyFn template items 0).2.length + 1)
        { s := s, oldParts := cache.partList, newParts := [],
          oldHead := 0, oldTail := (cache.partList.length : Int) - 1,
          newHead := 0, newTail := ((genLists keyFn template items 0).2.length : Int) - 1,
          maps := none }).s (reconcileLoop cache.keyList (genLists keyFn template items 0).1
        (genLists keyFn template items 0).2
        (cache.partList.length + (genLists keyFn template items 0).2.length + 1)
        { s := s, oldParts := cache.partList, newParts := [],
          oldHead := 0, oldTail := (cache.partList.length : Int) - 1,
          newHead := 0, newTail := ((genLists keyFn template items 0).2.length : Int) - 1,
          maps := none }).newParts (reconcileLoop cache.keyList (genLists keyFn template items 0).1
        (genLists keyFn template items 0).2
        (cache.partList.length + (genLists keyFn template items 0).2.length + 1)
        { s := s, oldParts := cache.partList, newParts := [],
          oldHead := 0, oldTail := (cache.partList.length : Int) - 1,
          newHead := 0, newTail := ((genLists keyFn template items 0).2.length : Int) - 1,
          maps := none }).newHead (reconcileLoop cache.keyList (genLists keyFn template items 0).1
        (genLists keyFn template items 0).2
        (cache.partList.length + (genLists keyFn template items 0).2.length + 1)
        { s := s, oldParts := cache.partList, newParts := [],
          oldHead := 0, oldTail := (cache.partList.length : Int) - 1,
          newHead := 0, newTail := ((genLists keyFn template items 0).2.length : Int) - 1,
          maps := none }).newTail).1 :=
    removeLoop_eq_zero (reconcileLoop cache.keyList (genLists keyFn template items 0).1
        (genLists keyFn template items 0).2
        (cache.partList.length + (genLists keyFn template items 0).2.length + 1)
        { s := s, oldParts := cache.partList, newParts := [],
          oldHead := 0, oldTail := (cache.partList.length : Int) - 1,
          newHead := 0, newTail := ((genLists keyFn template items 0).2.length : Int) - 1,
          maps := none }).oldParts
      (((reconcileLoop cache.keyList (genLists keyFn template items 0).1
        (genLists keyFn template items 0).2
        (cache.partList.length + (genLists keyFn template items 0).2.length + 1)
        { s := s, oldParts := cache.partList, newParts := [],
          oldHead := 0, oldTail := (cache.partList.length : Int) - 1,
          newHead := 0, newTail := ((genLists keyFn template items 0).2.length : Int) - 1,
          maps := none }).oldTail + 1 - (reconcileLoop cache.keyList (genLists keyFn template items 0).1
        (genLists keyFn template items 0).2
        (cache.partList.length + (genLists keyFn template items 0).2.length + 1)
        { s := s, oldParts := cache.partList, newParts := [],
          oldHead := 0, oldTail := (cache.partList.length : Int) - 1,
          newHead := 0, newTail := ((genLists keyFn template items 0).2.length : Int) - 1,
          maps := none }).oldHead).toNat)
      (insertLoop (genLists keyFn template items 0).2
        (((reconcileLoop cache.keyList (genLists keyFn template items 0).1
        (genLists keyFn template items 0).2
        (cache.partList.length + (genLists keyFn template items 0).2.length + 1)
        { s := s, oldParts := cache.partList, newParts := [],
          oldHead := 0, oldTail := (cache.partList.length : Int) - 1,
          newHead := 0, newTail := ((genLists keyFn template items 0).2.length : Int) - 1,
          maps := none }).newTail + 1 - (reconcileLoop cache.keyList (genLists keyFn template items 0).1
        (genLists keyFn template items 0).2
        (cache.partList.length + (genLists keyFn template items 0).2.length + 1)
        { s := s, oldParts := cache.partList, newParts := [],
          oldHead := 0, oldTail := (cache.partList.length : Int) - 1,
          newHead := 0, newTail := ((genLists keyFn template items 0).2.length : Int) - 1,
          maps := none }).newHead).toNat)
        (reconcileLoop cache.keyList (genLists keyFn template items 0).1
        (genLists keyFn template items 0).2
        (cache.partList.length + (genLists keyFn template items 0).2.length + 1)
        { s := s, oldParts := cache.partList, newParts := [],
          oldHead := 0, oldTail := (cache.partList.length : Int) - 1,
          newHead := 0, newTail := ((genLists keyFn template items 0).2.length : Int) - 1,
          maps := none }).s (reconcileLoop cache.keyList (genLists keyFn template items 0).1
        (genLists keyFn template items 0).2
        (cache.partList.length + (genLists keyFn template items 0).2.length + 1)
        { s := s, oldParts := cache.partList, newParts := [],
          oldHead := 0, oldTail := (cache.partList.length : Int) - 1,
          newHead := 0, newTail := ((genLists keyFn template items 0).2.length : Int) - 1,
          maps := none }).newParts (reconcileLoop cache.keyList (genLists keyFn template items 0).1
        (genLists keyFn template items 0).2
        (cache.partList.length + (genLists keyFn template items 0).2.length + 1)
        { s := s, oldParts := cache.partList, newParts := [],
          oldHead := 0, oldTail := (cache.partList.length : Int) - 1,
          newHead := 0, newTail := ((genLists keyFn template items 0).2.length : Int) - 1,
          maps := none }).newHead (reconcileLoop cache.keyList (genLists keyFn template items 0).1
        (genLists keyFn template items 0).2
        (cache.partList.length + (genLists keyFn template items 0).2.length + 1)
        { s := s, oldParts := cache.partList, newParts := [],
          oldHead := 0, oldTail := (cache.partList.length : Int) - 1,
          newHead := 0, newTail := ((genLists keyFn template items 0).2.length : Int) - 1,
          maps := none }).newTail).1 (reconcileLoop cache.keyList (genLists keyFn template items 0).1
        (genLists keyFn template items 0).2
        (cache.partList.length + (genLists keyFn template items 0).2.length + 1)
        { s := s, oldParts := cache.partList, newParts := [],
          oldHead := 0, oldTail := (cache.partList.length : Int) - 1,
          newHead := 0, newTail := ((genLists keyFn template items 0).2.length : Int) - 1,
          maps := none }).oldHead (reconcileLoop cache.keyList (genLists keyFn template items 0).1
        (genLists keyFn template items 0).2
        (cache.partList.length + (genLists keyFn template items 0).2.length + 1)
        { s := s, oldParts := cache.partList, newParts := [],
          oldHead := 0, oldTail := (cache.partList.length : Int) - 1,
          newHead := 0, newTail := ((genLists keyFn template items 0).2.length : Int) - 1,
          maps := none }).oldTail hrCnt
  have hcfin : (reconcile keyFn template items cache s).cache.partList = (insertLoop (genLists keyFn template items 0).2
        (((reconcileLoop cache.keyList (genLists keyFn template items 0).1
        (genLists keyFn template items 0).2
        (cache.partList.length + (genLists keyFn template items 0).2.length + 1)
        { s := s, oldParts := cache.partList, newParts := [],
          oldHead := 0, oldTail := (cache.partList.length : Int) - 1,
          newHead := 0, newTail := ((genLists keyFn template items 0).2.length : Int) - 1,
          maps := none }).newTail + 1 - (reconcileLoop cache.keyList (genLists keyFn template items 0).1
        (genLists keyFn template items 0).2
        (cache.partList.length + (genLists keyFn template items 0).2.length + 1)
        { s := s, oldParts := cache.partList, newParts := [],
          oldHead := 0, oldTail := (cache.partList.length : Int) - 1,
          newHead := 0, newTail := ((genLists keyFn template items 0).2.length : Int) - 1,
          maps := none }).newHead).toNat)
        (reconcileLoop cache.keyList (genLists keyFn template items 0).1
        (genLists keyFn template items 0).2
        (cache.partList.length + (genLists keyFn template items 0).2.length + 1)
        { s := s, oldParts := cache.partList, newParts := [],
          oldHead := 0, oldTail := (cache.partList.length : Int) - 1,
          newHead := 0, newTail := ((genLists keyFn template items 0).2.length : Int) - 1,
          maps := none }).s (reconcileLoop cache.keyList (genLists keyFn template items 0).1
        (genLists keyFn template items 0).2
        (cache.partList.length + (genLists keyFn template items 0).2.length + 1)
        { s := s, oldParts := cache.partList, newParts := [],
          oldHead := 0, oldTail := (cache.partList.length : Int) - 1,
          newHead := 0, newTail := ((genLists keyFn template items 0).2.length : Int) - 1,
          maps := none }).newParts (reconcileLoop cache.keyList (genLists keyFn template items 0).1
        (genLists keyFn template items 0).2
        (cache.partList.length + (genLists keyFn template items 0).2.length + 1)
        { s := s, oldParts := cache.partList, newParts := [],
          oldHead := 0, oldTail := (cache.partList.length : Int) - 1,
          newHead := 0, newTail := ((genLists keyFn template items 0).2.length : Int) - 1,
          maps := none }).newHead (reconcileLoop cache.keyList (genLists keyFn template items 0).1
        (genLists keyFn template items 0).2
        (cache.partList.length + (genLists keyFn template items 0).2.length + 1)
        { s := s, oldParts := cache.partList, newParts := [],
          oldHead := 0, oldTail := (cache.partList.length : Int) - 1,
          newHead := 0, newTail := ((genLists keyFn template items 0).2.length : Int) - 1,
          maps := none }).newTail).2 := rfl
  refine ⟨?_, ?_, ?_, ?_, ?_, ?_, rfl, ?_, ?_, ?_⟩
  · rw [hsfin, j1, i7, i10, hiCnt, hnv]
  · rw [hsfin, j2, i8]
  · rw [hsfin, j3, i9, hiCnt, hnv]
  · rw [hsfin, j4, i10, hiCnt, hnv]
  · rw [hsfin, j5, i11]
  · rw [hcfin, j6, i2, i10, hiCnt, hnv]
  · intro q hq hguard
    rw [hsfin, j7 q (by rw [i10]; omega)]
    exact i12 q (fun j _ hj2 => hguard j hj2)
  · intro j hj hfresh hguard
    rw [hsfin, j7 _ (by rw [i10]; omega)]
    exact i13 j (by omega) hj hguard
  · intro j hj
    have hj' : j < (((reconcileLoop cache.keyList (genLists keyFn template items 0).1
        (genLists keyFn template items 0).2
        (cache.partList.length + (genLists keyFn template items 0).2.length + 1)
        { s := s, oldParts := cache.partList, newParts := [],
          oldHead := 0, oldTail := (cache.partList.length : Int) - 1,
          newHead := 0, newTail := ((genLists keyFn template items 0).2.length : Int) - 1,
          maps := none }).newTail + 1 - (reconcileLoop cache.keyList (genLists keyFn template items 0).1
        (genLists keyFn template items 0).2
        (cache.partList.length + (genLists keyFn template items 0).2.length + 1)
        { s := s, oldParts := cache.partList, newParts := [],
          oldHead := 0, oldTail := (cache.partList.length : Int) - 1,
          newHead := 0, newTail := ((genLists keyFn template items 0).2.length : Int) - 1,
          maps := none }).newHead).toNat) := by
      rw [hiCnt]
      omega
    have hthis := j8 j hj'
    rw [i10] at hthis
    have harg2 : getV (genLists keyFn template items 0).2
        ((reconcileLoop cache.keyList (genLists keyFn template items 0).1
        (genLists keyFn template items 0).2
        (cache.partList.length + (genLists keyFn template items 0).2.length + 1)
        { s := s, oldParts := cache.partList, newParts := [],
          oldHead := 0, oldTail := (cache.partList.length : Int) - 1,
          newHead := 0, newTail := ((genLists keyFn template items 0).2.length : Int) - 1,
          maps := none }).newHead + (j : Int)) =
        getV (genLists keyFn template items 0).2
          ((cache.partList.length : Int) + (j : Int)) := by
      rw [i5]
    rw [hsfin]
    exact hthis.trans harg2

theorem genLists_none_keys (tmpl : Nat → Nat → Nat) :
    ∀ (items : List Nat) (i : Nat),
      (genLists none tmpl items i).1 = List.range' i items.length := by
  intro items
  induction items with
  | nil => intro i; rfl
  | cons it rest ih =>
    intro i
    simp only [genLists, List.length_cons, List.range'_succ]
    rw [ih (i + 1)]

theorem mapSome_range'_getElem (a n j : Nat) (hj : j < n) :
    ((List.range' a n).map some)[j]? = some (some (a + j)) := by
  rw [List.getElem?_map, List.getElem?_range' a 1 hj]
  simp

theorem getPart_mapSome_range' (a n j : Nat) (hj : j < n) :
    getPart ((List.range' a n).map some) (j : Int) = a + j :=
  getPart_of _ j (a + j) (mapSome_range'_getElem a n j hj)

/-- Claim C4 (confirmed): reconciling the same `(keys, values)` sequence twice
in a row for the same container part performs zero DOM moves (the
`reparentNodes` counter does not advance, so no `insertPartBefore` call found a
changed position) and zero part creations on the second pass; the DOM is left
untouched and the persisted parts and keys are unchanged — every item matches
at the head comparison and is updated in place. -/
theorem C4_identical_second_pass_moves_nothing (keyFn : Option (Nat → Nat → Nat))
    (template : Nat → Nat → Nat) (items : List Nat) (cache : Cache) (s : RS) :
    (reconcile keyFn template items
        (reconcile keyFn template items cache s).cache
        (reconcile keyFn template items cache s).s).s.moves =
      (reconcile keyFn template items cache s).s.moves ∧
    (reconcile keyFn template items
        (reconcile keyFn template items cache s).cache
        (reconcile keyFn template items cache s).s).s.creates =
      (reconcile keyFn template items cache s).s.creates ∧
    (reconcile keyFn template items
        (reconcile keyFn template items cache s).cache
        (reconcile keyFn template items cache s).s).s.dom =
      (reconcile keyFn template items cache s).s.dom ∧
    (reconcile keyFn template items
        (reconcile keyFn template items cache s).cache
        (reconcile keyFn template items cache s).s).cache.partList =
      (reconcile keyFn template items cache s).cache.partList ∧
    (reconcile keyFn template items
        (reconcile keyFn template items cache s).cache
        (reconcile keyFn template items cache s).s).cache.keyList =
      (reconcile keyFn template items cache s).cache.keyList := by
  obtain ⟨hkl, hpl, hslots⟩ := reconcile_complete keyFn template items cache s
  have hall : ∀ j : Nat,
      j < (reconcile keyFn template items cache s).cache.partList.length →
      ∃ p, (reconcile keyFn template items cache s).cache.partList[j]? =
        some (some p) := by
    intro j hj
    obtain ⟨p, hp⟩ := hslots j (by omega)
    rw [getI_natCast] at hp
    exact ⟨p, hp⟩
  have hmatch : ∀ j : Nat,
      j < (reconcile keyFn template items cache s).cache.partList.length →
      getI (reconcile keyFn template items cache s).cache.keyList (j : Int) =
      getI (genLists keyFn template items 0).1 (j : Int) := fun j _ => rfl
  obtain ⟨m1, m2, m3, m4, m5, m6, m7, m8, m9, m10⟩ :=
    reconcile_headmatch keyFn template items
      (reconcile keyFn template items cache s).cache
      (reconcile keyFn template items cache s).s hall hmatch (by omega)
  have hz : items.length -
      (reconcile keyFn template items cache s).cache.partList.length = 0 := by omega
  rw [hz] at m1 m3 m6
  refine ⟨m2, ?_, ?_, ?_, m7⟩
  · rw [m3]
    rfl
  · rw [m1]
    simp [List.range']
  · rw [m6]
    simp [List.range']

/-- Claim C8 (confirmed): when no key function is supplied, the key of each
item is its positional index, so the persisted key lists are
`range items.length` and `range (items.length + 1)`; prepending an item then
reuses every pre-existing part in place — no DOM move is performed in either
pass, the old parts keep their positions, and each one's content is
recommitted to the shifted value — while exactly one new part is created, at
the end of the container.  The first pass renders `items` into a fresh
container part (empty cache, machine state with no children and first fresh
identifier 1). -/
theorem C8_positional_keys_prepend_updates_in_place (template : Nat → Nat → Nat)
    (items : List Nat) (w : Nat) (vals0 : Nat → Nat) :
    (reconcile none template items ⟨[], []⟩
        ⟨[], vals0, 1, 0, 0, 0⟩).cache.keyList = List.range items.length ∧
    (reconcile none template (w :: items)
        (reconcile none template items ⟨[], []⟩ ⟨[], vals0, 1, 0, 0, 0⟩).cache
        (reconcile none template items ⟨[], []⟩
          ⟨[], vals0, 1, 0, 0, 0⟩).s).cache.keyList =
      List.range (items.length + 1) ∧
    (reconcile none template items ⟨[], []⟩ ⟨[], vals0, 1, 0, 0, 0⟩).s.moves = 0 ∧
    (reconcile none template (w :: items)
        (reconcile none template items ⟨[], []⟩ ⟨[], vals0, 1, 0, 0, 0⟩).cache
        (reconcile none template items ⟨[], []⟩
          ⟨[], vals0, 1, 0, 0, 0⟩).s).s.moves = 0 ∧
    (reconcile none template (w :: items)
        (reconcile none template items ⟨[], []⟩ ⟨[], vals0, 1, 0, 0, 0⟩).cache
        (reconcile none template items ⟨[], []⟩
          ⟨[], vals0, 1, 0, 0, 0⟩).s).s.creates =
      (reconcile none template items ⟨[], []⟩ ⟨[], vals0, 1, 0, 0, 0⟩).s.creates + 1 ∧
    (reconcile none template (w :: items)
        (reconcile none template items ⟨[], []⟩ ⟨[], vals0, 1, 0, 0, 0⟩).cache
        (reconcile none template items ⟨[], []⟩
          ⟨[], vals0, 1, 0, 0, 0⟩).s).cache.partList =
      (reconcile none template items ⟨[], []⟩
        ⟨[], vals0, 1, 0, 0, 0⟩).cache.partList ++
        [some (reconcile none template items ⟨[], []⟩ ⟨[], vals0, 1, 0, 0, 0⟩).s.nextId] ∧
    (reconcile none template (w :: items)
        (reconcile none template items ⟨[], []⟩ ⟨[], vals0, 1, 0, 0, 0⟩).cache
        (reconcile none template items ⟨[], []⟩
          ⟨[], vals0, 1, 0, 0, 0⟩).s).s.dom =
      (reconcile none template items ⟨[], []⟩ ⟨[], vals0, 1, 0, 0, 0⟩).s.dom ++
        [(reconcile none template items ⟨[], []⟩ ⟨[], vals0, 1, 0, 0, 0⟩).s.nextId] ∧
    (∀ j : Nat, j < items.length →
      (reconcile none template (w :: items)
          (reconcile none template items ⟨[], []⟩ ⟨[], vals0, 1, 0, 0, 0⟩).cache
          (reconcile none template items ⟨[], []⟩
            ⟨[], vals0, 1, 0, 0, 0⟩).s).s.vals
          (getPart (reconcile none template items ⟨[], []⟩
            ⟨[], vals0, 1, 0, 0, 0⟩).cache.partList (j : Int)) =
        getV (genLists none template (w :: items) 0).2 (j : Int)) := by
  obtain ⟨p1, p2, p3, p4, p5, p6, p7, p8, p9, p10⟩ :=
    reconcile_headmatch none template items ⟨[], []⟩ ⟨[], vals0, 1, 0, 0, 0⟩
      (by intro j hj; simp at hj) (by intro j hj; simp at hj) (by simp)
  simp only [List.length_nil, List.nil_append, Nat.sub_zero] at p1 p3 p4 p6
  have hpl1 : (reconcile none template items ⟨[], []⟩
      ⟨[], vals0, 1, 0, 0, 0⟩).cache.partList =
      (List.range' 1 items.length).map some := by
    simpa using p6
  have hlen1 : (reconcile none template items ⟨[], []⟩
      ⟨[], vals0, 1, 0, 0, 0⟩).cache.partList.length = items.length := by
    rw [hpl1]
    simp
  have hall : ∀ j : Nat,
      j < (reconcile none template items ⟨[], []⟩
        ⟨[], vals0, 1, 0, 0, 0⟩).cache.partList.length →
      ∃ p, (reconcile none template items ⟨[], []⟩
        ⟨[], vals0, 1, 0, 0, 0⟩).cache.partList[j]? = some (some p) := by
    intro j hj
    rw [hlen1] at hj
    rw [hpl1]
    exact ⟨1 + j, mapSome_range'_getElem 1 items.length j hj⟩
  have hkl1 : (reconcile none template items ⟨[], []⟩
      ⟨[], vals0, 1, 0, 0, 0⟩).cache.keyList = List.range' 0 items.length := by
    rw [p7, genLists_none_keys]
  have hmatch : ∀ j : Nat,
      j < (reconcile none template items ⟨[], []⟩
        ⟨[], vals0, 1, 0, 0, 0⟩).cache.partList.length →
      getI (reconcile none template items ⟨[], []⟩
        ⟨[], vals0, 1, 0, 0, 0⟩).cache.keyList (j : Int) =
      getI (genLists none template (w :: items) 0).1 (j : Int) := by
    intro j hj
    rw [hlen1] at hj
    rw [hkl1, genLists_none_keys, getI_natCast, getI_natCast,
      List.getElem?_range' 0 1 hj,
      List.getElem?_range' 0 1 (by simp; omega : j < (w :: items).length)]
  obtain ⟨q1, q2, q3, q4, q5, q6, q7, q8, q9, q10⟩ :=
    reconcile_headmatch none template (w :: items)
      (reconcile none template items ⟨[], []⟩ ⟨[], vals0, 1, 0, 0, 0⟩).cache
      (reconcile none template items ⟨[], []⟩ ⟨[], vals0, 1, 0, 0, 0⟩).s
      hall hmatch (by rw [hlen1]; simp)
  have hz1 : (w :: items).length -
      (reconcile none template items ⟨[], []⟩
        ⟨[], vals0, 1, 0, 0, 0⟩).cache.partList.length = 1 := by
    rw [hlen1]
    simp
  rw [hz1] at q1 q3 q6
  refine ⟨?_, ?_, ?_, ?_, ?_, ?_, ?_, ?_⟩
  · rw [hkl1, List.range_eq_range']
  · rw [q7, genLists_none_keys, List.range_eq_range']
    simp
  · rw [p2]
  · rw [q2, p2]
  · rw [q3]
  · rw [q6]
    simp [List.range']
  · rw [q1]
    simp [List.range']
  · intro j hj
    have hfresh : getPart (reconcile none template items ⟨[], []⟩
        ⟨[], vals0, 1, 0, 0, 0⟩).cache.partList (j : Int) <
        (reconcile none template items ⟨[], []⟩ ⟨[], vals0, 1, 0, 0, 0⟩).s.nextId := by
      rw [hpl1, getPart_mapSome_range' 1 items.length j hj, p4]
      omega
    have hguard : ∀ j' : Nat, j < j' →
        j' < (reconcile none template items ⟨[], []⟩
          ⟨[], vals0, 1, 0, 0, 0⟩).cache.partList.length →
        getPart (reconcile none template items ⟨[], []⟩
          ⟨[], vals0, 1, 0, 0, 0⟩).cache.partList (j' : Int) ≠
        getPart (reconcile none template items ⟨[], []⟩
          ⟨[], vals0, 1, 0, 0, 0⟩).cache.partList (j : Int) := by
      intro j' hjj hj'
      rw [hlen1] at hj'
      rw [hpl1, getPart_mapSome_range' 1 items.length j hj,
        getPart_mapSome_range' 1 items.length j' hj']
      omega
    exact q9 j (by rw [hlen1]; exact hj) hfresh hguard

theorem liveSegGo_congr {l l' : List (Option Nat)} :
    ∀ (cnt a : Nat),
      (∀ i : Nat, a ≤ i → i < a + cnt → aget l' (i : Int) = aget l (i : Int)) →
      liveSegGo l' cnt a = liveSegGo l cnt a := by
  intro cnt
  induction cnt with
  | zero => intro a _; rfl
  | succ cnt ih =>
    intro a h
    simp only [liveSegGo]
    rw [h a (le_refl a) (by omega),
      ih (a + 1) (fun i h1 h2 => h i (by omega) (by omega))]

theorem liveSegGo_split (l : List (Option Nat)) :
    ∀ (c1 c2 a : Nat),
      liveSegGo l (c1 + c2) a = liveSegGo l c1 a ++ liveSegGo l c2 (a + c1) := by
  intro c1
  induction c1 with
  | zero => intro c2 a; simp [liveSegGo]
  | succ c1 ih =>
    intro c2 a
    rw [show c1 + 1 + c2 = (c1 + c2) + 1 from by omega]
    simp only [liveSegGo]
    rw [ih c2 (a + 1), List.append_assoc,
      show a + 1 + c1 = a + (c1 + 1) from by omega]

theorem liveSegGo_nil : ∀ (cnt a : Nat), liveSegGo [] cnt a = [] := by
  intro cnt
  induction cnt with
  | zero => intro a; rfl
  | succ cnt ih =>
    intro a
    simp [liveSegGo, aget, getI, ih]

theorem liveSeg_empty (l : List (Option Nat)) (a b : Nat) (h : b ≤ a) :
    liveSeg l a b = [] := by
  unfold liveSeg
  rw [show b - a = 0 from by omega]
  rfl

theorem liveSeg_cons (l : List (Option Nat)) (a b : Nat) (h : a < b) :
    liveSeg l a b = (aget l (a : Int)).toList ++ liveSeg l (a + 1) b := by
  unfold liveSeg
  rw [show b - a = (b - (a + 1)) + 1 from by omega]
  rfl

theorem liveSeg_snoc (l : List (Option Nat)) (a b : Nat) (h : a ≤ b) :
    liveSeg l a (b + 1) = liveSeg l a b ++ (aget l (b : Int)).toList := by
  unfold liveSeg
  rw [show b + 1 - a = (b - a) + 1 from by omega, liveSegGo_split l (b - a) 1 a,
    show a + (b - a) = b from by omega]
  simp [liveSegGo]

theorem liveSeg_split (l : List (Option Nat)) (a j b : Nat) (h1 : a ≤ j)
    (h2 : j < b) :
    liveSeg l a b =
      liveSeg l a j ++ (aget l (j : Int)).toList ++ liveSeg l (j + 1) b := by
  unfold liveSeg
  rw [show b - a = (j - a) + ((b - (j + 1)) + 1) from by omega, liveSegGo_split,
    show a + (j - a) = j from by omega]
  simp only [liveSegGo]
  rw [← List.append_assoc]

theorem liveSeg_congr {l l' : List (Option Nat)} (a b : Nat)
    (h : ∀ i : Nat, a ≤ i → i < b → aget l' (i : Int) = aget l (i : Int)) :
    liveSeg l' a b = liveSeg l a b :=
  liveSegGo_congr (b - a) a (fun i h1 h2 => h i h1 (by omega))

theorem liveSegGo_shift (x : Option Nat) (rest : List (Option Nat)) :
    ∀ (cnt a : Nat), liveSegGo (x :: rest) cnt (a + 1) = liveSegGo rest cnt a := by
  intro cnt
  induction cnt with
  | zero => intro a; rfl
  | succ cnt ih =>
    intro a
    simp only [liveSegGo]
    have hc : aget (x :: rest) ((a + 1 : Nat) : Int) = aget rest (a : Int) := by
      rw [aget, aget, getI_nonneg _ _ (by omega), getI_nonneg _ _ (by omega),
        show ((a + 1 : Nat) : Int).toNat = a + 1 from by omega,
        show ((a : Nat) : Int).toNat = a from by omega,
        List.getElem?_cons_succ]
    rw [hc, ih (a + 1)]

theorem liveSeg_eq_filterMap :
    ∀ (l : List (Option Nat)) (n : Nat), l.length ≤ n →
      liveSeg l 0 n = l.filterMap id := by
  intro l
  induction l with
  | nil =>
    intro n _
    unfold liveSeg
    rw [liveSegGo_nil]
    rfl
  | cons x rest ih =>
    intro n hl
    simp only [List.length_cons] at hl
    obtain ⟨m, rfl⟩ : ∃ m, n = m + 1 := ⟨n - 1, by omega⟩
    unfold liveSeg
    rw [show m + 1 - 0 = m + 1 from by omega]
    simp only [liveSegGo]
    rw [show (0 : Nat) + 1 = 1 from rfl,
      show (1 : Nat) = 0 + 1 from rfl, liveSegGo_shift]
    have hrest : liveSegGo rest (m - 0) 0 = rest.filterMap id := ih m (by omega)
    rw [show m - 0 = m from by omega] at hrest
    rw [hrest]
    have hx : aget (x :: rest) ((0 : Nat) : Int) = x := by
      cases x <;> simp [aget, getI]
    rw [hx]
    cases x <;> simp [List.filterMap_cons]

theorem mem_liveSeg (l : List (Option Nat)) (a b j : Nat) (h1 : a ≤ j)
    (h2 : j < b) (p : Nat) (hp : aget l (j : Int) = some p) :
    p ∈ liveSeg l a b := by
  rw [liveSeg_split l a j b h1 h2, hp]
  simp

theorem getI_setNull_ne (l : List (Option Nat)) (i j : Int) (h0 : 0 ≤ i)
    (hne : j ≠ i) : getI (setNull l i) j = getI l j := by
  by_cases hj : 0 ≤ j
  · rw [getI_nonneg _ _ hj, getI_nonneg _ _ hj]
    unfold setNull
    exact List.getElem?_set_ne (by omega)
  · rw [getI_neg _ _ (by omega), getI_neg _ _ (by omega)]

theorem aget_setNull_ne (l : List (Option Nat)) (i j : Int) (h0 : 0 ≤ i)
    (hne : j ≠ i) : aget (setNull l i) j = aget l j := by
  unfold aget
  rw [getI_setNull_ne l i j h0 hne]

theorem aget_setNull_self (l : List (Option Nat)) (i : Int) (h0 : 0 ≤ i) :
    aget (setNull l i) i = none := by
  by_cases hl : i.toNat < l.length
  · simp [aget, setNull, getI, h0, List.getElem?_set_eq hl]
  · rw [setNull, List.set_eq_of_length_le (by omega)]
    exact aget_none_of_le l i (by omega)

theorem setNull_length (l : List (Option Nat)) (i : Int) :
    (setNull l i).length = l.length := by
  simp [setNull]

theorem slot_live (l : List (Option Nat)) (i : Int) (h0 : 0 ≤ i)
    (hlen : i < (l.length : Int)) (hns : getI l i ≠ some none) :
    getI l i = some (some (getPart l i)) ∧ aget l i = some (getPart l i) := by
  rcases hx : getI l i with _ | x
  · rw [getI_nonneg _ _ h0] at hx
    rw [List.getElem?_eq_none_iff] at hx
    omega
  · cases x with
    | none => exact absurd hx hns
    | some p =>
      have hgp : getPart l i = p := by simp [getPart, hx]
      rw [hgp]
      exact ⟨rfl, by simp [aget, hx]⟩

theorem alreadyBefore_one (p : Nat) (ref : Option Nat) (a : Nat) :
    alreadyBefore p ref [a] = (a == p && ref == none) := rfl

theorem alreadyBefore_cons2 (p : Nat) (ref : Option Nat) (a b : Nat)
    (l : List Nat) :
    alreadyBefore p ref (a :: b :: l) =
      ((a == p && ref == some b) || alreadyBefore p ref (b :: l)) := rfl

theorem alreadyBefore_not_mem (p : Nat) (ref : Option Nat) :
    ∀ l : List Nat, p ∉ l → alreadyBefore p ref l = false := by
  intro l
  induction l with
  | nil => intro _; rfl
  | cons a rest ih =>
    intro h
    have hap : a ≠ p := fun h' => h (by simp [h'])
    cases rest with
    | nil =>
      rw [alreadyBefore_one]
      simp [hap]
    | cons b l2 =>
      rw [alreadyBefore_cons2,
        ih (fun hm => h (List.mem_cons_of_mem a hm))]
      simp [hap]

theorem alreadyBefore_layout (p : Nat) (ref : Option Nat) :
    ∀ (A B : List Nat), p ∉ A → p ∉ B →
      (alreadyBefore p ref (A ++ p :: B) = true ↔ ref = B.head?) := by
  intro A
  induction A with
  | nil =>
    intro B _ hB
    cases B with
    | nil =>
      rw [List.nil_append, alreadyBefore_one]
      simp
    | cons b B2 =>
      rw [List.nil_append, alreadyBefore_cons2,
        alreadyBefore_not_mem p ref _ hB]
      simp
  | cons a A2 ih =>
    intro B hA hB
    have hap : a ≠ p := fun h' => hA (by simp [h'])
    have hA2 : p ∉ A2 := fun hm => hA (List.mem_cons_of_mem a hm)
    cases A2 with
    | nil =>
      have hone := ih B hA2 hB
      rw [List.nil_append] at hone
      rw [show (([a] : List Nat) ++ p :: B) = a :: p :: B from rfl,
        alreadyBefore_cons2]
      simp [hap, hone]
    | cons a2 A3 =>
      have hrest := ih B hA2 hB
      rw [show ((a :: a2 :: A3 : List Nat) ++ p :: B) = a :: a2 :: (A3 ++ p :: B)
          from rfl,
        alreadyBefore_cons2]
      rw [show ((a2 :: A3 : List Nat) ++ p :: B) = a2 :: (A3 ++ p :: B) from rfl]
        at hrest
      simp [hap, hrest]

theorem insertIdBefore_found (x b : Nat) (B : List Nat) :
    ∀ A : List Nat, b ∉ A →
      insertIdBefore x (some b) (A ++ b :: B) = A ++ x :: b :: B := by
  intro A
  induction A with
  | nil => simp [insertIdBefore]
  | cons a A2 ih =>
    intro h
    have hab : a ≠ b := fun h' => h (by simp [h'])
    rw [List.cons_append, insertIdBefore, if_neg hab,
      ih (fun hm => h (List.mem_cons_of_mem a hm))]
    rfl

theorem insertIdBefore_layout (x : Nat) (A B : List Nat)
    (hhead : ∀ b ∈ B.head?, b ∉ A) :
    insertIdBefore x B.head? (A ++ B) = A ++ x :: B := by
  cases B with
  | nil =>
    simp only [List.head?_nil, List.append_nil, insertIdBefore_none]
  | cons b B2 =>
    have hb : b ∉ A := hhead b rfl
    exact insertIdBefore_found x b B2 A hb

theorem erase_layout (p : Nat) (A B : List Nat) (hA : p ∉ A) :
    (A ++ p :: B).erase p = A ++ B := by
  rw [List.erase_append_right _ hA, List.erase_cons_head]

theorem eq_append_cons_of_not_mem {h : Nat} :
    ∀ (X A Y B : List Nat), h ∉ X → h ∉ A → X ++ h :: Y = A ++ h :: B →
      X = A ∧ Y = B := by
  intro X
  induction X with
  | nil =>
    intro A Y B _ hA heq
    cases A with
    | nil =>
      rw [List.nil_append, List.nil_append] at heq
      exact ⟨rfl, by injection heq⟩
    | cons a A2 =>
      rw [List.nil_append, List.cons_append] at heq
      injection heq with h1 h2
      exact absurd (h1 ▸ List.mem_cons_self h A2) hA
  | cons x X2 ih =>
    intro A Y B hX hA heq
    cases A with
    | nil =>
      rw [List.nil_append, List.cons_append] at heq
      injection heq with h1 h2
      exact absurd (h1 ▸ List.mem_cons_self x X2) (h1 ▸ hX)
    | cons a A2 =>
      rw [List.cons_append, List.cons_append] at heq
      injection heq with h1 h2
      subst h1
      have := ih A2 Y B (fun hm => hX (List.mem_cons_of_mem x hm))
        (fun hm => hA (List.mem_cons_of_mem x hm)) h2
      exact ⟨by rw [this.1], this.2⟩

theorem insertPartBefore_move (s : RS) (p : Nat) (ref : Option Nat)
    (X Y A B : List Nat)
    (hnd : s.dom.Nodup)
    (hdom : s.dom = X ++ p :: Y)
    (hXY : X ++ Y = A ++ B)
    (href : ref = B.head?)
    (hhead : ∀ b ∈ B.head?, b ∉ A) :
    (insertPartBefore s p ref).dom = A ++ p :: B ∧
    (insertPartBefore s p ref).dom.Nodup ∧
    (insertPartBefore s p ref).nextId = s.nextId := by
  subst href
  have hnd' : (X ++ p :: Y).Nodup := hdom ▸ hnd
  have hmid := List.nodup_middle.mp hnd'
  have hpXY : p ∉ X ++ Y := (List.nodup_cons.mp hmid).1
  have hndXY : (X ++ Y).Nodup := (List.nodup_cons.mp hmid).2
  have hpAB : p ∉ A ++ B := hXY ▸ hpXY
  have hndAB : (A ++ B).Nodup := hXY ▸ hndXY
  unfold insertPartBefore
  by_cases hab : alreadyBefore p B.head? s.dom
  · rw [if_pos hab]
    have hiff := alreadyBefore_layout p B.head? X Y
      (fun hm => hpXY (List.mem_append_left _ hm))
      (fun hm => hpXY (List.mem_append_right _ hm))
    rw [hdom] at hab
    have href : B.head? = Y.head? := hiff.mp hab
    cases B with
    | nil =>
      cases Y with
      | cons y Y2 => simp at href
      | nil =>
        have hXA : X = A := by simpa using hXY
        exact ⟨by rw [hdom, hXA], hnd, rfl⟩
    | cons b B2 =>
      cases Y with
      | nil => simp at href
      | cons y Y2 =>
        simp only [List.head?_cons, Option.some.injEq] at href
        subst href
        have hbX : b ∉ X := by
          intro hm
          exact (List.nodup_append.mp hndXY).2.2 hm (List.mem_cons_self b Y2)
        have hbA : b ∉ A := hhead b rfl
        have hsplit := eq_append_cons_of_not_mem X A Y2 B2 hbX hbA hXY
        exact ⟨by rw [hdom, hsplit.1, hsplit.2], hnd, rfl⟩
  · rw [if_neg hab]
    have herase : s.dom.erase p = A ++ B := by
      rw [hdom, erase_layout p X Y
        (fun hm => hpXY (List.mem_append_left _ hm))]
      exact hXY
    refine ⟨?_, ?_, rfl⟩
    · show insertIdBefore p B.head? (s.dom.erase p) = A ++ p :: B
      rw [herase, insertIdBefore_layout p A B hhead]
    · show (insertIdBefore p B.head? (s.dom.erase p)).Nodup
      rw [herase, insertIdBefore_layout p A B hhead]
      exact List.nodup_middle.mpr (List.nodup_cons.mpr ⟨hpAB, hndAB⟩)

theorem createAndInsertPart_layout (s : RS) (ref : Option Nat) (A B : List Nat)
    (hdom : s.dom = A ++ B) (href : ref = B.head?)
    (hhead : ∀ b ∈ B.head?, b ∉ A) :
    (createAndInsertPart s ref).1.dom = A ++ s.nextId :: B ∧
    (createAndInsertPart s ref).2 = s.nextId ∧
    (createAndInsertPart s ref).1.nextId = s.nextId + 1 := by
  subst href
  refine ⟨?_, rfl, rfl⟩
  show insertIdBefore s.nextId B.head? s.dom = A ++ s.nextId :: B
  rw [hdom, insertIdBefore_layout _ A B hhead]

theorem generateMapGo_mono (list : List Nat) :
    ∀ (cnt : Nat) (i : Int) (m : Option Nat → Option Int) (k : Option Nat),
      (m k).isSome → ((generateMapGo list cnt i m) k).isSome := by
  intro cnt
  induction cnt with
  | zero => intro i m k h; exact h
  | succ cnt ih =>
    intro i m k h
    rw [generateMapGo]
    apply ih
    unfold mapSet
    by_cases hk : k = getI list i
    · rw [if_pos hk]; rfl
    · rw [if_neg hk]; exact h

theorem generateMapGo_has (list : List Nat) :
    ∀ (cnt : Nat) (i : Int) (m : Option Nat → Option Int) (t : Int),
      i ≤ t → t < i + cnt → ((generateMapGo list cnt i m) (getI list t)).isSome := by
  intro cnt
  induction cnt with
  | zero => intro i m t h1 h2; omega
  | succ cnt ih =>
    intro i m t h1 h2
    rw [generateMapGo]
    by_cases ht : t = i
    · apply generateMapGo_mono
      subst ht
      unfold mapSet
      rw [if_pos rfl]
      rfl
    · exact ih (i + 1) _ t (by omega) (by omega)

theorem generateMapGo_sound (list : List Nat) (P : Int → Prop) :
    ∀ (cnt : Nat) (i : Int) (m : Option Nat → Option Int),
      (∀ k j, m k = some j → P j ∧ getI list j = k) →
      (∀ t : Int, i ≤ t → t < i + cnt → P t) →
      ∀ k j, (generateMapGo list cnt i m) k = some j → P j ∧ getI list j = k := by
  intro cnt
  induction cnt with
  | zero => intro i m hm _ k j h; exact hm k j h
  | succ cnt ih =>
    intro i m hm hr
    rw [generateMapGo]
    apply ih (i + 1)
    · intro k j h
      unfold mapSet at h
      by_cases hk : k = getI list i
      · rw [if_pos hk] at h
        injection h with h'
        subst h'
        exact ⟨hr i (le_refl i) (by omega), hk.symm⟩
      · rw [if_neg hk] at h
        exact hm k j h
    · intro t h1 h2
      exact hr t (by omega) (by omega)

theorem generateMap_has (list : List Nat) (start endI t : Int)
    (h1 : start ≤ t) (h2 : t ≤ endI) :
    ((generateMap list start endI) (getI list t)).isSome := by
  unfold generateMap
  apply generateMapGo_has list _ start _ t h1
  omega

theorem generateMap_sound (list : List Nat) (start endI : Int) (hs : 0 ≤ start)
    (he : endI < (list.length : Int)) :
    ∀ k j, (generateMap list start endI) k = some j →
      (0 ≤ j ∧ j < (list.length : Int)) ∧ getI list j = k := by
  unfold generateMap
  apply generateMapGo_sound list (fun j => 0 ≤ j ∧ j < (list.length : Int))
  · intro k j h
    simp at h
  · intro t h1 h2
    constructor
    · omega
    · omega

theorem getI_inj_ne (l : List Nat) (hnd : l.Nodup) (a b : Int)
    (h0 : 0 ≤ a) (h1 : a < (l.length : Int)) (h2 : 0 ≤ b)
    (h3 : b < (l.length : Int)) (hne : a ≠ b) : getI l a ≠ getI l b := by
  intro heq
  rw [getI_nonneg _ _ h0, getI_nonneg _ _ h2] at heq
  have := List.getElem?_inj (by omega : a.toNat < l.length) hnd heq
  omega

theorem loopInv_skipHead {oldKeys newKeys : List Nat} {st : LoopState}
    (inv : LoopInv oldKeys newKeys st)
    (hc : st.oldHead ≤ st.oldTail ∧ st.newHead ≤ st.newTail)
    (h1 : getI st.oldParts st.oldHead = some none) :
    LoopInv oldKeys newKeys { st with oldHead := st.oldHead + 1 } := by
  obtain ⟨shape, ohPos, otLt, ohLe, olen, domEq, domNodup, fresh, keyK, mapsOk⟩ := inv
  refine ⟨shape, by dsimp only; omega, otLt, by dsimp only; omega, olen, ?_,
    domNodup, fresh, ?_, mapsOk⟩
  · show st.s.dom = _
    rw [domEq]
    have hm : liveSeg st.oldParts st.oldHead.toNat (st.oldTail + 1).toNat =
        liveSeg st.oldParts (st.oldHead + 1).toNat (st.oldTail + 1).toNat := by
      rw [liveSeg_cons _ _ _ (by omega)]
      have hag : aget st.oldParts ((st.oldHead.toNat : Nat) : Int) = none := by
        rw [Int.toNat_of_nonneg ohPos, aget, h1]
        rfl
      rw [hag, show (st.oldHead + 1).toNat = st.oldHead.toNat + 1 from by omega]
      rfl
    rw [hm]
  · intro j hj hdisj i hi1 hi2
    dsimp only at hdisj hi1 hi2
    rcases hdisj with hlt | hgt | htomb
    · by_cases hje : (j : Int) = st.oldHead
      · refine keyK j hj (Or.inr (Or.inr ?_)) i hi1 hi2
        rw [hje]
        exact h1
      · exact keyK j hj (Or.inl (by omega)) i hi1 hi2
    · exact keyK j hj (Or.inr (Or.inl hgt)) i hi1 hi2
    · exact keyK j hj (Or.inr (Or.inr htomb)) i hi1 hi2

theorem loopInv_skipTail {oldKeys newKeys : List Nat} {st : LoopState}
    (inv : LoopInv oldKeys newKeys st)
    (hc : st.oldHead ≤ st.oldTail ∧ st.newHead ≤ st.newTail)
    (h2 : getI st.oldParts st.oldTail = some none) :
    LoopInv oldKeys newKeys { st with oldTail := st.oldTail - 1 } := by
  obtain ⟨shape, ohPos, otLt, ohLe, olen, domEq, domNodup, fresh, keyK, mapsOk⟩ := inv
  have hot : 0 ≤ st.oldTail := by omega
  refine ⟨shape, ohPos, by dsimp only; omega, by dsimp only; omega, olen, ?_,
    domNodup, fresh, ?_, mapsOk⟩
  · show st.s.dom = _
    rw [domEq]
    have hm : liveSeg st.oldParts st.oldHead.toNat (st.oldTail + 1).toNat =
        liveSeg st.oldParts st.oldHead.toNat (st.oldTail - 1 + 1).toNat := by
      rw [show (st.oldTail + 1).toNat = st.oldTail.toNat + 1 from by omega,
        liveSeg_snoc _ _ _ (by omega)]
      have hag : aget st.oldParts ((st.oldTail.toNat : Nat) : Int) = none := by
        rw [Int.toNat_of_nonneg hot, aget, h2]
        rfl
      rw [hag, show (st.oldTail - 1 + 1).toNat = st.oldTail.toNat from by omega]
      simp
    rw [hm]
  · intro j hj hdisj i hi1 hi2
    dsimp only at hdisj hi1 hi2
    rcases hdisj with hlt | hgt | htomb
    · exact keyK j hj (Or.inl hlt) i hi1 hi2
    · by_cases hje : (j : Int) = st.oldTail
      · refine keyK j hj (Or.inr (Or.inr ?_)) i hi1 hi2
        rw [hje]
        exact h2
      · exact keyK j hj (Or.inr (Or.inl (by omega))) i hi1 hi2
    · exact keyK j hj (Or.inr (Or.inr htomb)) i hi1 hi2

theorem loopInv_headMatch {oldKeys newKeys : List Nat} {st : LoopState}
    (newValues : List Nat) (hndN : newKeys.Nodup)
    (inv : LoopInv oldKeys newKeys st)
    (hc : st.oldHead ≤ st.oldTail ∧ st.newHead ≤ st.newTail)
    (h1 : ¬ getI st.oldParts st.oldHead = some none)
    (h3 : getI oldKeys st.oldHead = getI newKeys st.newHead) :
    LoopInv oldKeys newKeys
      { st with
          s := updatePart st.s (getPart st.oldParts st.oldHead)
            (getV newValues st.newHead)
          newParts := aset st.newParts st.newHead (getPart st.oldParts st.oldHead)
          oldHead := st.oldHead + 1
          newHead := st.newHead + 1 } := by
  obtain ⟨shape, ohPos, otLt, ohLe, olen, domEq, domNodup, fresh, keyK, mapsOk⟩ := inv
  obtain ⟨s1, s2, s3, s4, s5⟩ := shape
  have hlive := slot_live st.oldParts st.oldHead ohPos
    (by rw [olen]; omega) h1
  refine ⟨shapeT_assign_head ⟨s1, s2, s3, s4, s5⟩ hc.2 _, by dsimp only; omega,
    otLt, by dsimp only; omega, olen, ?_, domNodup, fresh, ?_, ?_⟩
  · show st.s.dom = _
    rw [domEq]
    have hPre : liveSeg (aset st.newParts st.newHead (getPart st.oldParts st.oldHead))
        0 (st.newHead + 1).toNat =
        liveSeg st.newParts 0 st.newHead.toNat ++ [getPart st.oldParts st.oldHead] := by
      rw [show (st.newHead + 1).toNat = st.newHead.toNat + 1 from by omega,
        liveSeg_snoc _ _ _ (Nat.zero_le _),
        liveSeg_congr 0 st.newHead.toNat
          (fun i hi1 hi2 => aget_aset_ne _ _ _ _ (by omega)),
        Int.toNat_of_nonneg s1, aget_aset_self _ _ _ s1]
      rfl
    have hMid : liveSeg st.oldParts st.oldHead.toNat (st.oldTail + 1).toNat =
        getPart st.oldParts st.oldHead ::
        liveSeg st.oldParts (st.oldHead + 1).toNat (st.oldTail + 1).toNat := by
      rw [liveSeg_cons _ _ _ (by omega), Int.toNat_of_nonneg ohPos, hlive.2,
        show (st.oldHead + 1).toNat = st.oldHead.toNat + 1 from by omega]
      rfl
    have hSuf : liveSeg (aset st.newParts st.newHead (getPart st.oldParts st.oldHead))
        (st.newTail + 1).toNat newKeys.length =
        liveSeg st.newParts (st.newTail + 1).toNat newKeys.length :=
      liveSeg_congr _ _ (fun i hi1 hi2 => aget_aset_ne _ _ _ _ (by omega))
    rw [hPre, hMid, hSuf]
    simp
  · intro j hj hdisj i hi1 hi2
    dsimp only at hdisj hi1 hi2
    rcases hdisj with hlt | hgt | htomb
    · by_cases hje : (j : Int) = st.oldHead
      · rw [hje, h3]
        exact getI_inj_ne newKeys hndN st.newHead (i : Int) s1 (by omega)
          (by omega) (by omega) (by omega)
      · exact keyK j hj (Or.inl (by omega)) i (by omega) hi2
    · exact keyK j hj (Or.inr (Or.inl hgt)) i (by omega) hi2
    · exact keyK j hj (Or.inr (Or.inr htomb)) i (by omega) hi2
  · intro nm om hm
    obtain ⟨hA, hB⟩ := mapsOk nm om hm
    refine ⟨?_, hB⟩
    intro i hi1 hi2
    dsimp only at hi1 hi2
    exact hA i (by omega) hi2

theorem loopInv_tailMatch {oldKeys newKeys : List Nat} {st : LoopState}
    (newValues : List Nat) (hndN : newKeys.Nodup)
    (inv : LoopInv oldKeys newKeys st)
    (hc : st.oldHead ≤ st.oldTail ∧ st.newHead ≤ st.newTail)
    (h2 : ¬ getI st.oldParts st.oldTail = some none)
    (h4 : getI oldKeys st.oldTail = getI newKeys st.newTail) :
    LoopInv oldKeys newKeys
      { st with
          s := updatePart st.s (getPart st.oldParts st.oldTail)
            (getV newValues st.newTail)
          newParts := aset st.newParts st.newTail (getPart st.oldParts st.oldTail)
          oldTail := st.oldTail - 1
          newTail := st.newTail - 1 } := by
  obtain ⟨shape, ohPos, otLt, ohLe, olen, domEq, domNodup, fresh, keyK, mapsOk⟩ := inv
  obtain ⟨s1, s2, s3, s4, s5⟩ := shape
  have hot : 0 ≤ st.oldTail := by omega
  have hnt : 0 ≤ st.newTail := by omega
  have hlive := slot_live st.oldParts st.oldTail hot
    (by rw [olen]; omega) h2
  refine ⟨shapeT_assign_tail ⟨s1, s2, s3, s4, s5⟩ hc.2 _, ohPos,
    by dsimp only; omega, by dsimp only; omega, olen, ?_, domNodup, fresh, ?_, ?_⟩
  · show st.s.dom = _
    rw [domEq]
    have hMid : liveSeg st.oldParts st.oldHead.toNat (st.oldTail + 1).toNat =
        liveSeg st.oldParts st.oldHead.toNat (st.oldTail - 1 + 1).toNat ++
        [getPart st.oldParts st.oldTail] := by
      rw [show (st.oldTail + 1).toNat = st.oldTail.toNat + 1 from by omega,
        liveSeg_snoc _ _ _ (by omega), Int.toNat_of_nonneg hot, hlive.2,
        show (st.oldTail - 1 + 1).toNat = st.oldTail.toNat from by omega]
      rfl
    have hSuf : liveSeg (aset st.newParts st.newTail (getPart st.oldParts st.oldTail))
        (st.newTail - 1 + 1).toNat newKeys.length =
        getPart st.oldParts st.oldTail ::
        liveSeg st.newParts (st.newTail + 1).toNat newKeys.length := by
      rw [show (st.newTail - 1 + 1).toNat = st.newTail.toNat from by omega,
        liveSeg_cons _ _ _ (by omega), Int.toNat_of_nonneg hnt,
        aget_aset_self _ _ _ hnt,
        liveSeg_congr (st.newTail.toNat + 1) newKeys.length
          (fun i hi1 hi2 => aget_aset_ne _ _ _ _ (by omega)),
        show st.newTail.toNat + 1 = (st.newTail + 1).toNat from by omega]
      rfl
    have hPre : liveSeg (aset st.newParts st.newTail (getPart st.oldParts st.oldTail))
        0 st.newHead.toNat = liveSeg st.newParts 0 st.newHead.toNat :=
      liveSeg_congr _ _ (fun i hi1 hi2 => aget_aset_ne _ _ _ _ (by omega))
    rw [hPre, hMid, hSuf]
    simp
  · intro j hj hdisj i hi1 hi2
    dsimp only at hdisj hi1 hi2
    rcases hdisj with hlt | hgt | htomb
    · exact keyK j hj (Or.inl hlt) i hi1 (by omega)
    · by_cases hje : (j : Int) = st.oldTail
      · rw [hje, h4]
        exact getI_inj_ne newKeys hndN st.newTail (i : Int) hnt (by omega)
          (by omega) (by omega) (by omega)
      · exact keyK j hj (Or.inr (Or.inl (by omega))) i hi1 (by omega)
    · exact keyK j hj (Or.inr (Or.inr htomb)) i hi1 (by omega)
  · intro nm om hm
    obtain ⟨hA, hB⟩ := mapsOk nm om hm
    refine ⟨?_, hB⟩
    intro i hi1 hi2
    dsimp only at hi1 hi2
    exact hA i hi1 (by omega)

theorem nodup_three {A B C : List Nat} (h : (A ++ B ++ C).Nodup) :
    ∀ b ∈ C, b ∉ A ++ B :=
  fun b hb hmem => (List.nodup_append.mp h).2.2 hmem hb

theorem loopInv_crossHT {oldKeys newKeys : List Nat} {st : LoopState}
    (newValues : List Nat) (hndN : newKeys.Nodup)
    (inv : LoopInv oldKeys newKeys st)
    (hc : st.oldHead ≤ st.oldTail ∧ st.newHead ≤ st.newTail)
    (h1 : ¬ getI st.oldParts st.oldHead = some none)
    (h5 : getI oldKeys st.oldHead = getI newKeys st.newTail) :
    LoopInv oldKeys newKeys
      { st with
          s := insertPartBefore
            (updatePart st.s (getPart st.oldParts st.oldHead)
              (getV newValues st.newTail))
            (getPart st.oldParts st.oldHead)
            (aget (aset st.newParts st.newTail (getPart st.oldParts st.oldHead))
              (st.newTail + 1))
          newParts := aset st.newParts st.newTail (getPart st.oldParts st.oldHead)
          oldHead := st.oldHead + 1
          newTail := st.newTail - 1 } := by
  obtain ⟨shape, ohPos, otLt, ohLe, olen, domEq, domNodup, fresh, keyK, mapsOk⟩ := inv
  obtain ⟨t1, t2, t3, t4, t5⟩ := shape
  have hnt : 0 ≤ st.newTail := by omega
  have hlive := slot_live st.oldParts st.oldHead ohPos (by rw [olen]; omega) h1
  set p := getPart st.oldParts st.oldHead with hp
  set Pre := liveSeg st.newParts 0 st.newHead.toNat with hPreDef
  set MidR := liveSeg st.oldParts (st.oldHead.toNat + 1) (st.oldTail + 1).toNat
    with hMidRDef
  set Suf := liveSeg st.newParts (st.newTail + 1).toNat newKeys.length with hSufDef
  have hMid : liveSeg st.oldParts st.oldHead.toNat (st.oldTail + 1).toNat =
      p :: MidR := by
    rw [hMidRDef, liveSeg_cons _ _ _ (by omega), Int.toNat_of_nonneg ohPos,
      hlive.2]
    rfl
  rw [hMid] at domEq
  have hdom2 : st.s.dom = Pre ++ p :: (MidR ++ Suf) := by
    rw [domEq]
    simp
  have href : aget (aset st.newParts st.newTail p) (st.newTail + 1) =
      Suf.head? := by
    rw [aget_aset_ne _ _ _ _ (by omega)]
    by_cases hlt : st.newTail + 1 < (newKeys.length : Int)
    · have hsome : (aget st.newParts (st.newTail + 1)).isSome := by
        have hcast : ((((st.newTail + 1).toNat : Nat)) : Int) = st.newTail + 1 := by
          omega
        have := (t5 (st.newTail + 1).toNat (by omega)).mpr
          (by rw [hcast]; right; omega)
        rw [hcast] at this
        exact this
      obtain ⟨q, hq⟩ := Option.isSome_iff_exists.mp hsome
      have hSufEq : Suf = q ::
          liveSeg st.newParts ((st.newTail + 1).toNat + 1) newKeys.length := by
        rw [hSufDef, liveSeg_cons _ _ _ (by omega),
          Int.toNat_of_nonneg (by omega : (0:Int) ≤ st.newTail + 1), hq]
        rfl
      rw [hq, hSufEq]
      rfl
    · have hSufEq : Suf = [] := by
        rw [hSufDef]
        exact liveSeg_empty _ _ _ (by omega)
      rw [aget_none_of_le _ _ (by omega), hSufEq]
      rfl
  have hN0 : (Pre ++ p :: (MidR ++ Suf)).Nodup := hdom2 ▸ domNodup
  have hN1 : ((Pre ++ MidR) ++ Suf).Nodup := by
    have := (List.nodup_cons.mp (List.nodup_middle.mp hN0)).2
    simpa [List.append_assoc] using this
  have hheadPf : ∀ b ∈ Suf.head?, b ∉ Pre ++ MidR := by
    intro b hb
    exact nodup_three hN1 b (List.mem_of_mem_head? hb)
  have hmove := insertPartBefore_move
    (updatePart st.s p (getV newValues st.newTail)) p
    (aget (aset st.newParts st.newTail p) (st.newTail + 1))
    Pre (MidR ++ Suf) (Pre ++ MidR) Suf
    domNodup hdom2 (by rw [List.append_assoc]) href hheadPf
  refine ⟨shapeT_assign_tail ⟨t1, t2, t3, t4, t5⟩ hc.2 _, by dsimp only; omega,
    otLt, by dsimp only; omega, olen, ?_, ?_, ?_, ?_, ?_⟩
  · show (insertPartBefore _ _ _).dom = _
    rw [hmove.1]
    have hPre2 : liveSeg (aset st.newParts st.newTail p) 0 st.newHead.toNat =
        Pre := by
      rw [hPreDef]
      exact liveSeg_congr _ _ (fun i hi1 hi2 => aget_aset_ne _ _ _ _ (by omega))
    have hMidR2 : liveSeg st.oldParts (st.oldHead + 1).toNat
        (st.oldTail + 1).toNat = MidR := by
      rw [hMidRDef, show (st.oldHead + 1).toNat = st.oldHead.toNat + 1 from
        by omega]
    have hSuf2 : liveSeg (aset st.newParts st.newTail p)
        (st.newTail - 1 + 1).toNat newKeys.length = p :: Suf := by
      rw [show (st.newTail - 1 + 1).toNat = st.newTail.toNat from by omega,
        liveSeg_cons _ _ _ (by omega), Int.toNat_of_nonneg hnt,
        aget_aset_self _ _ _ hnt,
        liveSeg_congr (st.newTail.toNat + 1) newKeys.length
          (fun i hi1 hi2 => aget_aset_ne _ _ _ _ (by omega)),
        show st.newTail.toNat + 1 = (st.newTail + 1).toNat from by omega,
        hSufDef]
      rfl
    rw [hPre2, hMidR2, hSuf2]
  · show (insertPartBefore _ _ _).dom.Nodup
    exact hmove.2.1
  · intro x hx
    show x < (insertPartBefore _ _ _).nextId
    rw [hmove.2.2]
    refine fresh x ?_
    dsimp only at hx
    rw [hmove.1] at hx
    rw [hdom2]
    simp only [List.mem_append, List.mem_cons] at hx ⊢
    tauto
  · intro j hj hdisj i hi1 hi2
    dsimp only at hdisj hi1 hi2
    rcases hdisj with hlt | hgt | htomb
    · by_cases hje : (j : Int) = st.oldHead
      · rw [hje, h5]
        exact getI_inj_ne newKeys hndN st.newTail (i : Int) hnt (by omega)
          (by omega) (by omega) (by omega)
      · exact keyK j hj (Or.inl (by omega)) i hi1 (by omega)
    · exact keyK j hj (Or.inr (Or.inl hgt)) i hi1 (by omega)
    · exact keyK j hj (Or.inr (Or.inr htomb)) i hi1 (by omega)
  · intro nm om hm
    obtain ⟨hA, hB⟩ := mapsOk nm om hm
    refine ⟨?_, hB⟩
    intro i hi1 hi2
    dsimp only at hi1 hi2
    exact hA i hi1 (by omega)

theorem loopInv_crossTH {oldKeys newKeys : List Nat} {st : LoopState}
    (newValues : List Nat) (hndN : newKeys.Nodup)
    (inv : LoopInv oldKeys newKeys st)
    (hc : st.oldHead ≤ st.oldTail ∧ st.newHead ≤ st.newTail)
    (h1 : ¬ getI st.oldParts st.oldHead = some none)
    (h2 : ¬ getI st.oldParts st.oldTail = some none)
    (hne3 : ¬ getI oldKeys st.oldHead = getI newKeys st.newHead)
    (h6 : getI oldKeys st.oldTail = getI newKeys st.newHead) :
    LoopInv oldKeys newKeys
      { st with
          s := insertPartBefore
            (updatePart st.s (getPart st.oldParts st.oldTail)
              (getV newValues st.newHead))
            (getPart st.oldParts st.oldTail)
            (some (getPart st.oldParts st.oldHead))
          newParts := aset st.newParts st.newHead (getPart st.oldParts st.oldTail)
          oldTail := st.oldTail - 1
          newHead := st.newHead + 1 } := by
  obtain ⟨shape, ohPos, otLt, ohLe, olen, domEq, domNodup, fresh, keyK, mapsOk⟩ := inv
  obtain ⟨t1, t2, t3, t4, t5⟩ := shape
  have hot : 0 ≤ st.oldTail := by omega
  have hoht : st.oldHead < st.oldTail := by
    rcases lt_or_eq_of_le hc.1 with h | h
    · exact h
    · have h6' := h6
      rw [← h] at h6'
      exact absurd h6' hne3
  have hliveH := slot_live st.oldParts st.oldHead ohPos (by rw [olen]; omega) h1
  have hliveT := slot_live st.oldParts st.oldTail hot (by rw [olen]; omega) h2
  set p := getPart st.oldParts st.oldTail with hp
  set q := getPart st.oldParts st.oldHead with hq
  set Pre := liveSeg st.newParts 0 st.newHead.toNat with hPreDef
  set M2 := liveSeg st.oldParts (st.oldHead.toNat + 1) st.oldTail.toNat with hM2Def
  set Suf := liveSeg st.newParts (st.newTail + 1).toNat newKeys.length with hSufDef
  have hMid : liveSeg st.oldParts st.oldHead.toNat (st.oldTail + 1).toNat =
      q :: (M2 ++ [p]) := by
    rw [liveSeg_cons _ _ _ (by omega), Int.toNat_of_nonneg ohPos, hliveH.2,
      show (st.oldTail + 1).toNat = st.oldTail.toNat + 1 from by omega,
      liveSeg_snoc _ _ _ (by omega), Int.toNat_of_nonneg hot, hliveT.2]
    rfl
  rw [hMid] at domEq
  have hdom2 : st.s.dom = (Pre ++ q :: M2) ++ p :: Suf := by
    rw [domEq]
    simp
  have hN0 : ((Pre ++ q :: M2) ++ p :: Suf).Nodup := hdom2 ▸ domNodup
  have hndPqM : (Pre ++ q :: M2).Nodup := (List.nodup_append.mp hN0).1
  have hqnotin : q ∉ Pre ++ M2 :=
    (List.nodup_cons.mp (List.nodup_middle.mp hndPqM)).1
  have hheadPf : ∀ b ∈ (q :: (M2 ++ Suf)).head?, b ∉ Pre := by
    intro b hb
    have hbq : q = b := by
      simp only [List.head?_cons, Option.mem_def, Option.some.injEq] at hb
      exact hb
    subst hbq
    exact fun hmem => hqnotin (List.mem_append_left _ hmem)
  have hmove := insertPartBefore_move
    (updatePart st.s p (getV newValues st.newHead)) p
    (some q)
    (Pre ++ q :: M2) Suf Pre (q :: (M2 ++ Suf))
    domNodup hdom2 (by simp) rfl hheadPf
  refine ⟨shapeT_assign_head ⟨t1, t2, t3, t4, t5⟩ hc.2 _, ohPos,
    by dsimp only; omega, by dsimp only; omega, olen, ?_, ?_, ?_, ?_, ?_⟩
  · show (insertPartBefore _ _ _).dom = _
    rw [hmove.1]
    have hPre2 : liveSeg (aset st.newParts st.newHead p) 0
        (st.newHead + 1).toNat = Pre ++ [p] := by
      rw [show (st.newHead + 1).toNat = st.newHead.toNat + 1 from by omega,
        liveSeg_snoc _ _ _ (Nat.zero_le _),
        liveSeg_congr 0 st.newHead.toNat
          (fun i hi1 hi2 => aget_aset_ne _ _ _ _ (by omega)),
        Int.toNat_of_nonneg t1, aget_aset_self _ _ _ t1, hPreDef]
      rfl
    have hMid2 : liveSeg st.oldParts st.oldHead.toNat
        (st.oldTail - 1 + 1).toNat = q :: M2 := by
      rw [show (st.oldTail - 1 + 1).toNat = st.oldTail.toNat from by omega,
        liveSeg_cons _ _ _ (by omega), Int.toNat_of_nonneg ohPos, hliveH.2]
      rfl
    have hSuf2 : liveSeg (aset st.newParts st.newHead p)
        (st.newTail + 1).toNat newKeys.length = Suf := by
      rw [hSufDef]
      exact liveSeg_congr _ _ (fun i hi1 hi2 => aget_aset_ne _ _ _ _ (by omega))
    rw [hPre2, hMid2, hSuf2]
    simp
  · show (insertPartBefore _ _ _).dom.Nodup
    exact hmove.2.1
  · intro x hx
    show x < (insertPartBefore _ _ _).nextId
    rw [hmove.2.2]
    refine fresh x ?_
    dsimp only at hx
    rw [hmove.1] at hx
    rw [hdom2]
    simp only [List.mem_append, List.mem_cons] at hx ⊢
    tauto
  · intro j hj hdisj i hi1 hi2
    dsimp only at hdisj hi1 hi2
    rcases hdisj with hlt | hgt | htomb
    · exact keyK j hj (Or.inl hlt) i (by omega) hi2
    · by_cases hje : (j : Int) = st.oldTail
      · rw [hje, h6]
        exact getI_inj_ne newKeys hndN st.newHead (i : Int) t1 (by omega)
          (by omega) (by omega) (by omega)
      · exact keyK j hj (Or.inr (Or.inl (by omega))) i (by omega) hi2
    · exact keyK j hj (Or.inr (Or.inr htomb)) i (by omega) hi2
  · intro nm om hm
    obtain ⟨hA, hB⟩ := mapsOk nm om hm
    refine ⟨?_, hB⟩
    intro i hi1 hi2
    dsimp only at hi1 hi2
    exact hA i (by omega) hi2

theorem loopInv_stuckRemH {oldKeys newKeys : List Nat} {st : LoopState}
    (nm om : Option Nat → Option Int) (s0 : RS)
    (inv : LoopInv oldKeys newKeys st)
    (hc : st.oldHead ≤ st.oldTail ∧ st.newHead ≤ st.newTail)
    (h1 : ¬ getI st.oldParts st.oldHead = some none)
    (hs0dom : s0.dom = st.s.dom) (hs0next : s0.nextId = st.s.nextId)
    (Fnm : ∀ i : Nat, st.newHead ≤ (i : Int) → (i : Int) ≤ st.newTail →
      (nm (getI newKeys (i : Int))).isSome)
    (Fom : ∀ k j, om k = some j →
      (0 ≤ j ∧ j < (oldKeys.length : Int)) ∧ getI oldKeys j = k)
    (hmiss : (nm (getI oldKeys st.oldHead)).isSome = false) :
    LoopInv oldKeys newKeys
      { st with
          s := removePart s0 (getPart st.oldParts st.oldHead)
          maps := some (nm, om)
          oldHead := st.oldHead + 1 } := by
  obtain ⟨shape, ohPos, otLt, ohLe, olen, domEq, domNodup, fresh, keyK, mapsOk⟩ := inv
  obtain ⟨t1, t2, t3, t4, t5⟩ := shape
  have hlive := slot_live st.oldParts st.oldHead ohPos (by rw [olen]; omega) h1
  set p := getPart st.oldParts st.oldHead with hp
  set Pre := liveSeg st.newParts 0 st.newHead.toNat with hPreDef
  set MidR := liveSeg st.oldParts (st.oldHead.toNat + 1) (st.oldTail + 1).toNat
    with hMidRDef
  set Suf := liveSeg st.newParts (st.newTail + 1).toNat newKeys.length with hSufDef
  have hMid : liveSeg st.oldParts st.oldHead.toNat (st.oldTail + 1).toNat =
      p :: MidR := by
    rw [hMidRDef, liveSeg_cons _ _ _ (by omega), Int.toNat_of_nonneg ohPos,
      hlive.2]
    rfl
  rw [hMid] at domEq
  have hdom2 : st.s.dom = Pre ++ p :: (MidR ++ Suf) := by
    rw [domEq]
    simp
  have hN0 : (Pre ++ p :: (MidR ++ Suf)).Nodup := hdom2 ▸ domNodup
  have hpPre : p ∉ Pre := fun hm =>
    (List.nodup_cons.mp (List.nodup_middle.mp hN0)).1 (List.mem_append_left _ hm)
  refine ⟨⟨t1, t2, t3, t4, t5⟩, by dsimp only; omega, otLt, by dsimp only; omega,
    olen, ?_, ?_, ?_, ?_, ?_⟩
  · show (s0.dom.erase p) = _
    rw [hs0dom, hdom2, erase_layout p Pre (MidR ++ Suf) hpPre]
    have hMidR2 : liveSeg st.oldParts (st.oldHead + 1).toNat
        (st.oldTail + 1).toNat = MidR := by
      rw [hMidRDef, show (st.oldHead + 1).toNat = st.oldHead.toNat + 1 from
        by omega]
    rw [hMidR2]
    simp
  · show (s0.dom.erase p).Nodup
    rw [hs0dom]
    exact domNodup.erase p
  · intro x hx
    show x < s0.nextId
    rw [hs0next]
    refine fresh x ?_
    have hx2 : x ∈ st.s.dom.erase p := by
      rw [← hs0dom]
      exact hx
    exact List.mem_of_mem_erase hx2
  · intro j hj hdisj i hi1 hi2
    dsimp only at hdisj hi1 hi2
    rcases hdisj with hlt | hgt | htomb
    · by_cases hje : (j : Int) = st.oldHead
      · intro heq
        have hT := Fnm i hi1 hi2
        rw [← heq, hje, hmiss] at hT
        exact absurd hT (by simp)
      · exact keyK j hj (Or.inl (by omega)) i hi1 hi2
    · exact keyK j hj (Or.inr (Or.inl hgt)) i hi1 hi2
    · exact keyK j hj (Or.inr (Or.inr htomb)) i hi1 hi2
  · intro nm' om' hm
    dsimp only at hm
    injection hm with h2
    injection h2 with hnm hom
    subst hnm
    subst hom
    exact ⟨fun i hi1 hi2 => Fnm i hi1 hi2, Fom⟩

theorem loopInv_stuckRemT {oldKeys newKeys : List Nat} {st : LoopState}
    (nm om : Option Nat → Option Int) (s0 : RS)
    (inv : LoopInv oldKeys newKeys st)
    (hc : st.oldHead ≤ st.oldTail ∧ st.newHead ≤ st.newTail)
    (h2 : ¬ getI st.oldParts st.oldTail = some none)
    (hs0dom : s0.dom = st.s.dom) (hs0next : s0.nextId = st.s.nextId)
    (Fnm : ∀ i : Nat, st.newHead ≤ (i : Int) → (i : Int) ≤ st.newTail →
      (nm (getI newKeys (i : Int))).isSome)
    (Fom : ∀ k j, om k = some j →
      (0 ≤ j ∧ j < (oldKeys.length : Int)) ∧ getI oldKeys j = k)
    (hmiss : (nm (getI oldKeys st.oldTail)).isSome = false) :
    LoopInv oldKeys newKeys
      { st with
          s := removePart s0 (getPart st.oldParts st.oldTail)
          maps := some (nm, om)
          oldTail := st.oldTail - 1 } := by
  obtain ⟨shape, ohPos, otLt, ohLe, olen, domEq, domNodup, fresh, keyK, mapsOk⟩ := inv
  obtain ⟨t1, t2, t3, t4, t5⟩ := shape
  have hot : 0 ≤ st.oldTail := by omega
  have hlive := slot_live st.oldParts st.oldTail hot (by rw [olen]; omega) h2
  set p := getPart st.oldParts st.oldTail with hp
  set Pre := liveSeg st.newParts 0 st.newHead.toNat with hPreDef
  set M2 := liveSeg st.oldParts st.oldHead.toNat st.oldTail.toNat with hM2Def
  set Suf := liveSeg st.newParts (st.newTail + 1).toNat newKeys.length with hSufDef
  have hMid : liveSeg st.oldParts st.oldHead.toNat (st.oldTail + 1).toNat =
      M2 ++ [p] := by
    rw [show (st.oldTail + 1).toNat = st.oldTail.toNat + 1 from by omega,
      liveSeg_snoc _ _ _ (by omega), Int.toNat_of_nonneg hot, hlive.2, hM2Def]
    rfl
  rw [hMid] at domEq
  have hdom2 : st.s.dom = (Pre ++ M2) ++ p :: Suf := by
    rw [domEq]
    simp
  have hN0 : ((Pre ++ M2) ++ p :: Suf).Nodup := hdom2 ▸ domNodup
  have hpPM : p ∉ Pre ++ M2 := fun hm =>
    (List.nodup_cons.mp (List.nodup_middle.mp hN0)).1 (List.mem_append_left _ hm)
  refine ⟨⟨t1, t2, t3, t4, t5⟩, ohPos, by dsimp only; omega, by dsimp only; omega,
    olen, ?_, ?_, ?_, ?_, ?_⟩
  · show (s0.dom.erase p) = _
    rw [hs0dom, hdom2, erase_layout p (Pre ++ M2) Suf hpPM]
    have hM22 : liveSeg st.oldParts st.oldHead.toNat
        (st.oldTail - 1 + 1).toNat = M2 := by
      rw [hM2Def, show (st.oldTail - 1 + 1).toNat = st.oldTail.toNat from
        by omega]
    rw [hM22]
  · show (s0.dom.erase p).Nodup
    rw [hs0dom]
    exact domNodup.erase p
  · intro x hx
    show x < s0.nextId
    rw [hs0next]
    refine fresh x ?_
    have hx2 : x ∈ st.s.dom.erase p := by
      rw [← hs0dom]
      exact hx
    exact List.mem_of_mem_erase hx2
  · intro j hj hdisj i hi1 hi2
    dsimp only at hdisj hi1 hi2
    rcases hdisj with hlt | hgt | htomb
    · exact keyK j hj (Or.inl hlt) i hi1 hi2
    · by_cases hje : (j : Int) = st.oldTail
      · intro heq
        have hT := Fnm i hi1 hi2
        rw [← heq, hje, hmiss] at hT
        exact absurd hT (by simp)
      · exact keyK j hj (Or.inr (Or.inl (by omega))) i hi1 hi2
    · exact keyK j hj (Or.inr (Or.inr htomb)) i hi1 hi2
  · intro nm' om' hm
    dsimp only at hm
    injection hm with h2
    injection h2 with hnm hom
    subst hnm
    subst hom
    exact ⟨fun i hi1 hi2 => Fnm i hi1 hi2, Fom⟩

theorem loopInv_stuckReuse {oldKeys newKeys : List Nat} {st : LoopState}
    (newValues : List Nat) (hndN : newKeys.Nodup)
    (nm om : Option Nat → Option Int) (s0 : RS)
    (inv : LoopInv oldKeys newKeys st)
    (hc : st.oldHead ≤ st.oldTail ∧ st.newHead ≤ st.newTail)
    (h1 : ¬ getI st.oldParts st.oldHead = some none)
    (hne3 : ¬ getI oldKeys st.oldHead = getI newKeys st.newHead)
    (hs0dom : s0.dom = st.s.dom) (hs0next : s0.nextId = st.s.nextId)
    (Fnm : ∀ i : Nat, st.newHead ≤ (i : Int) → (i : Int) ≤ st.newTail →
      (nm (getI newKeys (i : Int))).isSome)
    (Fom : ∀ k j, om k = some j →
      (0 ≤ j ∧ j < (oldKeys.length : Int)) ∧ getI oldKeys j = k)
    (jI : Int) (op : Nat)
    (hoi : om (getI newKeys st.newHead) = some jI)
    (hslot : getI st.oldParts jI = some (some op)) :
    LoopInv oldKeys newKeys
      { st with
          s := insertPartBefore (updatePart s0 op (getV newValues st.newHead))
            op (some (getPart st.oldParts st.oldHead))
          newParts := aset st.newParts st.newHead op
          oldParts := setNull st.oldParts jI
          maps := some (nm, om)
          newHead := st.newHead + 1 } := by
  obtain ⟨shape, ohPos, otLt, ohLe, olen, domEq, domNodup, fresh, keyK, mapsOk⟩ := inv
  obtain ⟨t1, t2, t3, t4, t5⟩ := shape
  obtain ⟨⟨hj0, hjlen⟩, hjkey⟩ := Fom (getI newKeys st.newHead) jI hoi
  have hwin : st.oldHead ≤ jI ∧ jI ≤ st.oldTail := by
    by_contra hout
    have hcast : ((jI.toNat : Nat) : Int) = jI := by omega
    have hcnh : ((st.newHead.toNat : Nat) : Int) = st.newHead := by omega
    have hk := keyK jI.toNat (by omega) ?_ st.newHead.toNat (by omega) (by omega)
    · rw [hcast, hcnh] at hk
      exact hk hjkey
    · rw [hcast]
      omega
  have hjne : jI ≠ st.oldHead := by
    intro he
    rw [he] at hjkey
    exact hne3 hjkey
  have hliveH := slot_live st.oldParts st.oldHead ohPos (by rw [olen]; omega) h1
  set p := op with hpop
  set q := getPart st.oldParts st.oldHead with hq
  set jN := jI.toNat with hjN
  have hcastj : ((jN : Nat) : Int) = jI := by omega
  set Pre := liveSeg st.newParts 0 st.newHead.toNat with hPreDef
  set M2 := liveSeg st.oldParts (st.oldHead.toNat + 1) jN with hM2Def
  set M3 := liveSeg st.oldParts (jN + 1) (st.oldTail + 1).toNat with hM3Def
  set Suf := liveSeg st.newParts (st.newTail + 1).toNat newKeys.length with hSufDef
  have hagj : aget st.oldParts ((jN : Nat) : Int) = some op := by
    rw [hcastj]
    simp [aget, hslot]
  have hMid : liveSeg st.oldParts st.oldHead.toNat (st.oldTail + 1).toNat =
      (q :: M2) ++ op :: M3 := by
    rw [liveSeg_split st.oldParts st.oldHead.toNat jN (st.oldTail + 1).toNat
      (by omega) (by omega), hagj]
    rw [liveSeg_cons _ _ _ (by omega), Int.toNat_of_nonneg ohPos, hliveH.2,
      hM2Def, hM3Def]
    simp
  rw [hMid] at domEq
  have hdom2 : st.s.dom = (Pre ++ q :: M2) ++ op :: (M3 ++ Suf) := by
    rw [domEq]
    simp
  have hN0 : ((Pre ++ q :: M2) ++ op :: (M3 ++ Suf)).Nodup := hdom2 ▸ domNodup
  have hndPqM : (Pre ++ q :: M2).Nodup := (List.nodup_append.mp hN0).1
  have hqnotin : q ∉ Pre ++ M2 :=
    (List.nodup_cons.mp (List.nodup_middle.mp hndPqM)).1
  have hheadPf : ∀ b ∈ (q :: (M2 ++ M3 ++ Suf)).head?, b ∉ Pre := by
    intro b hb
    have hbq : q = b := by
      simp only [List.head?_cons, Option.mem_def, Option.some.injEq] at hb
      exact hb
    subst hbq
    exact fun hmem => hqnotin (List.mem_append_left _ hmem)
  have hs1dom : (updatePart s0 op (getV newValues st.newHead)).dom = st.s.dom := hs0dom
  have hmove := insertPartBefore_move
    (updatePart s0 op (getV newValues st.newHead)) op
    (some q)
    (Pre ++ q :: M2) (M3 ++ Suf) Pre (q :: (M2 ++ M3 ++ Suf))
    (by rw [hs1dom]; exact domNodup)
    (by rw [hs1dom]; exact hdom2)
    (by simp) rfl hheadPf
  refine ⟨shapeT_assign_head ⟨t1, t2, t3, t4, t5⟩ hc.2 _, ohPos, otLt,
    by dsimp only; omega, ?_, ?_, ?_, ?_, ?_, ?_⟩
  · show (setNull st.oldParts jI).length = oldKeys.length
    rw [setNull_length]
    exact olen
  · show (insertPartBefore _ _ _).dom = _
    rw [hmove.1]
    have hPre2 : liveSeg (aset st.newParts st.newHead op) 0
        (st.newHead + 1).toNat = Pre ++ [op] := by
      rw [show (st.newHead + 1).toNat = st.newHead.toNat + 1 from by omega,
        liveSeg_snoc _ _ _ (Nat.zero_le _),
        liveSeg_congr 0 st.newHead.toNat
          (fun i hi1 hi2 => aget_aset_ne _ _ _ _ (by omega)),
        Int.toNat_of_nonneg t1, aget_aset_self _ _ _ t1, hPreDef]
      rfl
    have hMid2 : liveSeg (setNull st.oldParts jI) st.oldHead.toNat
        (st.oldTail + 1).toNat = (q :: M2) ++ M3 := by
      rw [liveSeg_split (setNull st.oldParts jI) st.oldHead.toNat jN
        (st.oldTail + 1).toNat (by omega) (by omega)]
      have hz : aget (setNull st.oldParts jI) ((jN : Nat) : Int) = none := by
        rw [hcastj]
        exact aget_setNull_self st.oldParts jI hj0
      have hseg1 : liveSeg (setNull st.oldParts jI) st.oldHead.toNat jN =
          q :: M2 := by
        rw [liveSeg_congr st.oldHead.toNat jN
          (fun i hi1 hi2 => aget_setNull_ne _ _ _ hj0 (by omega))]
        rw [liveSeg_cons _ _ _ (by omega), Int.toNat_of_nonneg ohPos, hliveH.2,
          hM2Def]
        rfl
      have hseg2 : liveSeg (setNull st.oldParts jI) (jN + 1)
          (st.oldTail + 1).toNat = M3 := by
        rw [liveSeg_congr (jN + 1) (st.oldTail + 1).toNat
          (fun i hi1 hi2 => aget_setNull_ne _ _ _ hj0 (by omega))]
      rw [hz, hseg1, hseg2]
      simp
    have hSuf2 : liveSeg (aset st.newParts st.newHead op)
        (st.newTail + 1).toNat newKeys.length = Suf := by
      rw [hSufDef]
      exact liveSeg_congr _ _ (fun i hi1 hi2 => aget_aset_ne _ _ _ _ (by omega))
    rw [hPre2, hMid2, hSuf2]
    simp
  · show (insertPartBefore _ _ _).dom.Nodup
    exact hmove.2.1
  · intro x hx
    show x < (insertPartBefore _ _ _).nextId
    rw [hmove.2.2]
    show x < s0.nextId
    rw [hs0next]
    refine fresh x ?_
    have hx2 : x ∈ Pre ++ op :: (q :: (M2 ++ M3 ++ Suf)) := by
      rw [← hmove.1]
      exact hx
    rw [hdom2]
    simp only [List.mem_append, List.mem_cons] at hx2 ⊢
    tauto
  · intro j hj hdisj i hi1 hi2
    dsimp only at hdisj hi1 hi2
    rcases hdisj with hlt | hgt | htomb
    · exact keyK j hj (Or.inl hlt) i (by omega) hi2
    · exact keyK j hj (Or.inr (Or.inl hgt)) i (by omega) hi2
    · by_cases hje : (j : Int) = jI
      · rw [hje, hjkey]
        exact getI_inj_ne newKeys hndN st.newHead (i : Int) t1 (by omega)
          (by omega) (by omega) (by omega)
      · rw [getI_setNull_ne _ _ _ hj0 hje] at htomb
        exact keyK j hj (Or.inr (Or.inr htomb)) i (by omega) hi2
  · intro nm' om' hm
    dsimp only at hm
    injection hm with h2
    injection h2 with hnm hom
    subst hnm
    subst hom
    refine ⟨?_, Fom⟩
    intro i hi1 hi2
    dsimp only at hi1 hi2
    exact Fnm i (by omega) hi2

theorem loopInv_stuckCreate {oldKeys newKeys : List Nat} {st : LoopState}
    (newValues : List Nat)
    (nm om : Option Nat → Option Int) (s0 : RS)
    (inv : LoopInv oldKeys newKeys st)
    (hc : st.oldHead ≤ st.oldTail ∧ st.newHead ≤ st.newTail)
    (h1 : ¬ getI st.oldParts st.oldHead = some none)
    (hs0dom : s0.dom = st.s.dom) (hs0next : s0.nextId = st.s.nextId)
    (Fnm : ∀ i : Nat, st.newHead ≤ (i : Int) → (i : Int) ≤ st.newTail →
      (nm (getI newKeys (i : Int))).isSome)
    (Fom : ∀ k j, om k = some j →
      (0 ≤ j ∧ j < (oldKeys.length : Int)) ∧ getI oldKeys j = k) :
    LoopInv oldKeys newKeys
      { st with
          s := updatePart
            (createAndInsertPart s0 (some (getPart st.oldParts st.oldHead))).1
            (createAndInsertPart s0 (some (getPart st.oldParts st.oldHead))).2
            (getV newValues st.newHead)
          newParts := aset st.newParts st.newHead
            (createAndInsertPart s0 (some (getPart st.oldParts st.oldHead))).2
          maps := some (nm, om)
          newHead := st.newHead + 1 } := by
  obtain ⟨shape, ohPos, otLt, ohLe, olen, domEq, domNodup, fresh, keyK, mapsOk⟩ := inv
  obtain ⟨t1, t2, t3, t4, t5⟩ := shape
  have hliveH := slot_live st.oldParts st.oldHead ohPos (by rw [olen]; omega) h1
  set q := getPart st.oldParts st.oldHead with hq
  set Pre := liveSeg st.newParts 0 st.newHead.toNat with hPreDef
  set MidR := liveSeg st.oldParts (st.oldHead.toNat + 1) (st.oldTail + 1).toNat
    with hMidRDef
  set Suf := liveSeg st.newParts (st.newTail + 1).toNat newKeys.length with hSufDef
  have hMid : liveSeg st.oldParts st.oldHead.toNat (st.oldTail + 1).toNat =
      q :: MidR := by
    rw [hMidRDef, liveSeg_cons _ _ _ (by omega), Int.toNat_of_nonneg ohPos,
      hliveH.2]
    rfl
  rw [hMid] at domEq
  have hdom2 : st.s.dom = Pre ++ (q :: (MidR ++ Suf)) := by
    rw [domEq]
    simp
  have hN0 : (Pre ++ q :: (MidR ++ Suf)).Nodup := hdom2 ▸ domNodup
  have hqnotin : q ∉ Pre ++ (MidR ++ Suf) :=
    (List.nodup_cons.mp (List.nodup_middle.mp hN0)).1
  have hheadPf : ∀ b ∈ (q :: (MidR ++ Suf)).head?, b ∉ Pre := by
    intro b hb
    have hbq : q = b := by
      simp only [List.head?_cons, Option.mem_def, Option.some.injEq] at hb
      exact hb
    subst hbq
    exact fun hmem => hqnotin (List.mem_append_left _ hmem)
  have hcreate := createAndInsertPart_layout s0 (some q) Pre
    (q :: (MidR ++ Suf)) (by rw [hs0dom]; exact hdom2) rfl hheadPf
  have hpid_not : s0.nextId ∉ st.s.dom := by
    intro hm
    have := fresh s0.nextId hm
    omega
  refine ⟨shapeT_assign_head ⟨t1, t2, t3, t4, t5⟩ hc.2 _, ohPos, otLt,
    by dsimp only; omega, olen, ?_, ?_, ?_, ?_, ?_⟩
  · show (createAndInsertPart s0 (some q)).1.dom = _
    rw [hcreate.1]
    have hPre2 : liveSeg (aset st.newParts st.newHead
        (createAndInsertPart s0 (some q)).2) 0 (st.newHead + 1).toNat =
        Pre ++ [(createAndInsertPart s0 (some q)).2] := by
      rw [show (st.newHead + 1).toNat = st.newHead.toNat + 1 from by omega,
        liveSeg_snoc _ _ _ (Nat.zero_le _),
        liveSeg_congr 0 st.newHead.toNat
          (fun i hi1 hi2 => aget_aset_ne _ _ _ _ (by omega)),
        Int.toNat_of_nonneg t1, aget_aset_self _ _ _ t1, hPreDef]
      rfl
    have hSuf2 : liveSeg (aset st.newParts st.newHead
        (createAndInsertPart s0 (some q)).2)
        (st.newTail + 1).toNat newKeys.length = Suf := by
      rw [hSufDef]
      exact liveSeg_congr _ _ (fun i hi1 hi2 => aget_aset_ne _ _ _ _ (by omega))
    have hMid2 : liveSeg st.oldParts st.oldHead.toNat (st.oldTail + 1).toNat =
        q :: MidR := hMid
    rw [hPre2, hMid2, hSuf2, hcreate.2.1]
    simp
  · show (createAndInsertPart s0 (some q)).1.dom.Nodup
    rw [hcreate.1]
    refine List.nodup_middle.mpr (List.nodup_cons.mpr ⟨?_, ?_⟩)
    · intro hm
      apply hpid_not
      rw [hdom2]
      exact hm
    · rw [← hdom2]
      exact domNodup
  · intro x hx
    show x < (createAndInsertPart s0 (some q)).1.nextId
    rw [hcreate.2.2]
    have hx2 : x ∈ Pre ++ s0.nextId :: (q :: (MidR ++ Suf)) := by
      rw [← hcreate.1]
      exact hx
    rcases List.mem_append.mp hx2 with hxl | hxr
    · have : x ∈ st.s.dom := by
        rw [hdom2]
        exact List.mem_append_left _ hxl
      have := fresh x this
      omega
    · rcases List.mem_cons.mp hxr with hxe | hxm
      · omega
      · have : x ∈ st.s.dom := by
          rw [hdom2]
          exact List.mem_append_right _ hxm
        have := fresh x this
        omega
  · intro j hj hdisj i hi1 hi2
    dsimp only at hdisj hi1 hi2
    exact keyK j hj hdisj i (by omega) hi2
  · intro nm' om' hm
    dsimp only at hm
    injection hm with h2
    injection h2 with hnm hom
    subst hnm
    subst hom
    refine ⟨?_, Fom⟩
    intro i hi1 hi2
    dsimp only at hi1 hi2
    exact Fnm i (by omega) hi2

theorem reconcileLoop_inv (oldKeys newKeys newValues : List Nat)
    (hndN : newKeys.Nodup) :
    ∀ (fuel : Nat) (st : LoopState), LoopInv oldKeys newKeys st →
      (st.oldTail + 1 - st.oldHead + (st.newTail + 1 - st.newHead)).toNat < fuel →
      LoopInv oldKeys newKeys (reconcileLoop oldKeys newKeys newValues fuel st) ∧
      ¬((reconcileLoop oldKeys newKeys newValues fuel st).oldHead ≤
          (reconcileLoop oldKeys newKeys newValues fuel st).oldTail ∧
        (reconcileLoop oldKeys newKeys newValues fuel st).newHead ≤
          (reconcileLoop oldKeys newKeys newValues fuel st).newTail) := by
  intro fuel
  induction fuel with
  | zero => intro st _ hm; omega
  | succ fuel ih =>
    intro st inv hm
    rw [reconcileLoop]
    by_cases c0 : st.oldHead ≤ st.oldTail ∧ st.newHead ≤ st.newTail
    case neg =>
      rw [if_neg c0]
      exact ⟨inv, c0⟩
    rw [if_pos c0]
    by_cases c1 : getI st.oldParts st.oldHead = some none
    · rw [if_pos c1]
      exact ih _ (loopInv_skipHead inv c0 c1) (by dsimp only; omega)
    rw [if_neg c1]
    by_cases c2 : getI st.oldParts st.oldTail = some none
    · rw [if_pos c2]
      exact ih _ (loopInv_skipTail inv c0 c2) (by dsimp only; omega)
    rw [if_neg c2]
    by_cases c3 : getI oldKeys st.oldHead = getI newKeys st.newHead
    · rw [if_pos c3]
      exact ih _ (loopInv_headMatch newValues hndN inv c0 c1 c3)
        (by dsimp only; omega)
    rw [if_neg c3]
    by_cases c4 : getI oldKeys st.oldTail = getI newKeys st.newTail
    · rw [if_pos c4]
      exact ih _ (loopInv_tailMatch newValues hndN inv c0 c2 c4)
        (by dsimp only; omega)
    rw [if_neg c4]
    by_cases c5 : getI oldKeys st.oldHead = getI newKeys st.newTail
    · rw [if_pos c5]
      exact ih _ (loopInv_crossHT newValues hndN inv c0 c1 c5)
        (by dsimp only; omega)
    rw [if_neg c5]
    by_cases c6 : getI oldKeys st.oldTail = getI newKeys st.newHead
    · rw [if_pos c6]
      exact ih _ (loopInv_crossTH newValues hndN inv c0 c1 c2 c3 c6)
        (by dsimp only; omega)
    rw [if_neg c6]
    cases hmaps : st.maps with
    | none =>
      dsimp only
      by_cases d1 : ((generateMap newKeys st.newHead st.newTail)
          (getI oldKeys st.oldHead)).isSome = false
      · rw [if_pos d1]
        exact ih _ (loopInv_stuckRemH (generateMap newKeys st.newHead st.newTail)
          (generateMap oldKeys st.oldHead st.oldTail)
          { st.s with mapBuilds := st.s.mapBuilds + 1 } inv c0 c1 rfl rfl
          (fun i hi1 hi2 => generateMap_has newKeys st.newHead st.newTail i hi1 hi2)
          (generateMap_sound oldKeys st.oldHead st.oldTail inv.ohPos inv.otLt)
          d1) (by dsimp only; omega)
      rw [if_neg d1]
      by_cases d2 : ((generateMap newKeys st.newHead st.newTail)
          (getI oldKeys st.oldTail)).isSome = false
      · rw [if_pos d2]
        exact ih _ (loopInv_stuckRemT (generateMap newKeys st.newHead st.newTail)
          (generateMap oldKeys st.oldHead st.oldTail)
          { st.s with mapBuilds := st.s.mapBuilds + 1 } inv c0 c2 rfl rfl
          (fun i hi1 hi2 => generateMap_has newKeys st.newHead st.newTail i hi1 hi2)
          (generateMap_sound oldKeys st.oldHead st.oldTail inv.ohPos inv.otLt)
          d2) (by dsimp only; omega)
      rw [if_neg d2]
      cases hoi : (generateMap oldKeys st.oldHead st.oldTail)
          (getI newKeys st.newHead) with
      | none =>
        dsimp only
        exact ih _ (loopInv_stuckCreate newValues
          (generateMap newKeys st.newHead st.newTail)
          (generateMap oldKeys st.oldHead st.oldTail)
          { st.s with mapBuilds := st.s.mapBuilds + 1 } inv c0 c1 rfl rfl
          (fun i hi1 hi2 => generateMap_has newKeys st.newHead st.newTail i hi1 hi2)
          (generateMap_sound oldKeys st.oldHead st.oldTail inv.ohPos inv.otLt))
          (by dsimp only; omega)
      | some jI =>
        cases hslot : getI st.oldParts jI with
        | none =>
          dsimp only
          rw [hslot]
          exact ih _ (loopInv_stuckCreate newValues
          (generateMap newKeys st.newHead st.newTail)
          (generateMap oldKeys st.oldHead st.oldTail)
          { st.s with mapBuilds := st.s.mapBuilds + 1 } inv c0 c1 rfl rfl
            (fun i hi1 hi2 => generateMap_has newKeys st.newHead st.newTail i hi1 hi2)
            (generateMap_sound oldKeys st.oldHead st.oldTail inv.ohPos inv.otLt))
            (by dsimp only; omega)
        | some x =>
          cases x with
          | none =>
            dsimp only
            rw [hslot]
            exact ih _ (loopInv_stuckCreate newValues
          (generateMap newKeys st.newHead st.newTail)
          (generateMap oldKeys st.oldHead st.oldTail)
          { st.s with mapBuilds := st.s.mapBuilds + 1 } inv c0 c1 rfl rfl
              (fun i hi1 hi2 => generateMap_has newKeys st.newHead st.newTail i hi1 hi2)
              (generateMap_sound oldKeys st.oldHead st.oldTail inv.ohPos inv.otLt))
              (by dsimp only; omega)
          | some op =>
            dsimp only
            rw [hslot]
            exact ih _ (loopInv_stuckReuse newValues hndN
              (generateMap newKeys st.newHead st.newTail)
              (generateMap oldKeys st.oldHead st.oldTail)
              { st.s with mapBuilds := st.s.mapBuilds + 1 } inv c0 c1 c3
              rfl rfl
              (fun i hi1 hi2 => generateMap_has newKeys st.newHead st.newTail i hi1 hi2)
              (generateMap_sound oldKeys st.oldHead st.oldTail inv.ohPos inv.otLt)
              jI op hoi hslot) (by dsimp only; omega)
    | some ms =>
      obtain ⟨nm0, om0⟩ := ms
      obtain ⟨hFnm, hFom⟩ := inv.mapsOk nm0 om0 hmaps
      dsimp only
      by_cases d1 : (nm0 (getI oldKeys st.oldHead)).isSome = false
      · rw [if_pos d1]
        exact ih _ (loopInv_stuckRemH nm0 om0 st.s inv c0 c1 rfl rfl hFnm hFom d1)
          (by dsimp only; omega)
      rw [if_neg d1]
      by_cases d2 : (nm0 (getI oldKeys st.oldTail)).isSome = false
      · rw [if_pos d2]
        exact ih _ (loopInv_stuckRemT nm0 om0 st.s inv c0 c2 rfl rfl hFnm hFom d2)
          (by dsimp only; omega)
      rw [if_neg d2]
      cases hoi : om0 (getI newKeys st.newHead) with
      | none =>
        dsimp only
        exact ih _ (loopInv_stuckCreate newValues nm0 om0 st.s inv c0 c1 rfl rfl
          hFnm hFom) (by dsimp only; omega)
      | some jI =>
        cases hslot : getI st.oldParts jI with
        | none =>
          dsimp only
          rw [hslot]
          exact ih _ (loopInv_stuckCreate newValues nm0 om0 st.s inv c0 c1 rfl rfl
            hFnm hFom) (by dsimp only; omega)
        | some x =>
          cases x with
          | none =>
            dsimp only
            rw [hslot]
            exact ih _ (loopInv_stuckCreate newValues nm0 om0 st.s inv c0 c1 rfl rfl
              hFnm hFom) (by dsimp only; omega)
          | some op =>
            dsimp only
            rw [hslot]
            exact ih _ (loopInv_stuckReuse newValues hndN nm0 om0 st.s inv c0 c1 c3
              rfl rfl hFnm hFom jI op hoi hslot) (by dsimp only; omega)

theorem liveSeg_nil (a b : Nat) : liveSeg ([] : List (Option Nat)) a b = [] := by
  unfold liveSeg
  rw [liveSegGo_nil]

theorem liveSeg_merge (l : List (Option Nat)) (a m b : Nat) (h1 : a ≤ m)
    (h2 : m ≤ b) : liveSeg l a m ++ liveSeg l m b = liveSeg l a b := by
  unfold liveSeg
  rw [show b - a = (m - a) + (b - m) from by omega, liveSegGo_split,
    show a + (m - a) = m from by omega]

theorem aget_succ_head (np : List (Option Nat)) (n : Nat) (nh nt : Int)
    (h0 : 0 ≤ nh) (h2 : nt < (n : Int)) (hle : nh ≤ nt) (h4 : np.length ≤ n)
    (h5 : ∀ i : Nat, i < n →
      ((aget np (i : Int)).isSome ↔ ((i : Int) < nh ∨ nt < (i : Int)))) :
    aget np (nt + 1) = (liveSeg np (nt + 1).toNat n).head? := by
  by_cases hlt : nt + 1 < (n : Int)
  · have hcast : (((nt + 1).toNat : Nat) : Int) = nt + 1 := by omega
    have hsome : (aget np (nt + 1)).isSome := by
      have := (h5 (nt + 1).toNat (by omega)).mpr (by rw [hcast]; right; omega)
      rw [hcast] at this
      exact this
    obtain ⟨q, hq⟩ := Option.isSome_iff_exists.mp hsome
    rw [liveSeg_cons _ _ _ (by omega), hcast, hq]
    rfl
  · rw [liveSeg_empty _ _ _ (by omega), aget_none_of_le _ _ (by omega)]
    rfl

theorem insertLoop_fill (newValues : List Nat) (n : Nat) :
    ∀ (cnt : Nat) (s : RS) (np : List (Option Nat)) (nh nt : Int),
      0 ≤ nh → nt < (n : Int) → nh ≤ nt + 1 → np.length ≤ n →
      (∀ i : Nat, i < n →
        ((aget np (i : Int)).isSome ↔ ((i : Int) < nh ∨ nt < (i : Int)))) →
      s.dom = liveSeg np 0 nh.toNat ++ liveSeg np (nt + 1).toNat n →
      s.dom.Nodup →
      (∀ p ∈ s.dom, p < s.nextId) →
      cnt = (nt + 1 - nh).toNat →
      (insertLoop newValues cnt s np nh nt).1.dom =
        liveSeg (insertLoop newValues cnt s np nh nt).2 0 n ∧
      (insertLoop newValues cnt s np nh nt).1.dom.Nodup ∧
      (insertLoop newValues cnt s np nh nt).2.length ≤ n := by
  intro cnt
  induction cnt with
  | zero =>
    intro s np nh nt h0 h2 h3 h4 h5 hdom hnd hfr hcnt
    refine ⟨?_, hnd, h4⟩
    show s.dom = liveSeg np 0 n
    rw [hdom, show nh.toNat = (nt + 1).toNat from by omega,
      liveSeg_merge np 0 (nt + 1).toNat n (by omega) (by omega)]
  | succ cnt ih =>
    intro s np nh nt h0 h2 h3 h4 h5 hdom hnd hfr hcnt
    have hle : nh ≤ nt := by omega
    rw [insertLoop, if_pos hle]
    have href : aget np (nt + 1) = (liveSeg np (nt + 1).toNat n).head? :=
      aget_succ_head np n nh nt h0 h2 hle h4 h5
    have hndPS : (liveSeg np 0 nh.toNat ++ liveSeg np (nt + 1).toNat n).Nodup :=
      hdom ▸ hnd
    have hheadPf : ∀ b ∈ (liveSeg np (nt + 1).toNat n).head?,
        b ∉ liveSeg np 0 nh.toNat := by
      intro b hb hmem
      exact (List.nodup_append.mp hndPS).2.2 hmem (List.mem_of_mem_head? hb)
    have hcr := createAndInsertPart_layout s (aget np (nt + 1))
      (liveSeg np 0 nh.toNat) (liveSeg np (nt + 1).toNat n) hdom href hheadPf
    have hpid_not : s.nextId ∉ s.dom := by
      intro hm
      have := hfr s.nextId hm
      omega
    obtain ⟨q1, q2, q3, q4, q5⟩ := shapeT_assign_head
      (⟨h0, h2, h3, h4, h5⟩ : ShapeT n np nh nt) hle
      (createAndInsertPart s (aget np (nt + 1))).2
    refine ih _ _ _ _ q1 q2 q3 q4 q5 ?_ ?_ ?_ (by omega)
    · show (createAndInsertPart s (aget np (nt + 1))).1.dom = _
      rw [hcr.1]
      have hPre2 : liveSeg (aset np nh (createAndInsertPart s (aget np (nt + 1))).2)
          0 (nh + 1).toNat =
          liveSeg np 0 nh.toNat ++ [(createAndInsertPart s (aget np (nt + 1))).2] := by
        rw [show (nh + 1).toNat = nh.toNat + 1 from by omega,
          liveSeg_snoc _ _ _ (Nat.zero_le _),
          liveSeg_congr 0 nh.toNat
            (fun i hi1 hi2 => aget_aset_ne _ _ _ _ (by omega)),
          Int.toNat_of_nonneg h0, aget_aset_self _ _ _ h0]
        rfl
      have hSuf2 : liveSeg (aset np nh (createAndInsertPart s (aget np (nt + 1))).2)
          (nt + 1).toNat n = liveSeg np (nt + 1).toNat n :=
        liveSeg_congr _ _ (fun i hi1 hi2 => aget_aset_ne _ _ _ _ (by omega))
      rw [hPre2, hSuf2, hcr.2.1]
      simp
    · show (createAndInsertPart s (aget np (nt + 1))).1.dom.Nodup
      rw [hcr.1]
      refine List.nodup_middle.mpr (List.nodup_cons.mpr ⟨?_, ?_⟩)
      · intro hm
        apply hpid_not
        rw [hdom]
        exact hm
      · rw [← hdom]
        exact hnd
    · intro x hx
      show x < (createAndInsertPart s (aget np (nt + 1))).1.nextId
      rw [hcr.2.2]
      have hx2 : x ∈ liveSeg np 0 nh.toNat ++ s.nextId ::
          liveSeg np (nt + 1).toNat n := by
        rw [← hcr.1]
        exact hx
      rcases List.mem_append.mp hx2 with hxl | hxr
      · have hms : x ∈ s.dom := by
          rw [hdom]
          exact List.mem_append_left _ hxl
        have := hfr x hms
        omega
      · rcases List.mem_cons.mp hxr with hxe | hxm
        · omega
        · have hms : x ∈ s.dom := by
            rw [hdom]
            exact List.mem_append_right _ hxm
          have := hfr x hms
          omega

theorem removeLoop_clear (P S : List Nat) :
    ∀ (cnt : Nat) (oldParts : List (Option Nat)) (s : RS) (oh ot : Int),
      0 ≤ oh →
      s.dom = P ++ liveSeg oldParts oh.toNat (ot + 1).toNat ++ S →
      s.dom.Nodup →
      cnt = (ot + 1 - oh).toNat →
      (removeLoop oldParts cnt s oh ot).dom = P ++ S ∧
      (removeLoop oldParts cnt s oh ot).dom.Nodup := by
  intro cnt
  induction cnt with
  | zero =>
    intro oldParts s oh ot h0 hdom hnd hcnt
    have hempty : liveSeg oldParts oh.toNat (ot + 1).toNat = [] :=
      liveSeg_empty _ _ _ (by omega)
    rw [hempty] at hdom
    simp only [List.append_nil] at hdom
    exact ⟨hdom, hnd⟩
  | succ cnt ih =>
    intro oldParts s oh ot h0 hdom hnd hcnt
    have hle : oh ≤ ot := by omega
    rw [removeLoop, if_pos hle]
    have hMidCons : liveSeg oldParts oh.toNat (ot + 1).toNat =
        (aget oldParts ((oh.toNat : Nat) : Int)).toList ++
        liveSeg oldParts (oh.toNat + 1) (ot + 1).toNat :=
      liveSeg_cons _ _ _ (by omega)
    have hcast : ((oh.toNat : Nat) : Int) = oh := by omega
    rcases hg : getI oldParts oh with _ | x
    · have hag : aget oldParts ((oh.toNat : Nat) : Int) = none := by
        rw [hcast, aget, hg]
        rfl
      rw [hag] at hMidCons
      simp only [Option.toList_none, List.nil_append] at hMidCons
      rw [hMidCons] at hdom
      refine ih oldParts s (oh + 1) ot (by omega) ?_ hnd (by omega)
      rw [hdom, show (oh + 1).toNat = oh.toNat + 1 from by omega]
    · cases x with
      | none =>
        have hag : aget oldParts ((oh.toNat : Nat) : Int) = none := by
          rw [hcast, aget, hg]
          rfl
        rw [hag] at hMidCons
        simp only [Option.toList_none, List.nil_append] at hMidCons
        rw [hMidCons] at hdom
        refine ih oldParts s (oh + 1) ot (by omega) ?_ hnd (by omega)
        rw [hdom, show (oh + 1).toNat = oh.toNat + 1 from by omega]
      | some p =>
        have hag : aget oldParts ((oh.toNat : Nat) : Int) = some p := by
          rw [hcast, aget, hg]
          rfl
        rw [hag] at hMidCons
        rw [hMidCons] at hdom
        have hdom2 : s.dom = P ++ p :: (liveSeg oldParts (oh.toNat + 1)
            (ot + 1).toNat ++ S) := by
          rw [hdom]
          simp
        have hN0 : (P ++ p :: (liveSeg oldParts (oh.toNat + 1)
            (ot + 1).toNat ++ S)).Nodup := hdom2 ▸ hnd
        have hpP : p ∉ P := fun hm =>
          (List.nodup_cons.mp (List.nodup_middle.mp hN0)).1
            (List.mem_append_left _ hm)
        have herase : (removePart s p).dom = P ++ (liveSeg oldParts
            (oh.toNat + 1) (ot + 1).toNat ++ S) := by
          show s.dom.erase p = _
          rw [hdom2, erase_layout p P _ hpP]
        refine ih oldParts (removePart s p) (oh + 1) ot (by omega) ?_ ?_ (by omega)
        · rw [herase, show (oh + 1).toNat = oh.toNat + 1 from by omega]
          simp
        · show (s.dom.erase p).Nodup
          exact hnd.erase p

theorem loopInv_initial (oldKeys newKeys : List Nat) (s : RS)
    (oldParts : List (Option Nat)) (nvLen : Nat)
    (hnv : nvLen = newKeys.length)
    (hlen : oldParts.length = oldKeys.length)
    (hlive : ∀ x ∈ oldParts, x.isSome)
    (hdom : s.dom = oldParts.filterMap id)
    (hnd : s.dom.Nodup)
    (hfr : ∀ p ∈ s.dom, p < s.nextId) :
    LoopInv oldKeys newKeys
      { s := s
        oldParts := oldParts
        newParts := []
        oldHead := 0
        oldTail := (oldParts.length : Int) - 1
        newHead := 0
        newTail := ((nvLen : Nat) : Int) - 1
        maps := none } := by
  subst hnv
  refine ⟨shapeT_initial _, by dsimp only; omega, by dsimp only; omega,
    by dsimp only; omega, hlen, ?_, hnd, hfr, ?_, ?_⟩
  · show s.dom = _
    rw [liveSeg_nil, liveSeg_nil,
      show ((0 : Int)).toNat = 0 from rfl,
      show (((oldParts.length : Int) - 1) + 1).toNat = oldParts.length from
        by omega,
      liveSeg_eq_filterMap oldParts oldParts.length (le_refl _)]
    rw [hdom]
    simp
  · intro j hj hdisj i hi1 hi2
    dsimp only at hdisj hi1 hi2
    rcases hdisj with h | h | h
    · omega
    · omega
    · exfalso
      rw [getI_nonneg _ _ (by omega)] at h
      have hmem := List.getElem?_mem h
      have := hlive none hmem
      simp at this
  · intro nm om hm
    dsimp only at hm
    simp at hm

theorem reconcile_core (oldKeys newKeys newValues : List Nat)
    (hndN : newKeys.Nodup) (hkv : newKeys.length = newValues.length)
    (oldParts : List (Option Nat)) (s : RS)
    (hlen : oldParts.length = oldKeys.length)
    (hlive : ∀ x ∈ oldParts, x.isSome)
    (hdom : s.dom = oldParts.filterMap id)
    (hnd : s.dom.Nodup)
    (hfr : ∀ p ∈ s.dom, p < s.nextId)
    (st : LoopState)
    (hst : st = reconcileLoop oldKeys newKeys newValues
      (oldParts.length + newValues.length + 1)
      { s := s
        oldParts := oldParts
        newParts := []
        oldHead := 0
        oldTail := (oldParts.length : Int) - 1
        newHead := 0
        newTail := ((newValues.length : Nat) : Int) - 1
        maps := none })
    (ins : RS × List (Option Nat))
    (hins : ins = insertLoop newValues ((st.newTail + 1 - st.newHead).toNat)
      st.s st.newParts st.newHead st.newTail)
    (s2 : RS)
    (hs2 : s2 = removeLoop st.oldParts ((st.oldTail + 1 - st.oldHead).toNat)
      ins.1 st.oldHead st.oldTail) :
    s2.dom = ins.2.filterMap id ∧ s2.dom.Nodup := by
  have inv0 := loopInv_initial oldKeys newKeys s oldParts newValues.length
    hkv.symm hlen hlive hdom hnd hfr
  have hmeas : ((((oldParts.length : Int) - 1) + 1 - 0 +
      ((((newValues.length : Nat) : Int) - 1) + 1 - 0)).toNat) <
      oldParts.length + newValues.length + 1 := by omega
  obtain ⟨invE, hexit⟩ := reconcileLoop_inv oldKeys newKeys newValues hndN
    (oldParts.length + newValues.length + 1) _ inv0 hmeas
  rw [← hst] at invE hexit
  obtain ⟨⟨t1, t2, t3, t4, t5⟩, ohPos, otLt, ohLe, olen, domEq, domNodup,
    fresh, keyK, mapsOk⟩ := invE
  by_cases hcase : st.newHead ≤ st.newTail
  · have hoe : ¬(st.oldHead ≤ st.oldTail) := fun h => hexit ⟨h, hcase⟩
    have hMidE : liveSeg st.oldParts st.oldHead.toNat (st.oldTail + 1).toNat =
        [] := liveSeg_empty _ _ _ (by omega)
    rw [hMidE] at domEq
    simp only [List.append_nil] at domEq
    have hfill := insertLoop_fill newValues newKeys.length
      ((st.newTail + 1 - st.newHead).toNat) st.s st.newParts st.newHead
      st.newTail t1 t2 t3 t4 t5 domEq domNodup fresh rfl
    rw [← hins] at hfill
    have hzero : (st.oldTail + 1 - st.oldHead).toNat = 0 := by omega
    rw [hzero] at hs2
    have hs2' : s2 = ins.1 := hs2
    constructor
    · rw [hs2', hfill.1]
      exact liveSeg_eq_filterMap ins.2 newKeys.length hfill.2.2
    · rw [hs2']
      exact hfill.2.1
  · have hzero : (st.newTail + 1 - st.newHead).toNat = 0 := by omega
    rw [hzero] at hins
    have hins' : ins = (st.s, st.newParts) := hins
    have hclear := removeLoop_clear (liveSeg st.newParts 0 st.newHead.toNat)
      (liveSeg st.newParts (st.newTail + 1).toNat newKeys.length)
      ((st.oldTail + 1 - st.oldHead).toNat) st.oldParts ins.1 st.oldHead
      st.oldTail ohPos (by rw [hins']; exact domEq) (by rw [hins']; exact domNodup)
      rfl
    rw [← hs2] at hclear
    have hmerge : liveSeg st.newParts 0 st.newHead.toNat ++
        liveSeg st.newParts (st.newTail + 1).toNat newKeys.length =
        liveSeg st.newParts 0 newKeys.length := by
      rw [show st.newHead.toNat = (st.newTail + 1).toNat from by omega]
      exact liveSeg_merge _ _ _ _ (by omega) (by omega)
    constructor
    · rw [hclear.1, hmerge, hins']
      exact liveSeg_eq_filterMap st.newParts newKeys.length t4
    · exact hclear.2

/-- Claim C1 (confirmed): for every reconciliation call that completes
normally with unique keys per pass, starting from a well-formed persisted
state (old parts and keys of equal length, no tombstones, the container
holding exactly the old parts in their stored order, without duplicates, all
below the allocator counter), the container ends up holding exactly the live
parts of the saved `newParts` list in slot order — the DOM document order
matches `newKeys[0..n-1]` — with the saved key list being the generated new
keys, one live part per item, and no duplicated part. -/
theorem C1_dom_order_matches_new_keys
    (keyFn : Option (Nat → Nat → Nat)) (template : Nat → Nat → Nat)
    (items : List Nat) (cache : Cache) (s : RS)
    (hndOld : cache.keyList.Nodup)
    (hndNew : (genLists keyFn template items 0).1.Nodup)
    (hlen : cache.partList.length = cache.keyList.length)
    (hlive : ∀ x ∈ cache.partList, x.isSome)
    (hdom : s.dom = cache.partList.filterMap id)
    (hnd : s.dom.Nodup)
    (hfr : ∀ p ∈ s.dom, p < s.nextId) :
    (reconcile keyFn template items cache s).s.dom =
      (reconcile keyFn template items cache s).cache.partList.filterMap id ∧
    (reconcile keyFn template items cache s).s.dom.Nodup ∧
    (reconcile keyFn template items cache s).cache.keyList =
      (genLists keyFn template items 0).1 ∧
    (reconcile keyFn template items cache s).cache.partList.length =
      items.length ∧
    ∀ i : Nat, i < items.length →
      ∃ p, getI (reconcile keyFn template items cache s).cache.partList
        (i : Int) = some (some p) := by
  have hkv : (genLists keyFn template items 0).1.length =
      (genLists keyFn template items 0).2.length := by
    rw [genLists_keys_length, genLists_values_length]
  have hcore := reconcile_core cache.keyList (genLists keyFn template items 0).1
    (genLists keyFn template items 0).2 hndNew hkv cache.partList s hlen hlive
    hdom hnd hfr _ rfl _ rfl _ rfl
  exact ⟨hcore.1, hcore.2, rfl,
    (reconcile_complete keyFn template items cache s).2.1,
    (reconcile_complete keyFn template items cache s).2.2⟩

theorem C1_dom_order_matches_new_keys_witness :
    ((genLists none (fun it _ => it) [5] 0).1.Nodup) ∧
    ((reconcile none (fun it _ => it) [5] { partList := [], keyList := [] }
        { dom := [], vals := fun _ => 0, nextId := 7, moves := 0, creates := 0,
          mapBuilds := 0 }).s.dom =
      (reconcile none (fun it _ => it) [5] { partList := [], keyList := [] }
        { dom := [], vals := fun _ => 0, nextId := 7, moves := 0, creates := 0,
          mapBuilds := 0 }).cache.partList.filterMap id ∧
    (reconcile none (fun it _ => it) [5] { partList := [], keyList := [] }
        { dom := [], vals := fun _ => 0, nextId := 7, moves := 0, creates := 0,
          mapBuilds := 0 }).s.dom.Nodup ∧
    (reconcile none (fun it _ => it) [5] { partList := [], keyList := [] }
        { dom := [], vals := fun _ => 0, nextId := 7, moves := 0, creates := 0,
          mapBuilds := 0 }).cache.keyList =
      (genLists none (fun it _ => it) [5] 0).1 ∧
    (reconcile none (fun it _ => it) [5] { partList := [], keyList := [] }
        { dom := [], vals := fun _ => 0, nextId := 7, moves := 0, creates := 0,
          mapBuilds := 0 }).cache.partList.length = ([5] : List Nat).length ∧
    ∀ i : Nat, i < ([5] : List Nat).length →
      ∃ p, getI (reconcile none (fun it _ => it) [5]
          { partList := [], keyList := [] }
          { dom := [], vals := fun _ => 0, nextId := 7, moves := 0, creates := 0,
            mapBuilds := 0 }).cache.partList (i : Int) = some (some p)) :=
  ⟨by decide,
   C1_dom_order_matches_new_keys none (fun it _ => it) [5]
     { partList := [], keyList := [] }
     { dom := [], vals := fun _ => 0, nextId := 7, moves := 0, creates := 0,
       mapBuilds := 0 }
     (by decide) (by decide) rfl (by simp) rfl (by decide) (by simp)⟩

end LitRepeat
